import Mathlib

/-!
# DNA-Analyzer front end: history store, view gate and search workflow

A shallow embedding of `src/frontend/static/script.js` (and of the earlier
`src/frontend/script.js`, in the namespace `Prototype`).

Conventions of the embedding.
* JavaScript numbers are idealised as rationals (`ℚ`), with one exception:
  the bucket of a match is an integer that the rounding of a double decides,
  and there the quotient and the product are rounded as IEEE 754 binary64
  rounds them (`toDouble`).
* A JavaScript object is an association list from keys to scalar values, in
  insertion order.
* The page has all the elements the script looks up; writes to the document
  that no later computation reads back are left out.  The active view, the
  toasts shown, the timers scheduled and the remote requests issued are kept
  as explicit state.
* `Math.random()`, `Date.now()`, the outcome of a storage write and the reply
  of the remote service are inputs of the operations that consume them.
* What the canvas context is asked to draw is left out, except the vertices
  `drawFrequencyGraph` plots.
-/

namespace DNAAnalyzer

/-! ## JavaScript values and objects -/

/-- Scalar JavaScript values. -/
inductive JsVal where
  | undefined
  | null
  | bool (b : Bool)
  | num (q : ℚ)
  | str (s : String)
  deriving DecidableEq

/-- Truthiness of a scalar, as tested by `!x`, `x || y` and `x ? a : b`. -/
def JsVal.truthy : JsVal → Bool
  | .undefined => false
  | .null => false
  | .bool b => b
  | .num q => decide (q ≠ 0)
  | .str s => decide (s ≠ "")

/-- An object: its own enumerable properties in insertion order. -/
abbrev Obj := List (String × JsVal)

/-- Property read `o[k]`; a missing property reads as `undefined`. -/
def objGet : Obj → String → JsVal
  | [], _ => .undefined
  | (k', v') :: rest, k => if k' = k then v' else objGet rest k

/-- Property write `o[k] = v`: an existing key keeps its position, a new key
goes last. -/
def objSet : Obj → String → JsVal → Obj
  | [], k, v => [(k, v)]
  | (k', v') :: rest, k, v =>
    if k' = k then (k, v) :: rest else (k', v') :: objSet rest k v

/-- Object spread `{...base, ...entry}`: the properties of `entry` are written
onto `base` one after the other. -/
def objSpread (base entry : Obj) : Obj :=
  entry.foldl (fun acc kv => objSet acc kv.1 kv.2) base

/-- The keys of an object. -/
def objKeys (o : Obj) : List String := o.map Prod.fst

/-- What `JSON.parse (JSON.stringify o)` gives back for an object of scalars:
properties whose value is `undefined` are not serialised. -/
def jsonObj (o : Obj) : Obj :=
  o.filter (fun kv => decide (kv.2 ≠ JsVal.undefined))

/-! ## History store (`localStorage`) -/

def HISTORY_KEY : String := "dna_analyzer_history"

def MAX_HISTORY_ITEMS : Nat := 50

/-- What `localStorage` holds under `HISTORY_KEY`. -/
inductive Stored where
  /-- No item (or the empty text): `getItem` gives a falsy value. -/
  | absent
  /-- The read itself throws. -/
  | unreadable
  /-- A text that `JSON.parse` rejects. -/
  | unparsable
  /-- A text that parses to something that is not an array (`null`, `{}`, `5`). -/
  | nonArray
  /-- A text that parses to an array of records. -/
  | log (items : List Obj)
  deriving DecidableEq

/-- The function `getHistory`: `none` stands for a parsed value that is not an
array; a failed read or parse is caught and gives the empty list. -/
def getHistory : Stored → Option (List Obj)
  | .absent => some []
  | .unreadable => some []
  | .unparsable => some []
  | .nonArray => none
  | .log items => some items

/-- The function `saveHistory`: `writeOk = false` is a `setItem` that throws,
which is caught and leaves the store as it was. -/
def saveHistory (writeOk : Bool) (history : List Obj) (st : Stored) : Stored :=
  if writeOk then .log (history.map jsonObj) else st

/-- The readings `addToHistory` takes from its environment. -/
structure HistEnv where
  /-- The value of `Date.now()`. -/
  now : ℕ
  /-- The value of `new Date().toISOString()`. -/
  iso : String
  /-- Whether `localStorage.setItem` succeeds. -/
  writeOk : Bool
  deriving DecidableEq

/-- The object literal `{ id: Date.now(), timestamp: new Date().toISOString(), ...entry }`. -/
def mkRecord (env : HistEnv) (entry : Obj) : Obj :=
  objSpread [("id", .num env.now), ("timestamp", .str env.iso)] entry

/-- The function `addToHistory` up to `saveHistory`; the final `renderHistory`
rewrites the history panel and is `renderHistory` below, and the whole call is
`addToHistoryCall`.  `unshift` on a value that is not an array raises. -/
def addToHistory (env : HistEnv) (entry : Obj) (st : Stored) : Except String Stored :=
  match getHistory st with
  | none => .error "TypeError: history.unshift is not a function"
  | some history =>
    let history := mkRecord env entry :: history
    let history := if history.length > MAX_HISTORY_ITEMS then history.dropLast else history
    .ok (saveHistory env.writeOk history st)

/-- A sequence of `addToHistory` calls, oldest call first. -/
def addAllToHistory (st : Stored) : List (HistEnv × Obj) → Except String Stored
  | [] => .ok st
  | (env, entry) :: rest =>
    match addToHistory env entry st with
    | .ok st' => addAllToHistory st' rest
    | .error msg => .error msg

/-- The record as it is read back from the store. -/
def storedRecord (a : HistEnv × Obj) : Obj := jsonObj (mkRecord a.1 a.2)

/-! ## Rendering the history panel -/

/-- Whether `renderHistory` can render a record: it calls
`item.pattern.toUpperCase()` when `item.pattern` is truthy, and only a text
has that method. -/
def patternRenders (item : Obj) : Bool :=
  match objGet item "pattern" with
  | .str _ => true
  | v => !v.truthy

/-- The function `renderHistory`, as far as it can raise: it reads the store
with `getHistory` and raises on a value that is not an array and on a record
it cannot render. -/
def renderHistory (st : Stored) : Except String Unit :=
  match getHistory st with
  | none => .error "TypeError: history.forEach is not a function"
  | some history =>
    if history.all patternRenders then .ok ()
    else .error "TypeError: item.pattern.toUpperCase is not a function"

/-- Whether a call of `addToHistory`, its final `renderHistory` included,
raises. -/
def addToHistoryRaises (env : HistEnv) (entry : Obj) (st : Stored) : Bool :=
  match addToHistory env entry st with
  | .error _ => true
  | .ok st' =>
    match renderHistory st' with
    | .error _ => true
    | .ok _ => false

/-- A history record as the program writes it: no key twice, and a `pattern`
that is a text when it is there. -/
def HistoryRecord (item : Obj) : Prop :=
  (objKeys item).Nodup ∧ patternRenders item = true

/-- The whole call `addToHistory(entry)`: the store after it and the error it
raises, if any.  The final `renderHistory` runs after the write, so an error
it raises leaves the written store behind. -/
def addToHistoryCall (env : HistEnv) (entry : Obj) (st : Stored) : Stored × Option String :=
  match addToHistory env entry st with
  | .error msg => (st, some msg)
  | .ok st' =>
    match renderHistory st' with
    | .error msg => (st', some msg)
    | .ok _ => (st', none)

/-! ## Session state -/

/-- The four views of the page (`viewUpload`, `viewDashboard`, `viewResults`,
`viewHistory`). -/
inductive View where
  | upload
  | dashboard
  | results
  | history
  deriving DecidableEq

/-- The identifier a view is addressed by (`btn.dataset.view`). -/
def View.id : View → String
  | .upload => "upload"
  | .dashboard => "dashboard"
  | .results => "results"
  | .history => "history"

/-- Body of a successful `POST /sequences/upload/`.  `name` and `length` are
`none` when missing; `gc_content` is `some` exactly when it is a number. -/
structure UploadData where
  id : JsVal
  name : Option String
  length : Option ℚ
  gc_content : Option ℚ
  deriving DecidableEq

/-- One element of `data.results`. -/
structure Match where
  position : ℚ
  context_before : Option String
  context_after : Option String
  deriving DecidableEq

/-- The object `data.job`; a field is `none` when it is missing or `null`. -/
structure Job where
  pattern : Option String
  total_matches : Option ℚ
  algorithm_used : Option String
  search_time_ms : Option ℚ
  deriving DecidableEq

/-- Body of a successful `POST /search/`; a field is `none` when it is missing
or `null`. -/
structure SearchData where
  job : Option Job
  results : Option (List Match)
  end_to_end_ms : Option ℚ
  algorithm_used : Option String
  search_time_ms : Option ℚ
  deriving DecidableEq

/-- How a remote call ends: the transport fails (`fetch` rejects), the service
answers with a non-success status (`detail` is `err.detail`, `body` is
`JSON.stringify(err)`), or it answers with a body. -/
inductive Reply (α : Type) where
  | failed (message : String)
  | rejected (detail : Option String) (body : String)
  | ok (data : α)

/-- The operator `a || b` on an optional text: `a` unless it is missing or empty. -/
def strOr (a : Option String) (b : String) : String :=
  match a with
  | some s => if s ≠ "" then s else b
  | none => b

/-- The `message` of the error thrown for a reply that is not a success:
`err.detail || JSON.stringify(err)`, or the message the transport gave. -/
def Reply.errorMessage {α : Type} : Reply α → String
  | .failed message => message
  | .rejected detail body => strOr detail body
  | .ok _ => ""

structure Particle where
  x : ℚ
  y : ℚ
  vx : ℚ
  vy : ℚ
  size : ℚ
  color : String
  pulse : ℚ
  /-- Present on burst particles only. -/
  life : Option ℚ
  deriving DecidableEq

structure PulseRing where
  radius : ℚ
  maxRadius : ℚ
  opacity : ℚ
  speed : ℚ
  deriving DecidableEq

structure DataPoint where
  x : ℚ
  y : ℚ
  targetY : ℚ
  deriving DecidableEq

/-- The object `vizData`. -/
structure VizData where
  sequenceLength : ℚ
  gcContent : ℚ
  «matches» : List Match
  algorithm : Option String
  searchTime : Option ℚ
  isSearching : Bool
  dnaStrands : List Unit
  particles : List Particle
  pulseRings : List PulseRing
  dataPoints : List DataPoint
  deriving DecidableEq

/-- A message shown by `showToast`. -/
structure Toast where
  message : String
  type : String
  deriving DecidableEq

/-- The callbacks the script hands to `setTimeout`. -/
inductive Callback where
  | resizeCanvas
  | hideToast
  | uploadDone
  deriving DecidableEq

structure Timer where
  callback : Callback
  delay : ℕ
  deriving DecidableEq

/-- A remote request issued with `fetch`. -/
inductive Request where
  | upload (fileName : String)
  | search (sequence_id : JsVal) (pattern : String) (allow_overlapping : Bool)
  deriving DecidableEq

/-- The backing store of the canvas element. -/
structure Canvas where
  width : ℚ
  height : ℚ
  deriving DecidableEq

/-- The globals of the script, the store, and what the page shows. -/
structure State where
  isFileUploaded : Bool
  uploadedSequence : Option UploadData
  vizCanvas : Option Canvas
  vizWidth : ℚ
  vizHeight : ℚ
  vizTime : ℚ
  vizData : VizData
  /-- The view element carrying the class `active`. -/
  activeView : View
  /-- The item of `localStorage` under `HISTORY_KEY`. -/
  storage : Stored
  toasts : List Toast
  timers : List Timer
  requests : List Request
  /-- Errors that left a handler uncaught. -/
  uncaught : List String
  deriving DecidableEq

/-- The state when the script has loaded: the declarations at the top of the
file, the upload view active, nothing shown or requested yet. -/
def State.init (storage : Stored) : State where
  isFileUploaded := false
  uploadedSequence := none
  vizCanvas := none
  vizWidth := 0
  vizHeight := 0
  vizTime := 0
  vizData :=
    { sequenceLength := 0, gcContent := 0, «matches» := [], algorithm := none,
      searchTime := none, isSearching := false, dnaStrands := [], particles := [],
      pulseRings := [], dataPoints := [] }
  activeView := .upload
  storage := storage
  toasts := []
  timers := []
  requests := []
  uncaught := []

/-- The function `showToast`: the message is shown and its removal scheduled. -/
def showToast (message : String) (type : String) (s : State) : State :=
  { s with toasts := s.toasts ++ [⟨message, type⟩],
           timers := s.timers ++ [⟨.hideToast, 3000⟩] }

/-! ## Navigation -/

/-- The declared function `switchView`, which the end of the script keeps as
`originalSwitchView`. -/
def originalSwitchView (viewId : View) (s : State) : State :=
  if !s.isFileUploaded && !([View.upload, View.history].contains viewId) then
    showToast "⚠️ Acceso Denegado: Importa una secuencia primero" "error" s
  else
    { s with activeView := viewId }

/-- The function the script assigns to `switchView` at its end, and which every
later call reaches. -/
def switchView (viewId : View) (s : State) : State :=
  let s := originalSwitchView viewId s
  if viewId = .dashboard then
    { s with timers := s.timers ++ [⟨.resizeCanvas, 50⟩] }
  else s

/-- The number of pending `setTimeout(resizeCanvas, 50)` calls. -/
def resizeTimers (s : State) : ℕ :=
  (s.timers.filter fun t => decide (t.callback = .resizeCanvas)).length

namespace Prototype

/-- The function `switchView` of `src/frontend/script.js`. -/
def switchView (viewId : View) (s : State) : State :=
  if !s.isFileUploaded && !([View.upload, View.history].contains viewId) then
    showToast "⛔ Acceso Denegado: Importa una secuencia primero" "error" s
  else
    { s with activeView := viewId }

end Prototype

/-! ## Visualization data -/

/-- The function `initSequenceVisualization`. -/
def initSequenceVisualization (s : State) : State :=
  { s with vizData :=
      { s.vizData with
        dataPoints := []
        pulseRings := (List.range 3).map fun (i : ℕ) =>
          { radius := 50 + (i : ℚ) * 40, maxRadius := 150, opacity := 0.5,
            speed := 0.5 + (i : ℚ) * 0.2 } } }

/-- Rounding to the nearest integer, a tie going to the even one. -/
def roundHalfEven (q : ℚ) : ℤ :=
  let f := ⌊q⌋
  let r := q - f
  if r < 1 / 2 then f else if 1 / 2 < r then f + 1 else if f % 2 = 0 then f else f + 1

/-- The binary exponent of the doubles next to `q`: the `e` with
`2 ^ e ≤ |q| < 2 ^ (e + 1)`, and `-1022` below the normal range. -/
def binade (q : ℚ) : ℤ := max (Int.log 2 |q|) (-1022)

/-- The double (IEEE 754 binary64) nearest to `q`, a tie going to the even
significand: the doubles next to `q` are the multiples of `2 ^ (binade q - 52)`.
A result past the largest double is `Infinity`, for which `2 ^ 1024` stands,
with its sign. -/
def toDouble (q : ℚ) : ℚ :=
  let ulp : ℚ := 2 ^ (binade q - 52)
  let r : ℚ := (roundHalfEven (q / ulp) : ℚ) * ulp
  if (2 : ℚ) ^ (1024 : ℤ) ≤ |r| then (if 0 ≤ q then 2 ^ (1024 : ℤ) else -2 ^ (1024 : ℤ)) else r

/-- The bucket of a match: `Math.floor((m.position / vizData.sequenceLength) * points)`,
the quotient and the product being doubles. -/
def bucketOf (sequenceLength : ℚ) (m : Match) : ℤ :=
  ⌊toDouble (toDouble (m.position / sequenceLength) * 100)⌋

/-- One round of the `forEach` over the matches: `matchDensity[bucket]++` when
the bucket is an index of the array. -/
def countMatch (sequenceLength : ℚ) (matchDensity : List ℕ) (m : Match) : List ℕ :=
  let bucket := bucketOf sequenceLength m
  if 0 ≤ bucket ∧ bucket < 100 then
    List.modify (fun c => c + 1) bucket.toNat matchDensity
  else matchDensity

/-- The array `matchDensity` after the loop over the matches. -/
def matchDensity (sequenceLength : ℚ) (ms : List Match) : List ℕ :=
  ms.foldl (countMatch sequenceLength) (List.replicate 100 0)

/-- The value `Math.max(...matchDensity, 1)`. -/
def maxDensity (density : List ℕ) : ℕ :=
  density.foldr max 1

/-- The data points pushed by the loop `for (let i = 0; i < points; i++)`. -/
def densityPoints (sequenceLength : ℚ) (ms : List Match) : List DataPoint :=
  let density := matchDensity sequenceLength ms
  (List.range 100).map fun (i : ℕ) =>
    { x := (i : ℚ) / 100, y := 0.2,
      targetY := 0.2 + ((density.getD i 0 : ℚ) / (maxDensity density : ℚ)) * 0.6 }

/-- The burst pushed at the end of `updateVisualizationWithResults`; particle
`i` takes the readings `3 i`, `3 i + 1` and `3 i + 2` of `Math.random()`. -/
def burstParticles (rand : ℕ → ℚ) (vizWidth vizHeight : ℚ) : List Particle :=
  (List.range 20).map fun (i : ℕ) =>
    { x := vizWidth / 2, y := vizHeight / 2,
      vx := (rand (3 * i) - 0.5) * 4, vy := (rand (3 * i + 1) - 0.5) * 4,
      size := 2 + rand (3 * i + 2) * 3, color := "#22d3ee", pulse := 0, life := some 1 }

/-- The function `updateVisualizationWithResults`. -/
def updateVisualizationWithResults (rand : ℕ → ℚ) (s : State) : State :=
  let v := s.vizData
  let v :=
    if v.«matches».length > 0 ∧ v.sequenceLength > 0 then
      { v with dataPoints := densityPoints v.sequenceLength v.«matches» }
    else v
  { s with vizData := { v with particles := v.particles ++ burstParticles rand s.vizWidth s.vizHeight } }

/-! ## Upload workflow -/

/-- The function `handleUpload`, from the request to the end of the `try` or
`catch` block that the reply selects. -/
def handleUpload (fileName : String) (reply : Reply UploadData) (s : State) : State :=
  let s := { s with requests := s.requests ++ [.upload fileName] }
  match reply with
  | .ok data =>
    let s := { s with uploadedSequence := some data, isFileUploaded := true }
    let gcVal := data.gc_content
    let s := { s with vizData :=
      { s.vizData with sequenceLength := data.length.getD 0, gcContent := gcVal.getD 0 } }
    let s := initSequenceVisualization s
    let s := showToast "Secuencia importada correctamente" "success" s
    let s := switchView .dashboard s
    { s with timers := s.timers ++ [⟨.uploadDone, 500⟩] }
  | failure =>
    showToast ("Error al cargar: " ++ failure.errorMessage) "error" s

/-! ## Search workflow -/

/-- The readings `runSearch` takes from its environment once the reply is in. -/
structure SearchEnv where
  hist : HistEnv
  /-- The successive values of `Math.random()`. -/
  rand : ℕ → ℚ
  /-- The readings of the `addToHistory` call of the `catch` block when the
  call of the `try` block was made and raised. -/
  histCatch : HistEnv

/-- The value `uploadedSequence?.id`. -/
def sequenceId (s : State) : JsVal :=
  match s.uploadedSequence with
  | some seq => seq.id
  | none => .undefined

/-- The value `uploadedSequence?.name || 'Secuencia'`. -/
def sequenceName (s : State) : String :=
  strOr (s.uploadedSequence.bind fun seq => seq.name) "Secuencia"

/-- The two guards at the top of `runSearch`: the notice shown when the call
is turned down, `none` when it goes on. -/
def searchGuard (val : String) (s : State) : Option String :=
  if val = "" then some "Ingrese un patron"
  else if !(sequenceId s).truthy then some "Carga una secuencia antes de buscar"
  else none

/-- The part of `runSearch` between the guards and the first `await`. -/
def runSearchStart (val : String) (s : State) : State :=
  let s := { s with vizData := { s.vizData with isSearching := true } }
  let s := switchView .results s
  { s with requests := s.requests ++ [.search (sequenceId s) val true] }

/-- The value `job.algorithm_used || data.algorithm_used || 'naive-local'`. -/
def algoRaw (data : SearchData) : String :=
  strOr (data.job.bind fun job => job.algorithm_used)
    (strOr data.algorithm_used "naive-local")

/-- The value `data.end_to_end_ms ?? job.search_time_ms ?? data.search_time_ms`. -/
def totalMs (data : SearchData) : Option ℚ :=
  match data.end_to_end_ms with
  | some t => some t
  | none =>
    match data.job.bind fun job => job.search_time_ms with
    | some t => some t
    | none => data.search_time_ms

/-- The value `job.total_matches ?? results.length`. -/
def matchCount (data : SearchData) : ℚ :=
  match data.job.bind fun job => job.total_matches with
  | some n => n
  | none => ((data.results.getD []).length : ℚ)

/-- The function `renderResults`, as far as it changes `vizData`. -/
def renderResults (rand : ℕ → ℚ) (data : SearchData) (s : State) : State :=
  let results := data.results.getD []
  let s := { s with vizData :=
    { s.vizData with «matches» := results, algorithm := some (algoRaw data),
                     searchTime := totalMs data } }
  updateVisualizationWithResults rand s

/-- An optional number as a property value. -/
def optNum : Option ℚ → JsVal
  | some q => .num q
  | none => .undefined

/-- The entry `runSearch` records for a search that succeeded. -/
def successEntry (val : String) (data : SearchData) (s : State) : Obj :=
  [("type", .str "search"), ("pattern", .str val), ("fileName", .str (sequenceName s)),
   ("matches", .num (matchCount data)), ("algorithm", .str (algoRaw data)),
   ("searchTime", optNum (totalMs data)), ("status", .str "success")]

/-- The entry `runSearch` records for a search that failed. -/
def errorEntry (val : String) (message : String) (s : State) : Obj :=
  [("type", .str "search"), ("pattern", .str val), ("fileName", .str (sequenceName s)),
   ("message", .str message), ("status", .str "error")]

/-- The `catch` block of `runSearch`; an `addToHistory` that raises here, in
`unshift` or in its final `renderHistory`, leaves the handler uncaught before
the toast is shown. -/
def searchCatch (env : SearchEnv) (val : String) (message : String) (s : State) : State :=
  let s := { s with vizData := { s.vizData with isSearching := false } }
  match addToHistoryCall env.hist (errorEntry val message s) s.storage with
  | (st, none) => showToast ("Error en busqueda: " ++ message) "error" { s with storage := st }
  | (st, some msg) => { s with storage := st, uncaught := s.uncaught ++ [msg] }

/-- The part of `runSearch` that runs once the reply is in.  An error raised
by `addToHistory` inside the `try` block, in `unshift` or in its final
`renderHistory`, is caught by the `catch` block, which calls `addToHistory`
a second time. -/
def runSearchFinish (env : SearchEnv) (val : String) (reply : Reply SearchData)
    (s : State) : State :=
  match reply with
  | .ok data =>
    let s := { s with vizData := { s.vizData with isSearching := false } }
    match s.uploadedSequence with
    | none => searchCatch env val "TypeError: uploadedSequence is null" s
    | some _ =>
      let s := renderResults env.rand data s
      match addToHistoryCall env.hist (successEntry val data s) s.storage with
      | (st, none) => showToast "Busqueda completada" "success" { s with storage := st }
      | (st, some msg) =>
        searchCatch { env with hist := env.histCatch } val msg { s with storage := st }
  | failure => searchCatch env val failure.errorMessage s

/-- The function `runSearch` with no other handler running between its
request and the reply; `val` is the value of the pattern input. -/
def runSearch (env : SearchEnv) (val : String) (reply : Reply SearchData)
    (s : State) : State :=
  match searchGuard val s with
  | some notice => showToast notice "error" s
  | none => runSearchFinish env val reply (runSearchStart val s)

/-! ## Sessions -/

/-- What can happen to the page: a navigation request, an upload running to
its reply, and a search, either whole or as its two halves with other events
in between.  A `searchFinish` is allowed at any point, which only adds states
to those the page can reach. -/
inductive Event where
  | switchView (viewId : View)
  | upload (fileName : String) (reply : Reply UploadData)
  | search (env : SearchEnv) (val : String) (reply : Reply SearchData)
  | searchStart (val : String)
  | searchFinish (env : SearchEnv) (val : String) (reply : Reply SearchData)

/-- The effect of one event. -/
def step (s : State) : Event → State
  | .switchView viewId => switchView viewId s
  | .upload fileName reply => handleUpload fileName reply s
  | .search env val reply => runSearch env val reply s
  | .searchStart val =>
    match searchGuard val s with
    | some notice => showToast notice "error" s
    | none => runSearchStart val s
  | .searchFinish env val reply => runSearchFinish env val reply s

/-- The state after a sequence of events, first event first. -/
def run (s : State) (events : List Event) : State :=
  events.foldl step s

deriving instance DecidableEq for Except

/-! ## Sample inputs -/

/-- Sixty calls of `addToHistory` with distinct entries, one millisecond apart,
all of them stored. -/
def sixtyAdds : List (HistEnv × Obj) :=
  (List.range 60).map fun (i : ℕ) =>
    (⟨1000 + i, "2025-01-01T00:00:00.000Z", true⟩,
     [("type", .str "search"), ("matches", .num i), ("status", .str "success")])

/-- A stored array of 51 records, one more than the program itself ever writes. -/
def overlongLog : List Obj :=
  (List.range 51).map fun (i : ℕ) => [("id", .num i), ("timestamp", .str "t")]

/-- The warning `switchView` shows when it turns a transition down. -/
def accessDenied : Toast :=
  ⟨"⚠️ Acceso Denegado: Importa una secuencia primero", "error"⟩

/-- A session in which a sequence of 1000 bases has been uploaded. -/
def uploadedSession : State :=
  handleUpload "seq.fasta" (.ok ⟨.num 1, some "seq", some 1000, some 50⟩) (State.init .absent)

/-- A session whose upload was answered with the id 0. -/
def zeroIdSession : State :=
  handleUpload "seq.fasta" (.ok ⟨.num 0, some "seq", some 1000, some 50⟩) (State.init .absent)

/-- A search reply with three matches, a server time and an end-to-end time. -/
def sampleSearchData : SearchData where
  job := some ⟨some "ACGT", some 3, some "kmp", some 1.5⟩
  results := some [⟨10, none, none⟩, ⟨10, none, none⟩, ⟨990, none, none⟩]
  end_to_end_ms := some 12.5
  algorithm_used := none
  search_time_ms := none

/-- Matches at the positions 10, 10 and 990. -/
def sampleMatches : List Match :=
  [⟨10, none, none⟩, ⟨10, none, none⟩, ⟨990, none, none⟩]

/-- A session with a sequence of length 1000 and the matches 10, 10 and 990 in
`vizData`. -/
def sampleMatchSession : State :=
  { uploadedSession with
    vizData := { uploadedSession.vizData with sequenceLength := 1000, «matches» := sampleMatches } }

/-- A session with a sequence of length 100 and one match, at position 29, in
`vizData`. -/
def edgeBucketSession : State :=
  { uploadedSession with
    vizData := { uploadedSession.vizData with
      sequenceLength := 100, «matches» := [⟨29, none, none⟩] } }

/-- A stored log with a record this script did not write: its `pattern` is the
number 5. -/
def foreignLog : List Obj :=
  [[("id", .num 1), ("timestamp", .str "t"), ("pattern", .num 5)]]

/-- A session in which a sequence has been uploaded and the store holds
`foreignLog`. -/
def foreignSession : State :=
  { uploadedSession with storage := .log foreignLog }

/-! ## The density histogram as the specification words it -/

/-- The number `c_i` of matches whose bucket
`floor(position / sequenceLength * 100)`, taken in double arithmetic, is `i`. -/
def bucketCount (sequenceLength : ℚ) (ms : List Match) (i : ℕ) : ℕ :=
  ms.countP fun m =>
    decide (⌊toDouble (toDouble (m.position / sequenceLength) * 100)⌋ = (i : ℤ))

/-- The largest of the counts `c_0, ..., c_99`. -/
def peakCount (sequenceLength : ℚ) (ms : List Match) : ℕ :=
  ((List.range 100).map (bucketCount sequenceLength ms)).foldr max 0

/-- The hundred points: `x = i/100`, `y = 0.2` and
`targetY = 0.2 + (c_i / max(1, max_j c_j)) * 0.6`. -/
def specPoints (sequenceLength : ℚ) (ms : List Match) : List DataPoint :=
  (List.range 100).map fun (i : ℕ) =>
    { x := (i : ℚ) / 100, y := 0.2,
      targetY := 0.2 + ((bucketCount sequenceLength ms i : ℚ)
        / ((max 1 (peakCount sequenceLength ms) : ℕ) : ℚ)) * 0.6 }

/-! ## Invariant of the view gate -/

/-- The gate invariant: an upload flag that is set comes with a stored
sequence, and a data view is active only under a set flag. -/
def GateInv (s : State) : Prop :=
  (s.isFileUploaded = true → s.uploadedSequence ≠ none) ∧
  ((s.activeView = .dashboard ∨ s.activeView = .results) → s.isFileUploaded = true)

/-! ## Relative age of a history entry -/

/-- The function `formatTimeAgo`: `now` and `date` are the two dates in
milliseconds, `localeDate` is `date.toLocaleDateString('es-ES')`. -/
def formatTimeAgo (now date : ℤ) (localeDate : String) : String :=
  let diffMs : ℤ := now - date
  let diffMins : ℤ := ⌊(diffMs : ℚ) / 60000⌋
  let diffHours : ℤ := ⌊(diffMs : ℚ) / 3600000⌋
  let diffDays : ℤ := ⌊(diffMs : ℚ) / 86400000⌋
  if diffMins < 1 then "Ahora mismo"
  else if diffMins < 60 then "Hace " ++ toString diffMins ++ " min"
  else if diffHours < 24 then
    "Hace " ++ toString diffHours ++ " hora" ++ (if diffHours > 1 then "s" else "")
  else if diffDays < 7 then
    "Hace " ++ toString diffDays ++ " dia" ++ (if diffDays > 1 then "s" else "")
  else localeDate

/-! ## The canvas and its particles -/

/-- The value of `Math.PI`, the double nearest to π. -/
def Math_PI : ℚ := 884279719003555 / 281474976710656

/-- The colors `initParticles` draws from. -/
def particleColors : List String := ["#8b5cf6", "#22d3ee", "#f472b6", "#a78bfa"]

/-- The particle pushed by round `i` of the loop of `initParticles`; it takes
the readings `7 i` to `7 i + 6` of `Math.random()`.  A reading lies in
`[0, 1)`, so the color index is one of 0 to 3. -/
def ambientParticle (rand : ℕ → ℚ) (vizWidth vizHeight : ℚ) (i : ℕ) : Particle :=
  { x := rand (7 * i) * vizWidth, y := rand (7 * i + 1) * vizHeight,
    vx := (rand (7 * i + 2) - 0.5) * 0.5, vy := (rand (7 * i + 3) - 0.5) * 0.5,
    size := 1 + rand (7 * i + 4) * 2,
    color := particleColors.getD ⌊rand (7 * i + 5) * 4⌋.toNat "undefined",
    pulse := rand (7 * i + 6) * Math_PI * 2, life := none }

/-- The function `initParticles`. -/
def initParticles (rand : ℕ → ℚ) (s : State) : State :=
  { s with vizData :=
      { s.vizData with
        particles := (List.range 60).map (ambientParticle rand s.vizWidth s.vizHeight) } }

/-- The value `window.devicePixelRatio || 1`. -/
def pixelRatio (devicePixelRatio : ℚ) : ℚ :=
  if devicePixelRatio ≠ 0 then devicePixelRatio else 1

/-- The function `initVisualizer`, up to the start of the animation: the
canvas and its context are taken, the surface is 400 by 300. -/
def initVisualizer (devicePixelRatio : ℚ) (rand : ℕ → ℚ) (s : State) : State :=
  let s := { s with vizWidth := 400, vizHeight := 300 }
  let dpr := pixelRatio devicePixelRatio
  let s := { s with vizCanvas := some ⟨s.vizWidth * dpr, s.vizHeight * dpr⟩ }
  initParticles rand s

/-- The function `resizeCanvas`.  `wrapper` is the client size of the parent
of the canvas, `none` when there is no parent; a `vizCanvas` of `none` stands
for a missing canvas or context. -/
def resizeCanvas (wrapper : Option (ℚ × ℚ)) (devicePixelRatio : ℚ) (rand : ℕ → ℚ)
    (s : State) : State :=
  match s.vizCanvas with
  | none => s
  | some _ =>
    match wrapper with
    | none => s
    | some (newWidth, newHeight) =>
      if newWidth < 50 ∨ newHeight < 50 then s
      else if newWidth = s.vizWidth ∧ newHeight = s.vizHeight then s
      else
        let s := { s with vizWidth := newWidth, vizHeight := newHeight }
        let dpr := pixelRatio devicePixelRatio
        let s := { s with vizCanvas := some ⟨s.vizWidth * dpr, s.vizHeight * dpr⟩ }
        initParticles rand s

/-! ## Frames -/

/-- The function `drawFrequencyGraph`: the state after the call and the
vertices plotted for the data points, in canvas coordinates. -/
def drawFrequencyGraph (s : State) : State × List (ℚ × ℚ) :=
  if s.vizData.«matches».length = 0 then (s, [])
  else if s.vizData.dataPoints.length = 0 then (s, [])
  else
    let graphX : ℚ := 30
    let graphY : ℚ := s.vizHeight * 0.85
    let graphWidth : ℚ := s.vizWidth * 0.42
    let graphHeight : ℚ := s.vizHeight * 0.35
    let dataPoints := s.vizData.dataPoints.map fun p =>
      { p with y := p.y + (p.targetY - p.y) * 0.08 }
    ({ s with vizData := { s.vizData with dataPoints := dataPoints } },
     dataPoints.map fun p => (graphX + p.x * graphWidth, graphY - p.y * graphHeight))

/-- The first part of the callback of `drawParticles`: the particle moves, its
pulse advances, and a velocity component changes sign when the moved
coordinate is off the surface. -/
def moveParticle (vizWidth vizHeight : ℚ) (p : Particle) : Particle :=
  let x := p.x + p.vx
  let y := p.y + p.vy
  { p with
    x := x, y := y, pulse := p.pulse + 0.05,
    vx := if x < 0 ∨ x > vizWidth then p.vx * -1 else p.vx,
    vy := if y < 0 ∨ y > vizHeight then p.vy * -1 else p.vy }

/-- The callback of `drawParticles` on one particle: `none` when the particle
is spliced out of the array, else the particle as the callback leaves it. -/
def stepParticle (vizWidth vizHeight : ℚ) (p : Particle) : Option Particle :=
  let p := moveParticle vizWidth vizHeight p
  match p.life with
  | none => some p
  | some life =>
    if life - 0.015 ≤ 0 then none else some { p with life := some (life - 0.015) }

/-- The loop `vizData.particles.forEach((p, i) => ...)` from index `i` on, with
`n` indices left to visit.  `forEach` fixes the number of indices when it
starts and visits an index only if the array still has it; `splice(i, 1)`
moves the later particles one index down while the loop goes on to `i + 1`. -/
def drawParticlesFrom (vizWidth vizHeight : ℚ) : ℕ → ℕ → List Particle → List Particle
  | 0, _, ps => ps
  | n + 1, i, ps =>
    match ps[i]? with
    | none => drawParticlesFrom vizWidth vizHeight n (i + 1) ps
    | some p =>
      match stepParticle vizWidth vizHeight p with
      | none => drawParticlesFrom vizWidth vizHeight n (i + 1) (ps.eraseIdx i)
      | some p' => drawParticlesFrom vizWidth vizHeight n (i + 1) (ps.set i p')

/-- The function `drawParticles`, as far as it changes `vizData.particles`. -/
def drawParticles (s : State) : State :=
  { s with vizData :=
      { s.vizData with
        particles := drawParticlesFrom s.vizWidth s.vizHeight s.vizData.particles.length 0
          s.vizData.particles } }

/-- What acts on the particle field. -/
inductive VizEvent where
  | initVisualizer (devicePixelRatio : ℚ) (rand : ℕ → ℚ)
  | resizeCanvas (wrapper : Option (ℚ × ℚ)) (devicePixelRatio : ℚ) (rand : ℕ → ℚ)
  | initParticles (rand : ℕ → ℚ)
  | updateVisualizationWithResults (rand : ℕ → ℚ)
  | drawParticles

/-- The effect of one event on the particle field. -/
def vizStep (s : State) : VizEvent → State
  | .initVisualizer devicePixelRatio rand => initVisualizer devicePixelRatio rand s
  | .resizeCanvas wrapper devicePixelRatio rand => resizeCanvas wrapper devicePixelRatio rand s
  | .initParticles rand => initParticles rand s
  | .updateVisualizationWithResults rand => updateVisualizationWithResults rand s
  | .drawParticles => drawParticles s

/-- The state after a sequence of such events, first event first. -/
def vizRun (s : State) (events : List VizEvent) : State :=
  events.foldl vizStep s

/-- The number of particles that carry no `life`. -/
def ambientCount (ps : List Particle) : ℕ :=
  ps.countP fun p => p.life.isNone

/-- The number of particles that carry a `life`. -/
def burstCount (ps : List Particle) : ℕ :=
  ps.countP fun p => p.life.isSome

/-- Every `life` in the list lies in `(0, 1]`. -/
def LifeInRange (ps : List Particle) : Prop :=
  ∀ p ∈ ps, ∀ life, p.life = some life → 0 < life ∧ life ≤ 1

/-- A reply to a search that found nothing. -/
def emptySearchData : SearchData where
  job := some ⟨some "TTTT", some 0, some "kmp", some 1⟩
  results := some []
  end_to_end_ms := some 9
  algorithm_used := none
  search_time_ms := none

/-- The session after a first search that found the sample matches. -/
def searchedSession : State :=
  renderResults (fun _ => 0) sampleSearchData uploadedSession

/-! ## Lives counted in two-hundredths -/

/-- The life `t / 200` of a particle whose life is `t` two-hundredths; `none`
is a particle without `life`. -/
def lifeOfTicks : Option ℤ → Option ℚ
  | none => none
  | some k => some ((k : ℚ) / 200)

/-- The callback of `drawParticles` on a life counted in two-hundredths: the
decrement 0.015 is 3 of them.  The outer `none` is a particle spliced out. -/
def tickStep : Option ℤ → Option (Option ℤ)
  | none => some none
  | some k => if k - 3 ≤ 0 then none else some (some (k - 3))

/-- The loop of `drawParticlesFrom` on lives counted in two-hundredths. -/
def tickLoop : ℕ → ℕ → List (Option ℤ) → List (Option ℤ)
  | 0, _, ts => ts
  | n + 1, i, ts =>
    match ts[i]? with
    | none => tickLoop n (i + 1) ts
    | some t =>
      match tickStep t with
      | none => tickLoop n (i + 1) (ts.eraseIdx i)
      | some t' => tickLoop n (i + 1) (ts.set i t')

/-- One frame on lives counted in two-hundredths. -/
def tickFrame (ts : List (Option ℤ)) : List (Option ℤ) :=
  tickLoop ts.length 0 ts

/-- The elements at the odd positions of a list. -/
def oddPositions {α : Type} : List α → List α
  | [] => []
  | [_] => []
  | _ :: b :: rest => b :: oddPositions rest

/-- The lives of 60 ambient particles followed by one burst of 20. -/
def burstTicks : List (Option ℤ) :=
  List.replicate 60 none ++ List.replicate 20 (some 200)

/-- The surface of 400 by 300 with its 60 ambient particles, followed by the
20 particles of one burst. -/
def burstSession : State :=
  updateVisualizationWithResults (fun _ => 1 / 2)
    (initVisualizer 1 (fun _ => 1 / 2) (State.init .absent))

/-! ## Pulse rings -/

/-- The callback of `drawPulseRings` on one ring, up to the drawing: the
radius grows by the speed and falls back to 30 once it is past `maxRadius`. -/
def advanceRing (ring : PulseRing) : PulseRing :=
  let radius := ring.radius + ring.speed
  { ring with radius := if radius > ring.maxRadius then 30 else radius }

/-- The opacity a ring is stroked with: `0.4 * (1 - ring.radius / ring.maxRadius)`. -/
def ringAlpha (ring : PulseRing) : ℚ :=
  0.4 * (1 - ring.radius / ring.maxRadius)

/-- The function `drawPulseRings`: the state after the call and, for each
ring, the radius and the opacity it is stroked with. -/
def drawPulseRings (s : State) : State × List (ℚ × ℚ) :=
  let pulseRings := s.vizData.pulseRings.map advanceRing
  ({ s with vizData := { s.vizData with pulseRings := pulseRings } },
   pulseRings.map fun ring => (ring.radius, ringAlpha ring))

/-- A ring within its range: the radius between the floor 30 and `maxRadius`,
and a speed that is not negative. -/
def RingInRange (ring : PulseRing) : Prop :=
  30 ≤ ring.radius ∧ ring.radius ≤ ring.maxRadius ∧ 0 ≤ ring.speed

/-! ## Reflection off the edges -/

/-- A coordinate `x` with velocity `v` on the segment `[0, w]`, or one step
off it and on its way back. -/
def Reflecting (w x v : ℚ) : Prop :=
  (0 ≤ x ∧ x ≤ w) ∨ ((x < 0 ∨ w < x) ∧ 0 ≤ x + v ∧ x + v ≤ w)

/-- A particle on the surface, or one step off it and on its way back, in
both coordinates. -/
def Bouncing (vizWidth vizHeight : ℚ) (p : Particle) : Prop :=
  Reflecting vizWidth p.x p.vx ∧ Reflecting vizHeight p.y p.vy

/-- A particle within the surface widened by the size of its velocity:
`[-|vx|, vizWidth + |vx|] x [-|vy|, vizHeight + |vy|]`. -/
def WithinMargin (vizWidth vizHeight : ℚ) (p : Particle) : Prop :=
  -|p.vx| ≤ p.x ∧ p.x ≤ vizWidth + |p.vx| ∧ -|p.vy| ≤ p.y ∧ p.y ≤ vizHeight + |p.vy|

/-- A particle that starts just inside the right edge of a surface of 400 by
300 and moves to the right and upwards. -/
def edgeParticle : Particle :=
  { x := 399, y := 1, vx := 2, vy := -3, size := 2, color := "#22d3ee", pulse := 0,
    life := none }


/-! # Theorems -/

/-! ## Lemmas on objects and lists -/

theorem objGet_objSet (o : Obj) (k k' : String) (v : JsVal) :
    objGet (objSet o k v) k' = if k = k' then v else objGet o k' := by
  induction o with
  | nil => simp [objSet, objGet]
  | cons kv rest ih =>
    obtain ⟨a, b⟩ := kv
    by_cases h : a = k
    · subst h
      by_cases h' : a = k' <;> simp [objSet, objGet, h']
    · by_cases h' : a = k'
      · subst h'
        have : ¬ k = a := fun e => h e.symm
        simp [objSet, objGet, h, this]
      · simp [objSet, objGet, h, h', ih]

theorem objGet_objSpread_of_not_mem (entry base : Obj) (k : String)
    (hk : k ∉ objKeys entry) : objGet (objSpread base entry) k = objGet base k := by
  induction entry generalizing base with
  | nil => rfl
  | cons kv rest ih =>
    obtain ⟨a, b⟩ := kv
    simp only [objKeys, List.map_cons, List.mem_cons, not_or] at hk
    have h := ih (objSet base a b) (by simpa [objKeys] using hk.2)
    simp only [objSpread, List.foldl_cons] at h ⊢
    rw [h, objGet_objSet]
    simp [Ne.symm hk.1]

theorem objGet_objSpread_of_nodup (entry base : Obj) (k : String)
    (hnd : (objKeys entry).Nodup) (hk : k ∈ objKeys entry) :
    objGet (objSpread base entry) k = objGet entry k := by
  induction entry generalizing base with
  | nil => simp [objKeys] at hk
  | cons kv rest ih =>
    obtain ⟨a, b⟩ := kv
    simp only [objKeys, List.map_cons, List.nodup_cons] at hnd
    simp only [objKeys, List.map_cons, List.mem_cons] at hk
    by_cases h : a = k
    · subst h
      have h1 := objGet_objSpread_of_not_mem rest (objSet base a b) a (by simpa [objKeys] using hnd.1)
      simp only [objSpread, List.foldl_cons] at h1 ⊢
      rw [h1, objGet_objSet]
      simp [objGet]
    · have hk' : k ∈ objKeys rest := by
        rcases hk with hk | hk
        · exact absurd hk.symm h
        · simpa [objKeys] using hk
      have h1 := ih (objSet base a b) hnd.2 hk'
      simp only [objSpread, List.foldl_cons] at h1 ⊢
      rw [h1]
      simp [objGet, h]

theorem jsonObj_idem (o : Obj) : jsonObj (jsonObj o) = jsonObj o := by
  simp [jsonObj, List.filter_filter]

theorem take_append_take {α : Type} (n : ℕ) (xs ys : List α) :
    (xs ++ ys.take n).take n = (xs ++ ys).take n := by
  rw [List.take_append_eq_append_take, List.take_append_eq_append_take, List.take_take]
  congr 2
  omega

theorem addToHistory_of_length_le (env : HistEnv) (entry : Obj) (st : Stored) (l : List Obj)
    (hl : getHistory st = some l) (hlen : l.length ≤ 50) (hw : env.writeOk = true) :
    addToHistory env entry st = .ok (.log (((mkRecord env entry :: l).take 50).map jsonObj)) := by
  unfold addToHistory
  rw [hl]
  simp only [saveHistory, hw, MAX_HISTORY_ITEMS, if_true]
  by_cases h : (mkRecord env entry :: l).length > 50
  · rw [if_pos h, List.dropLast_eq_take]
    have : (mkRecord env entry :: l).length - 1 = 50 := by
      simp only [List.length_cons] at h ⊢
      omega
    rw [this]
  · rw [if_neg h, List.take_of_length_le (by omega)]

theorem addAllToHistory_of_length_le (adds : List (HistEnv × Obj)) (st : Stored) (l : List Obj)
    (hl : getHistory st = some l) (hlen : l.length ≤ 50) (hclean : l.map jsonObj = l)
    (hw : ∀ a ∈ adds, a.1.writeOk = true) :
    ∃ st', addAllToHistory st adds = .ok st' ∧
      getHistory st' = some (((adds.reverse.map storedRecord) ++ l).take 50) := by
  induction adds generalizing st l with
  | nil =>
    exact ⟨st, rfl, by simpa [List.take_of_length_le hlen] using hl⟩
  | cons a rest ih =>
    obtain ⟨env, entry⟩ := a
    have hw1 : env.writeOk = true := hw (env, entry) (List.mem_cons_self _ _)
    have hstep := addToHistory_of_length_le env entry st l hl hlen hw1
    have hnew : ((mkRecord env entry :: l).take 50).map jsonObj
        = (storedRecord (env, entry) :: l).take 50 := by
      rw [List.map_take, List.map_cons, hclean]
      rfl
    rw [hnew] at hstep
    obtain ⟨st', h1, h2⟩ := ih (.log ((storedRecord (env, entry) :: l).take 50))
      ((storedRecord (env, entry) :: l).take 50) rfl
      (by simp [List.length_take])
      (by
        rw [List.map_take, List.map_cons, hclean, storedRecord, jsonObj_idem])
      (fun a ha => hw a (List.mem_cons_of_mem _ ha))
    refine ⟨st', ?_, ?_⟩
    · simp only [addAllToHistory, hstep, h1]
    · rw [h2, take_append_take]
      simp [List.reverse_cons, List.append_assoc]


theorem objGet_of_not_mem (o : Obj) (k : String) (hk : k ∉ objKeys o) :
    objGet o k = .undefined := by
  induction o with
  | nil => rfl
  | cons kv rest ih =>
    obtain ⟨a, b⟩ := kv
    simp only [objKeys, List.map_cons, List.mem_cons, not_or] at hk
    simp [objGet, Ne.symm hk.1, ih (by simpa [objKeys] using hk.2)]

theorem objKeys_objSet (o : Obj) (k : String) (v : JsVal) :
    objKeys (objSet o k v) = if k ∈ objKeys o then objKeys o else objKeys o ++ [k] := by
  induction o with
  | nil => simp [objSet, objKeys]
  | cons kv rest ih =>
    obtain ⟨a, b⟩ := kv
    by_cases h : a = k
    · subst h
      simp [objSet, objKeys]
    · have h' : ¬ k = a := fun e => h e.symm
      simp only [objKeys] at ih
      simp only [objSet, h, if_false, objKeys, List.map_cons, List.mem_cons, h', false_or, ih]
      split <;> simp

theorem nodup_objKeys_objSet (o : Obj) (k : String) (v : JsVal) (h : (objKeys o).Nodup) :
    (objKeys (objSet o k v)).Nodup := by
  rw [objKeys_objSet]
  split
  · exact h
  · rename_i hk
    exact List.Nodup.append h (List.nodup_singleton k) (by simpa using hk)

theorem nodup_objKeys_objSpread (entry base : Obj) (h : (objKeys base).Nodup) :
    (objKeys (objSpread base entry)).Nodup := by
  induction entry generalizing base with
  | nil => exact h
  | cons kv rest ih => exact ih _ (nodup_objKeys_objSet base kv.1 kv.2 h)

theorem jsonObj_cons_undefined (a : String) (rest : Obj) :
    jsonObj ((a, JsVal.undefined) :: rest) = jsonObj rest := by
  simp [jsonObj]

theorem jsonObj_cons_of_ne (a : String) (b : JsVal) (rest : Obj) (hb : b ≠ .undefined) :
    jsonObj ((a, b) :: rest) = (a, b) :: jsonObj rest := by
  simp [jsonObj, hb]

theorem objGet_jsonObj (o : Obj) (k : String) (h : (objKeys o).Nodup) :
    objGet (jsonObj o) k = objGet o k := by
  induction o with
  | nil => rfl
  | cons kv rest ih =>
    obtain ⟨a, b⟩ := kv
    simp only [objKeys, List.map_cons, List.nodup_cons] at h
    have ih' := ih h.2
    by_cases hb : b = .undefined
    · subst hb
      rw [jsonObj_cons_undefined, ih']
      by_cases hak : a = k
      · subst hak
        simp [objGet, objGet_of_not_mem rest a (by simpa [objKeys] using h.1)]
      · simp [objGet, hak]
    · rw [jsonObj_cons_of_ne a b rest hb]
      simp [objGet, ih']

/-- C1. Starting from an empty stored log, after any sequence of `addToHistory`
calls whose storage writes succeed, `getHistory` returns the records of the
`min n 50` most recent calls, newest first: the list is the first 50 of the
calls in reverse order, which is the reverse of the last 50 calls, and its
length is `min n 50`. -/
theorem history_keeps_newest_fifty (adds : List (HistEnv × Obj)) (st₀ : Stored)
    (h₀ : st₀ = .absent ∨ st₀ = .log [])
    (hw : ∀ a ∈ adds, a.1.writeOk = true) :
    ∃ st kept, addAllToHistory st₀ adds = .ok st ∧ getHistory st = some kept ∧
      kept = (adds.reverse.take 50).map storedRecord ∧
      kept = ((adds.drop (adds.length - 50)).map storedRecord).reverse ∧
      kept.length = min adds.length 50 ∧ kept.length ≤ 50 := by
  have h₀' : getHistory st₀ = some [] := by
    rcases h₀ with h | h <;> subst h <;> rfl
  obtain ⟨st, h1, h2⟩ := addAllToHistory_of_length_le adds st₀ [] h₀' (by simp) rfl hw
  refine ⟨st, _, h1, h2, ?_, ?_, ?_, ?_⟩
  · simp [List.map_take]
  · rw [List.append_nil, ← List.map_take, ← List.map_reverse]
    congr 1
    by_cases hn : 50 ≤ adds.length
    · rw [List.reverse_drop]
      congr 1
      omega
    · rw [List.take_of_length_le (by simp; omega)]
      have : adds.length - 50 = 0 := by omega
      rw [this, List.drop_zero]
  · simp [List.length_take, Nat.min_comm]
  · simp [List.length_take]

/-- Witness of C1: sixty distinct entries; the log then holds the records of
calls 59, 58, ..., 10, whose ids are 1059 down to 1010. -/
theorem history_keeps_newest_fifty_witness :
    (∀ a ∈ sixtyAdds, a.1.writeOk = true) ∧
    ∃ st kept, addAllToHistory .absent sixtyAdds = .ok st ∧ getHistory st = some kept ∧
      kept = (sixtyAdds.reverse.take 50).map storedRecord ∧
      kept = ((sixtyAdds.drop (sixtyAdds.length - 50)).map storedRecord).reverse ∧
      kept.length = min sixtyAdds.length 50 ∧ kept.length ≤ 50 :=
  ⟨by decide, history_keeps_newest_fifty sixtyAdds .absent (Or.inl rfl) (by decide)⟩


set_option maxRecDepth 100000 in
/-- Evaluation for C1: after the sixty calls the log holds fifty records, with
ids 1059 (the last call) down to 1010; the ten oldest are gone. -/
theorem history_sixty_adds_eval :
    ((addAllToHistory .absent sixtyAdds).toOption.bind getHistory).map
        (fun kept => kept.map (fun r => objGet r "id"))
      = some ((List.range 50).map (fun (j : ℕ) => JsVal.num ((1059 - j : ℕ) : ℚ))) := by
  decide

/-- C2 (amended). For every stored log of at most 50 records and every entry,
when the storage write succeeds, after `addToHistory` the stored log is the new
record followed by the prior log, cut to its first 50 elements, each record as
JSON serialises it; so it holds at most 50 elements, and it is exactly the
stored form of the new record followed by the prior log, cut to 50, when
the prior log came out of `JSON.parse`. -/
theorem addToHistory_prepends_and_truncates (env : HistEnv) (entry : Obj) (prior : List Obj)
    (hlen : prior.length ≤ 50) (hw : env.writeOk = true) :
    ∃ stored, addToHistory env entry (.log prior) = .ok (.log stored) ∧
      stored = ((mkRecord env entry :: prior).take 50).map jsonObj ∧
      stored.length ≤ 50 ∧
      (prior.map jsonObj = prior → stored = (storedRecord (env, entry) :: prior).take 50) := by
  refine ⟨_, addToHistory_of_length_le env entry (.log prior) prior rfl hlen hw, rfl, ?_, ?_⟩
  · simp [List.length_take]
  · intro hclean
    rw [List.map_take, List.map_cons, hclean]
    rfl

/-- Witness of C2 (amended): an add onto a log of two records. -/
theorem addToHistory_prepends_and_truncates_witness :
    ([[("id", JsVal.num 1)], [("id", JsVal.num 2)]] : List Obj).length ≤ 50 ∧
    ∃ stored, addToHistory ⟨1000, "t", true⟩ [("type", .str "search")]
        (.log [[("id", .num 1)], [("id", .num 2)]]) = .ok (.log stored) ∧
      stored = ((mkRecord ⟨1000, "t", true⟩ [("type", .str "search")]
        :: [[("id", .num 1)], [("id", .num 2)]]).take 50).map jsonObj ∧
      stored.length ≤ 50 ∧
      (([[("id", .num 1)], [("id", .num 2)]] : List Obj).map jsonObj
          = [[("id", .num 1)], [("id", .num 2)]] →
        stored = (storedRecord (⟨1000, "t", true⟩, [("type", .str "search")])
          :: [[("id", .num 1)], [("id", .num 2)]]).take 50) :=
  ⟨by decide, addToHistory_prepends_and_truncates ⟨1000, "t", true⟩ [("type", .str "search")]
    [[("id", .num 1)], [("id", .num 2)]] (by decide) rfl⟩

/-- Counterexample to C2 as stated (a stored log of any length): on a stored
array of 51 records a successful add pops one element only, so the store then
holds 51 records, not the first 50 of the new record followed by the prior log. -/
theorem addToHistory_overlong_log :
    addToHistory ⟨1000, "t", true⟩ [("type", .str "search")] (.log overlongLog)
      = .ok (.log (mkRecord ⟨1000, "t", true⟩ [("type", .str "search")] :: overlongLog.take 50)) ∧
    (mkRecord ⟨1000, "t", true⟩ [("type", .str "search")] :: overlongLog.take 50).length = 51 ∧
    addToHistory ⟨1000, "t", true⟩ [("type", .str "search")] (.log overlongLog)
      ≠ .ok (.log (((mkRecord ⟨1000, "t", true⟩ [("type", .str "search")]
          :: overlongLog).take 50).map jsonObj)) := by
  refine ⟨by decide, by decide, by decide⟩

/-- C3 (amended). For every entry object, the record `addToHistory` builds
carries every field of the entry unchanged, has `id` equal to `Date.now()`
when the entry has no `id` of its own and `timestamp` equal to the current
time when the entry has no `timestamp` of its own, and has no other field;
when the write succeeds this record, as JSON serialises it, is the head of
the stored log and reads the same at every key. -/
theorem addToHistory_head_record (env : HistEnv) (entry : Obj)
    (hnd : (objKeys entry).Nodup) :
    (∀ k ∈ objKeys entry, objGet (mkRecord env entry) k = objGet entry k) ∧
    ("id" ∉ objKeys entry → objGet (mkRecord env entry) "id" = .num env.now) ∧
    ("timestamp" ∉ objKeys entry → objGet (mkRecord env entry) "timestamp" = .str env.iso) ∧
    (∀ k, k ≠ "id" → k ≠ "timestamp" → objGet (mkRecord env entry) k = objGet entry k) ∧
    (∀ st prior, getHistory st = some prior → env.writeOk = true →
      ∃ head rest, addToHistory env entry st = .ok (.log (head :: rest)) ∧
        head = jsonObj (mkRecord env entry) ∧
        ∀ k, objGet head k = objGet (mkRecord env entry) k) := by
  refine ⟨?_, ?_, ?_, ?_, ?_⟩
  · intro k hk
    exact objGet_objSpread_of_nodup entry _ k hnd hk
  · intro h
    rw [mkRecord, objGet_objSpread_of_not_mem entry _ "id" h]
    rfl
  · intro h
    rw [mkRecord, objGet_objSpread_of_not_mem entry _ "timestamp" h]
    simp [objGet]
  · intro k h1 h2
    by_cases hk : k ∈ objKeys entry
    · exact objGet_objSpread_of_nodup entry _ k hnd hk
    · rw [mkRecord, objGet_objSpread_of_not_mem entry _ k hk, objGet_of_not_mem entry k hk]
      simp [objGet, Ne.symm h1, Ne.symm h2]
  · intro st prior hp hw
    have hrec : (objKeys (mkRecord env entry)).Nodup :=
      nodup_objKeys_objSpread entry _ (by simp [objKeys])
    unfold addToHistory
    rw [hp]
    simp only [saveHistory, hw, if_true]
    by_cases h : (mkRecord env entry :: prior).length > MAX_HISTORY_ITEMS
    · rw [if_pos h]
      cases prior with
      | nil => simp [MAX_HISTORY_ITEMS] at h
      | cons p ps =>
        rw [List.dropLast_cons₂, List.map_cons]
        exact ⟨_, _, rfl, rfl, fun k => objGet_jsonObj _ k hrec⟩
    · rw [if_neg h, List.map_cons]
      exact ⟨_, _, rfl, rfl, fun k => objGet_jsonObj _ k hrec⟩

/-- Witness of C3 (amended): a search entry without `id` and `timestamp`. -/
theorem addToHistory_head_record_witness :
    (objKeys [("type", .str "search"), ("pattern", .str "ACGT")]).Nodup ∧
    objGet (mkRecord ⟨1000, "t", true⟩ [("type", .str "search"), ("pattern", .str "ACGT")])
      "pattern" = .str "ACGT" :=
  ⟨by decide,
   (addToHistory_head_record ⟨1000, "t", true⟩
      [("type", .str "search"), ("pattern", .str "ACGT")] (by decide)).1 "pattern" (by decide)⟩

/-- Counterexample to C3 as stated (every entry object): an entry that has an
`id` of its own keeps it, the spread being written after the generated `id`;
the record at the head of the stored log then has `id` 7, not `Date.now()`. -/
theorem addToHistory_entry_id_wins :
    objGet (mkRecord ⟨1000, "t", true⟩ [("id", .num 7), ("type", .str "search")]) "id"
      = .num 7 ∧
    objGet (mkRecord ⟨1000, "t", true⟩ [("id", .num 7), ("type", .str "search")]) "id"
      ≠ .num ((1000 : ℕ) : ℚ) ∧
    addToHistory ⟨1000, "t", true⟩ [("id", .num 7), ("type", .str "search")] .absent
      = .ok (.log [[("id", .num 7), ("timestamp", .str "t"), ("type", .str "search")]]) := by
  refine ⟨by decide, by decide, by decide⟩


/-! ## Navigation -/

theorem showToast_fields (m t : String) (s : State) :
    (showToast m t s).isFileUploaded = s.isFileUploaded ∧
    (showToast m t s).uploadedSequence = s.uploadedSequence ∧
    (showToast m t s).activeView = s.activeView ∧
    (showToast m t s).vizData = s.vizData ∧
    (showToast m t s).storage = s.storage ∧
    (showToast m t s).requests = s.requests := by
  simp [showToast]

theorem originalSwitchView_of_allowed (v : View) (s : State)
    (h : s.isFileUploaded = true ∨ v = .upload ∨ v = .history) :
    originalSwitchView v s = { s with activeView := v } := by
  rcases h with h | h | h <;> simp [originalSwitchView, h]

theorem originalSwitchView_of_denied (v : View) (s : State)
    (h : ¬ (s.isFileUploaded = true ∨ v = .upload ∨ v = .history)) :
    originalSwitchView v s = showToast accessDenied.message accessDenied.type s := by
  simp only [not_or] at h
  obtain ⟨h1, h2, h3⟩ := h
  cases v <;> simp_all [originalSwitchView, accessDenied]

/-- C4. For each of the four views `v`, `switchView v` is let through exactly
when `isFileUploaded` holds or `v` is `upload` or `history`: then `v` becomes
the active view and no warning is shown; otherwise the warning is shown and the
active view and `isFileUploaded` stay as they were.  So a call makes a view
that was not active the active one if and only if that condition holds, and
once `isFileUploaded` holds every transition is let through.  The same holds
of the declared function (`originalSwitchView`) and of `switchView` in
`src/frontend/script.js`. -/
theorem switchView_gate (v : View) (s : State) :
    ((s.isFileUploaded = true ∨ v = .upload ∨ v = .history) →
      (switchView v s).activeView = v ∧ (switchView v s).toasts = s.toasts ∧
      (switchView v s).isFileUploaded = s.isFileUploaded ∧
      originalSwitchView v s = { s with activeView := v } ∧
      Prototype.switchView v s = { s with activeView := v }) ∧
    (¬ (s.isFileUploaded = true ∨ v = .upload ∨ v = .history) →
      (switchView v s).activeView = s.activeView ∧
      (switchView v s).isFileUploaded = s.isFileUploaded ∧
      (switchView v s).toasts = s.toasts ++ [accessDenied] ∧
      originalSwitchView v s = showToast accessDenied.message accessDenied.type s ∧
      (Prototype.switchView v s).activeView = s.activeView ∧
      (Prototype.switchView v s).isFileUploaded = s.isFileUploaded ∧
      (Prototype.switchView v s).toasts
        = s.toasts ++ [⟨"⛔ Acceso Denegado: Importa una secuencia primero", "error"⟩]) ∧
    (s.activeView ≠ v →
      ((switchView v s).activeView = v ↔
        (s.isFileUploaded = true ∨ v = .upload ∨ v = .history))) ∧
    (s.isFileUploaded = true → ∀ w : View, (switchView w s).activeView = w) := by
  refine ⟨?_, ?_, ?_, ?_⟩
  · intro h
    have ho := originalSwitchView_of_allowed v s h
    refine ⟨?_, ?_, ?_, ho, ?_⟩
    · simp only [switchView, ho]; split <;> rfl
    · simp only [switchView, ho]; split <;> rfl
    · simp only [switchView, ho]; split <;> rfl
    · rcases h with h | h | h <;> simp [Prototype.switchView, h]
  · intro h
    have ho := originalSwitchView_of_denied v s h
    refine ⟨?_, ?_, ?_, ho, ?_⟩
    · simp only [switchView, ho]; split <;> simp [showToast]
    · simp only [switchView, ho]; split <;> simp [showToast]
    · simp only [switchView, ho]; split <;> simp [showToast, accessDenied]
    · simp only [not_or] at h
      obtain ⟨h1, h2, h3⟩ := h
      cases v <;> simp_all [Prototype.switchView, showToast]
  · intro hne
    constructor
    · intro hv
      by_contra h
      have ho := originalSwitchView_of_denied v s h
      have : (switchView v s).activeView = s.activeView := by
        simp only [switchView, ho]; split <;> simp [showToast]
      exact hne (this.symm.trans hv)
    · intro h
      have ho := originalSwitchView_of_allowed v s h
      simp only [switchView, ho]; split <;> rfl
  · intro h w
    have ho := originalSwitchView_of_allowed w s (Or.inl h)
    simp only [switchView, ho]; split <;> rfl


/-! ## Reachable states -/

theorem switchView_fields (v : View) (s : State) :
    (switchView v s).isFileUploaded = s.isFileUploaded ∧
    (switchView v s).uploadedSequence = s.uploadedSequence ∧
    ((switchView v s).activeView = s.activeView ∨
      ((switchView v s).activeView = v ∧
        (s.isFileUploaded = true ∨ v = .upload ∨ v = .history))) := by
  by_cases h : s.isFileUploaded = true ∨ v = .upload ∨ v = .history
  · have ho := originalSwitchView_of_allowed v s h
    refine ⟨?_, ?_, Or.inr ⟨?_, h⟩⟩ <;> (simp only [switchView, ho]; split <;> rfl)
  · have ho := originalSwitchView_of_denied v s h
    refine ⟨?_, ?_, Or.inl ?_⟩ <;> (simp only [switchView, ho]; split <;> simp [showToast])

theorem GateInv_switchView (v : View) (s : State) (h : GateInv s) : GateInv (switchView v s) := by
  obtain ⟨h1, h2, h3⟩ := switchView_fields v s
  refine ⟨?_, ?_⟩
  · rw [h1, h2]; exact h.1
  · rw [h1]
    intro hv
    rcases h3 with h3 | ⟨h3, h4⟩
    · rw [h3] at hv; exact h.2 hv
    · rw [h3] at hv
      rcases h4 with h4 | h4 | h4
      · exact h4
      · subst h4; simp at hv
      · subst h4; simp at hv

theorem searchCatch_fields (env : SearchEnv) (val msg : String) (s : State) :
    (searchCatch env val msg s).isFileUploaded = s.isFileUploaded ∧
    (searchCatch env val msg s).uploadedSequence = s.uploadedSequence ∧
    (searchCatch env val msg s).activeView = s.activeView ∧
    (searchCatch env val msg s).vizData = { s.vizData with isSearching := false } := by
  unfold searchCatch
  simp only
  split <;> simp [showToast]

theorem renderResults_fields (rand : ℕ → ℚ) (data : SearchData) (s : State) :
    (renderResults rand data s).isFileUploaded = s.isFileUploaded ∧
    (renderResults rand data s).uploadedSequence = s.uploadedSequence ∧
    (renderResults rand data s).activeView = s.activeView ∧
    (renderResults rand data s).storage = s.storage := by
  simp [renderResults, updateVisualizationWithResults]

theorem runSearchFinish_ok_none (env : SearchEnv) (val : String) (data : SearchData)
    (s : State) (h : s.uploadedSequence = none) :
    runSearchFinish env val (.ok data) s
      = searchCatch env val "TypeError: uploadedSequence is null"
          { s with vizData := { s.vizData with isSearching := false } } := by
  simp only [runSearchFinish, h]

theorem runSearchFinish_ok_some (env : SearchEnv) (val : String) (data : SearchData)
    (s : State) (seq : UploadData) (h : s.uploadedSequence = some seq) :
    runSearchFinish env val (.ok data) s
      = match addToHistoryCall env.hist
            (successEntry val data
              (renderResults env.rand data { s with vizData := { s.vizData with isSearching := false } }))
            (renderResults env.rand data
              { s with vizData := { s.vizData with isSearching := false } }).storage with
        | (st, none) => showToast "Busqueda completada" "success"
            { renderResults env.rand data
                { s with vizData := { s.vizData with isSearching := false } } with storage := st }
        | (st, some msg) => searchCatch { env with hist := env.histCatch } val msg
            { renderResults env.rand data
                { s with vizData := { s.vizData with isSearching := false } } with storage := st } := by
  simp only [runSearchFinish, h]

theorem runSearchFinish_fields (env : SearchEnv) (val : String) (reply : Reply SearchData)
    (s : State) :
    (runSearchFinish env val reply s).isFileUploaded = s.isFileUploaded ∧
    (runSearchFinish env val reply s).uploadedSequence = s.uploadedSequence ∧
    (runSearchFinish env val reply s).activeView = s.activeView := by
  cases reply with
  | failed m =>
    obtain ⟨h1, h2, h3, -⟩ := searchCatch_fields env val (Reply.failed m : Reply SearchData).errorMessage s
    exact ⟨h1, h2, h3⟩
  | rejected d b =>
    obtain ⟨h1, h2, h3, -⟩ := searchCatch_fields env val (Reply.rejected d b : Reply SearchData).errorMessage s
    exact ⟨h1, h2, h3⟩
  | ok data =>
    rcases hseq : s.uploadedSequence with _ | seq
    · rw [runSearchFinish_ok_none env val data s hseq]
      obtain ⟨h1, h2, h3, -⟩ := searchCatch_fields env val "TypeError: uploadedSequence is null"
        { s with vizData := { s.vizData with isSearching := false } }
      exact ⟨h1, h2.trans hseq, h3⟩
    · rw [runSearchFinish_ok_some env val data s seq hseq]
      obtain ⟨r1, r2, r3, -⟩ := renderResults_fields env.rand data
        { s with vizData := { s.vizData with isSearching := false } }
      split
      · exact ⟨r1, r2.trans hseq, r3⟩
      · rename_i st msg _
        obtain ⟨h1, h2, h3, -⟩ := searchCatch_fields { env with hist := env.histCatch } val msg
          { renderResults env.rand data
              { s with vizData := { s.vizData with isSearching := false } } with storage := st }
        exact ⟨h1.trans r1, (h2.trans r2).trans hseq, h3.trans r3⟩

theorem GateInv_of_fields (s t : State) (h : GateInv s)
    (h1 : t.isFileUploaded = s.isFileUploaded) (h2 : t.uploadedSequence = s.uploadedSequence)
    (h3 : t.activeView = s.activeView) : GateInv t := by
  unfold GateInv
  rw [h1, h2, h3]
  exact h

theorem runSearchStart_eq (val : String) (s : State) :
    (runSearchStart val s).isFileUploaded = s.isFileUploaded ∧
    (runSearchStart val s).uploadedSequence = s.uploadedSequence ∧
    (runSearchStart val s).activeView
      = (switchView .results { s with vizData := { s.vizData with isSearching := true } }).activeView := by
  obtain ⟨h1, h2, -⟩ := switchView_fields .results
    { s with vizData := { s.vizData with isSearching := true } }
  exact ⟨h1, h2, rfl⟩

theorem GateInv_runSearchStart (val : String) (s : State) (h : GateInv s) :
    GateInv (runSearchStart val s) := by
  have hs : GateInv { s with vizData := { s.vizData with isSearching := true } } := h
  have := GateInv_switchView .results _ hs
  exact GateInv_of_fields _ (runSearchStart val s) this rfl rfl rfl

theorem handleUpload_ok_fields (fileName : String) (data : UploadData) (s : State) :
    (handleUpload fileName (.ok data) s).isFileUploaded = true ∧
    (handleUpload fileName (.ok data) s).uploadedSequence = some data ∧
    (handleUpload fileName (.ok data) s).activeView = .dashboard := by
  simp [handleUpload, switchView, originalSwitchView, showToast, initSequenceVisualization]

theorem handleUpload_failure (fileName : String) (reply : Reply UploadData) (s : State)
    (h : ∀ data, reply ≠ .ok data) :
    handleUpload fileName reply s
      = showToast ("Error al cargar: " ++ reply.errorMessage) "error"
          { s with requests := s.requests ++ [.upload fileName] } := by
  cases reply with
  | ok data => exact absurd rfl (h data)
  | failed m => rfl
  | rejected d b => rfl

theorem GateInv_step (s : State) (e : Event) (h : GateInv s) : GateInv (step s e) := by
  cases e with
  | switchView v => exact GateInv_switchView v s h
  | upload fileName reply =>
    cases reply with
    | ok data =>
      obtain ⟨h1, h2, h3⟩ := handleUpload_ok_fields fileName data s
      exact ⟨fun _ => by simp only [step, h2]; simp, fun _ => h1⟩
    | failed m => exact GateInv_of_fields s _ h rfl rfl rfl
    | rejected d b => exact GateInv_of_fields s _ h rfl rfl rfl
  | search env val reply =>
    simp only [step, runSearch]
    split
    · exact GateInv_of_fields s _ h rfl rfl rfl
    · obtain ⟨h1, h2, h3⟩ := runSearchFinish_fields env val reply (runSearchStart val s)
      exact GateInv_of_fields _ _ (GateInv_runSearchStart val s h) h1 h2 h3
  | searchStart val =>
    simp only [step]
    split
    · exact GateInv_of_fields s _ h rfl rfl rfl
    · exact GateInv_runSearchStart val s h
  | searchFinish env val reply =>
    obtain ⟨h1, h2, h3⟩ := runSearchFinish_fields env val reply s
    exact GateInv_of_fields s _ h h1 h2 h3

theorem GateInv_run (events : List Event) (s : State) (h : GateInv s) : GateInv (run s events) := by
  induction events generalizing s with
  | nil => exact h
  | cons e rest ih => exact ih (step s e) (GateInv_step s e h)

theorem step_keeps_isFileUploaded (s : State) (e : Event) (h : s.isFileUploaded = true) :
    (step s e).isFileUploaded = true := by
  cases e with
  | switchView v => exact (switchView_fields v s).1.trans h
  | upload fileName reply =>
    cases reply with
    | ok data => exact (handleUpload_ok_fields fileName data s).1
    | failed m => exact h
    | rejected d b => exact h
  | search env val reply =>
    simp only [step, runSearch]
    split
    · exact h
    · exact ((runSearchFinish_fields env val reply (runSearchStart val s)).1.trans
        (runSearchStart_eq val s).1).trans h
  | searchStart val =>
    simp only [step]
    split
    · exact h
    · exact (runSearchStart_eq val s).1.trans h
  | searchFinish env val reply =>
    exact (runSearchFinish_fields env val reply s).1.trans h

theorem run_keeps_isFileUploaded (events : List Event) (s : State)
    (h : s.isFileUploaded = true) : (run s events).isFileUploaded = true := by
  induction events generalizing s with
  | nil => exact h
  | cons e rest ih => exact ih (step s e) (step_keeps_isFileUploaded s e h)

/-- C5. In every state reached from the initial state (upload view active,
nothing uploaded) by any sequence of `switchView` calls, uploads that succeed
or fail, and searches (whole, or split into their two halves), an active
dashboard or results view comes with a stored uploaded sequence and a set
`isFileUploaded`; and once `isFileUploaded` is set it stays set under every
further sequence of events. -/
theorem data_views_need_upload (storage : Stored) (events : List Event) :
    ((State.init storage).activeView = .upload ∧ (State.init storage).isFileUploaded = false ∧
      (State.init storage).uploadedSequence = none) ∧
    (((run (State.init storage) events).activeView = .dashboard ∨
        (run (State.init storage) events).activeView = .results) →
      (run (State.init storage) events).uploadedSequence ≠ none ∧
      (run (State.init storage) events).isFileUploaded = true) ∧
    ((run (State.init storage) events).isFileUploaded = true →
      ∀ more : List Event,
        (run (State.init storage) (events ++ more)).isFileUploaded = true) := by
  have hinit : GateInv (State.init storage) := by
    refine ⟨?_, ?_⟩ <;> simp [State.init]
  have hinv := GateInv_run events (State.init storage) hinit
  refine ⟨⟨rfl, rfl, rfl⟩, ?_, ?_⟩
  · intro hv
    exact ⟨hinv.1 (hinv.2 hv), hinv.2 hv⟩
  · intro hup more
    have : run (State.init storage) (events ++ more)
        = run (run (State.init storage) events) more := by
      simp [run, List.foldl_append]
    rw [this]
    exact run_keeps_isFileUploaded more _ hup


/-- The data views are reached: after one successful upload the dashboard is
the active view, and a search then makes the results view active. -/
theorem data_views_reached :
    (run (State.init .absent)
      [.upload "seq.fasta" (.ok ⟨.num 1, some "seq", some 1000, some 50⟩)]).activeView
      = .dashboard ∧
    (run (State.init .absent)
      [.upload "seq.fasta" (.ok ⟨.num 1, some "seq", some 1000, some 50⟩),
       .searchStart "ACGT"]).activeView = .results := by
  decide

/-! ## The resize hook -/

theorem resizeTimers_showToast (m t : String) (s : State) :
    resizeTimers (showToast m t s) = resizeTimers s := by
  simp [resizeTimers, showToast, List.filter_append]

theorem resizeTimers_originalSwitchView (v : View) (s : State) :
    resizeTimers (originalSwitchView v s) = resizeTimers s := by
  unfold originalSwitchView
  split
  · exact resizeTimers_showToast _ _ s
  · rfl

/-- C6 (amended). The wrapped `switchView` schedules `resizeCanvas` once on
every accepted transition to the dashboard, and schedules no `resizeCanvas`
for any call, accepted or not, whose target is results, upload or history:
for those targets it is the declared function and nothing more. -/
theorem resize_hook_dashboard_only (v : View) (s : State) :
    (v = .dashboard → s.isFileUploaded = true →
      (switchView v s).activeView = .dashboard ∧
      (switchView v s).timers = s.timers ++ [⟨.resizeCanvas, 50⟩] ∧
      resizeTimers (switchView v s) = resizeTimers s + 1) ∧
    (v ≠ .dashboard →
      switchView v s = originalSwitchView v s ∧
      resizeTimers (switchView v s) = resizeTimers s) := by
  refine ⟨?_, ?_⟩
  · intro hv hup
    subst hv
    have ho := originalSwitchView_of_allowed .dashboard s (Or.inl hup)
    simp [switchView, ho, resizeTimers, List.filter_append]
  · intro hv
    have h : switchView v s = originalSwitchView v s := by
      simp [switchView, hv]
    exact ⟨h, by rw [h, resizeTimers_originalSwitchView]⟩

/-- Counterexample to C6 as stated (the hook fires on every accepted entry
into dashboard and into results): with a sequence uploaded, the transition to
results is accepted and schedules no `resizeCanvas`. -/
theorem resize_hook_skips_results :
    uploadedSession.isFileUploaded = true ∧
    (switchView .results uploadedSession).activeView = .results ∧
    (switchView .results uploadedSession).timers = uploadedSession.timers ∧
    resizeTimers (switchView .results uploadedSession) = resizeTimers uploadedSession := by
  decide

/-- A call for the dashboard that is turned down still reaches the wrapper's
test on the target: the view stays, the warning shows, and `resizeCanvas` is
scheduled. -/
theorem resize_hook_on_denied_dashboard :
    (switchView .dashboard (State.init .absent)).activeView = .upload ∧
    (switchView .dashboard (State.init .absent)).toasts = [accessDenied] ∧
    resizeTimers (switchView .dashboard (State.init .absent)) = 1 := by
  decide

/-! ## Search: the local guards -/

theorem switchView_frame (v : View) (s : State) :
    (switchView v s).vizData = s.vizData ∧
    (switchView v s).requests = s.requests ∧
    (switchView v s).storage = s.storage ∧
    (switchView v s).uploadedSequence = s.uploadedSequence := by
  by_cases h : s.isFileUploaded = true ∨ v = .upload ∨ v = .history
  · have ho := originalSwitchView_of_allowed v s h
    refine ⟨?_, ?_, ?_, ?_⟩ <;> (simp only [switchView, ho]; split <;> rfl)
  · have ho := originalSwitchView_of_denied v s h
    refine ⟨?_, ?_, ?_, ?_⟩ <;> (simp only [switchView, ho]; split <;> simp [showToast])

theorem searchGuard_eq_none_iff (val : String) (s : State) :
    searchGuard val s = none ↔ val ≠ "" ∧ (sequenceId s).truthy = true := by
  unfold searchGuard
  by_cases h1 : val = ""
  · simp [h1]
  · by_cases h2 : (sequenceId s).truthy = true
    · simp [h1, h2]
    · simp [h1, h2]

/-- C7 (amended). `runSearch` called with an empty pattern, or while no
uploaded sequence exists or the uploaded sequence has a falsy `id`, shows a
notice and does nothing else: no remote request, no history write, `vizData`
and the active view unchanged.  With a non-empty pattern and an uploaded
sequence whose `id` is truthy it sets `isSearching`, and issues the search
request for that id and pattern with overlapping allowed, before the reply is
awaited. -/
theorem runSearch_local_guards (env : SearchEnv) (val : String) (reply : Reply SearchData)
    (s : State) :
    (s.uploadedSequence = none → (sequenceId s).truthy = false) ∧
    ((val = "" ∨ (sequenceId s).truthy = false) →
      (∃ notice, runSearch env val reply s = showToast notice "error" s) ∧
      (runSearch env val reply s).requests = s.requests ∧
      (runSearch env val reply s).storage = s.storage ∧
      (runSearch env val reply s).vizData = s.vizData ∧
      (runSearch env val reply s).activeView = s.activeView) ∧
    ((val ≠ "" ∧ (sequenceId s).truthy = true) →
      runSearch env val reply s = runSearchFinish env val reply (runSearchStart val s) ∧
      (runSearchStart val s).vizData.isSearching = true ∧
      (runSearchStart val s).requests = s.requests ++ [.search (sequenceId s) val true] ∧
      (runSearchStart val s).storage = s.storage) := by
  refine ⟨?_, ?_, ?_⟩
  · intro h
    simp [sequenceId, h, JsVal.truthy]
  · intro h
    have hg : searchGuard val s ≠ none := by
      rw [Ne, searchGuard_eq_none_iff]
      rintro ⟨h1, h2⟩
      rcases h with h | h
      · exact h1 h
      · rw [h2] at h; exact absurd h (by decide)
    obtain ⟨notice, hn⟩ := Option.ne_none_iff_exists'.mp hg
    have hr : runSearch env val reply s = showToast notice "error" s := by
      simp only [runSearch, hn]
    refine ⟨⟨notice, hr⟩, ?_, ?_, ?_, ?_⟩ <;> rw [hr] <;> rfl
  · intro h
    have hg := (searchGuard_eq_none_iff val s).mpr h
    have hr : runSearch env val reply s
        = runSearchFinish env val reply (runSearchStart val s) := by
      simp only [runSearch, hg]
    obtain ⟨f1, f2, f3, f4⟩ := switchView_frame .results
      { s with vizData := { s.vizData with isSearching := true } }
    refine ⟨hr, ?_, ?_, ?_⟩
    · simp only [runSearchStart, f1]
    · simp only [runSearchStart, f2, sequenceId, f4]
    · simp only [runSearchStart, f3]

/-- Counterexample to C7 as stated (a non-empty pattern and an existing
uploaded sequence start the search): after an upload answered with the id 0 an
uploaded sequence exists, yet `runSearch` with the pattern `ACGT` stops at the
test `!uploadedSequence?.id`: a notice, no request, `isSearching` not set. -/
theorem runSearch_zero_id_rejected :
    zeroIdSession.uploadedSequence ≠ none ∧ zeroIdSession.isFileUploaded = true ∧
    runSearch ⟨⟨1000, "t", true⟩, fun _ => 0, ⟨1001, "t", true⟩⟩ "ACGT" (.failed "unused") zeroIdSession
      = showToast "Carga una secuencia antes de buscar" "error" zeroIdSession ∧
    (runSearch ⟨⟨1000, "t", true⟩, fun _ => 0, ⟨1001, "t", true⟩⟩ "ACGT" (.failed "unused") zeroIdSession).requests
      = zeroIdSession.requests ∧
    (runSearch ⟨⟨1000, "t", true⟩, fun _ => 0, ⟨1001, "t", true⟩⟩ "ACGT"
      (.failed "unused") zeroIdSession).vizData.isSearching = false :=
  ⟨by decide, by decide, rfl, by decide, by decide⟩


/-! ## Search: completion -/

theorem patternRenders_jsonObj (item : Obj) (h : (objKeys item).Nodup) :
    patternRenders (jsonObj item) = patternRenders item := by
  unfold patternRenders
  rw [objGet_jsonObj item "pattern" h]

theorem patternRenders_mkRecord (env : HistEnv) (entry : Obj) (h : (objKeys entry).Nodup) :
    patternRenders (mkRecord env entry) = patternRenders entry := by
  unfold patternRenders
  have : objGet (mkRecord env entry) "pattern" = objGet entry "pattern" := by
    by_cases hk : "pattern" ∈ objKeys entry
    · exact objGet_objSpread_of_nodup entry _ "pattern" h hk
    · rw [mkRecord, objGet_objSpread_of_not_mem entry _ "pattern" hk,
        objGet_of_not_mem entry "pattern" hk]
      simp [objGet]
  rw [this]

theorem all_patternRenders_saved (env : HistEnv) (entry : Obj) (prior : List Obj)
    (hprior : ∀ item ∈ prior, HistoryRecord item) (hentry : HistoryRecord entry) :
    ((if (mkRecord env entry :: prior).length > MAX_HISTORY_ITEMS
        then (mkRecord env entry :: prior).dropLast
        else mkRecord env entry :: prior).map jsonObj).all patternRenders = true := by
  have hall : ∀ item ∈ mkRecord env entry :: prior,
      patternRenders (jsonObj item) = true := by
    intro item hitem
    rcases List.mem_cons.mp hitem with h | h
    · subst h
      have hnd : (objKeys (mkRecord env entry)).Nodup :=
        nodup_objKeys_objSpread entry _ (by simp [objKeys])
      rw [patternRenders_jsonObj _ hnd, patternRenders_mkRecord env entry hentry.1]
      exact hentry.2
    · rw [patternRenders_jsonObj _ (hprior item h).1]
      exact (hprior item h).2
  rw [List.all_eq_true]
  intro x hx
  obtain ⟨item, hitem, rfl⟩ := List.mem_map.mp hx
  apply hall
  split at hitem
  · exact List.mem_of_mem_dropLast hitem
  · exact hitem

theorem renderHistory_of_records (st : Stored) (prior : List Obj)
    (hp : getHistory st = some prior) (hprior : ∀ item ∈ prior, HistoryRecord item) :
    renderHistory st = .ok () := by
  have hall : prior.all patternRenders = true := by
    rw [List.all_eq_true]
    exact fun x hx => (hprior x hx).2
  simp only [renderHistory, hp, hall, if_true]

theorem renderHistory_after_add (env : HistEnv) (entry : Obj) (st st' : Stored)
    (prior : List Obj) (hp : getHistory st = some prior)
    (hprior : ∀ item ∈ prior, HistoryRecord item) (hentry : HistoryRecord entry)
    (h : addToHistory env entry st = .ok st') : renderHistory st' = .ok () := by
  unfold addToHistory at h
  rw [hp] at h
  simp only [saveHistory] at h
  cases hw : env.writeOk with
  | true =>
    rw [hw] at h
    simp only [if_true, Except.ok.injEq] at h
    subst h
    have hsaved := all_patternRenders_saved env entry prior hprior hentry
    simp only [renderHistory, getHistory]
    rw [hsaved]
    rfl
  | false =>
    rw [hw] at h
    simp only [Bool.false_eq_true, if_false, Except.ok.injEq] at h
    subst h
    exact renderHistory_of_records _ prior hp hprior

theorem addToHistoryCall_fst (env : HistEnv) (entry : Obj) (st : Stored) :
    (addToHistoryCall env entry st).1
      = match addToHistory env entry st with
        | .ok st' => st'
        | .error _ => st := by
  unfold addToHistoryCall
  cases addToHistory env entry st with
  | error msg => rfl
  | ok st' =>
    simp only
    cases renderHistory st' <;> rfl

theorem addToHistoryCall_of_records (env : HistEnv) (entry : Obj) (st st' : Stored)
    (prior : List Obj) (hp : getHistory st = some prior)
    (hprior : ∀ item ∈ prior, HistoryRecord item) (hentry : HistoryRecord entry)
    (h : addToHistory env entry st = .ok st') :
    addToHistoryCall env entry st = (st', none) := by
  unfold addToHistoryCall
  rw [h]
  simp only
  rw [renderHistory_after_add env entry st st' prior hp hprior hentry h]

theorem addToHistoryCall_of_write_failure (env : HistEnv) (entry : Obj) (st : Stored)
    (hw : env.writeOk = false) : (addToHistoryCall env entry st).1 = st := by
  rw [addToHistoryCall_fst]
  unfold addToHistory
  cases getHistory st with
  | none => rfl
  | some prior => simp [saveHistory, hw]

theorem HistoryRecord_errorEntry (val msg : String) (s : State) :
    HistoryRecord (errorEntry val msg s) := by
  refine ⟨by simp [errorEntry, objKeys], ?_⟩
  simp [patternRenders, errorEntry, objGet]

theorem HistoryRecord_successEntry (val : String) (data : SearchData) (s : State) :
    HistoryRecord (successEntry val data s) := by
  refine ⟨by simp [successEntry, objKeys], ?_⟩
  simp [patternRenders, successEntry, objGet]

theorem addToHistory_of_some (env : HistEnv) (entry : Obj) (st : Stored) (prior : List Obj)
    (hp : getHistory st = some prior) (hw : env.writeOk = true) :
    addToHistory env entry st
      = .ok (.log (jsonObj (mkRecord env entry)
          :: (if 50 ≤ prior.length then prior.dropLast else prior).map jsonObj)) := by
  unfold addToHistory
  rw [hp]
  simp only [saveHistory, hw, if_true, MAX_HISTORY_ITEMS, List.length_cons]
  by_cases h : 50 ≤ prior.length
  · have h' : prior.length + 1 > 50 := by omega
    rw [if_pos h', if_pos h]
    cases prior with
    | nil => simp at h
    | cons p ps => rw [List.dropLast_cons₂, List.map_cons]
  · have h' : ¬ prior.length + 1 > 50 := by omega
    rw [if_neg h', if_neg h, List.map_cons]

theorem addToHistory_of_write_failure (env : HistEnv) (entry : Obj) (st : Stored)
    (prior : List Obj) (hp : getHistory st = some prior) (hw : env.writeOk = false) :
    addToHistory env entry st = .ok st := by
  unfold addToHistory
  rw [hp]
  simp [saveHistory, hw]

theorem addToHistory_of_none (env : HistEnv) (entry : Obj) (st : Stored)
    (hp : getHistory st = none) :
    ∃ msg, addToHistory env entry st = .error msg := by
  unfold addToHistory
  rw [hp]
  exact ⟨_, rfl⟩

theorem objGet_storedRecord (env : HistEnv) (entry : Obj) (k : String)
    (hnd : (objKeys entry).Nodup) (hk : k ∈ objKeys entry) :
    objGet (storedRecord (env, entry)) k = objGet entry k := by
  have hrec : (objKeys (mkRecord env entry)).Nodup :=
    nodup_objKeys_objSpread entry _ (by simp [objKeys])
  rw [storedRecord, objGet_jsonObj _ k hrec]
  exact objGet_objSpread_of_nodup entry _ k hnd hk

theorem errorEntry_congr (val msg : String) (s t : State)
    (h : t.uploadedSequence = s.uploadedSequence) :
    errorEntry val msg t = errorEntry val msg s := by
  simp [errorEntry, sequenceName, h]

theorem successEntry_congr (val : String) (data : SearchData) (s t : State)
    (h : t.uploadedSequence = s.uploadedSequence) :
    successEntry val data t = successEntry val data s := by
  simp [successEntry, sequenceName, h]

theorem searchCatch_storage (env : SearchEnv) (val msg : String) (s : State) :
    (searchCatch env val msg s).storage
      = match addToHistory env.hist (errorEntry val msg s) s.storage with
        | .ok st => st
        | .error _ => s.storage := by
  rw [← addToHistoryCall_fst]
  unfold searchCatch
  simp only
  have : errorEntry val msg { s with vizData := { s.vizData with isSearching := false } }
      = errorEntry val msg s := rfl
  rw [this]
  split <;> simp_all [showToast]

theorem runSearchStart_frame (val : String) (s : State) :
    (runSearchStart val s).vizData = { s.vizData with isSearching := true } ∧
    (runSearchStart val s).storage = s.storage ∧
    (runSearchStart val s).uploadedSequence = s.uploadedSequence := by
  obtain ⟨f1, -, f3, f4⟩ := switchView_frame .results
    { s with vizData := { s.vizData with isSearching := true } }
  exact ⟨f1, f3, f4⟩

theorem runSearch_of_failure (env : SearchEnv) (val : String) (reply : Reply SearchData)
    (s : State) (hg : searchGuard val s = none) (hfail : ∀ data, reply ≠ .ok data) :
    runSearch env val reply s = searchCatch env val reply.errorMessage (runSearchStart val s) := by
  simp only [runSearch, hg]
  cases reply with
  | ok data => exact absurd rfl (hfail data)
  | failed m => rfl
  | rejected d b => rfl

/-- C8 (amended). When the remote search fails (the transport fails or the
service answers with a non-success status), after `runSearch` completes
`isSearching` is false and `matches`, `algorithm`, `searchTime` and every other
field of `vizData` are as before the call; and, when the stored history reads
as a list and the storage write succeeds, exactly one record has been added,
at the head of the stored log (the oldest record leaving a log that was full),
with status `error` and message equal to the failure message.  When the write
fails the store is left as it was. -/
theorem runSearch_failure (env : SearchEnv) (val : String) (reply : Reply SearchData)
    (s : State) (hg : searchGuard val s = none) (hfail : ∀ data, reply ≠ .ok data) :
    (runSearch env val reply s).vizData = { s.vizData with isSearching := false } ∧
    (runSearch env val reply s).vizData.isSearching = false ∧
    (runSearch env val reply s).vizData.«matches» = s.vizData.«matches» ∧
    (runSearch env val reply s).vizData.algorithm = s.vizData.algorithm ∧
    (runSearch env val reply s).vizData.searchTime = s.vizData.searchTime ∧
    (∀ prior, getHistory s.storage = some prior → env.hist.writeOk = true →
      ∃ head, (runSearch env val reply s).storage
          = .log (head :: (if 50 ≤ prior.length then prior.dropLast else prior).map jsonObj) ∧
        head = storedRecord (env.hist, errorEntry val reply.errorMessage s) ∧
        objGet head "status" = .str "error" ∧
        objGet head "message" = .str reply.errorMessage ∧
        objGet head "pattern" = .str val) ∧
    (env.hist.writeOk = false → (runSearch env val reply s).storage = s.storage) := by
  have hr := runSearch_of_failure env val reply s hg hfail
  obtain ⟨f1, f3, f4⟩ := runSearchStart_frame val s
  obtain ⟨-, -, -, c4⟩ := searchCatch_fields env val reply.errorMessage (runSearchStart val s)
  have hst := searchCatch_storage env val reply.errorMessage (runSearchStart val s)
  rw [errorEntry_congr val reply.errorMessage s (runSearchStart val s) f4, f3] at hst
  have hviz : (runSearch env val reply s).vizData = { s.vizData with isSearching := false } := by
    rw [hr, c4, f1]
  refine ⟨hviz, ?_, ?_, ?_, ?_, ?_, ?_⟩
  · rw [hviz]
  · rw [hviz]
  · rw [hviz]
  · rw [hviz]
  · intro prior hp hw
    have hnd : (objKeys (errorEntry val reply.errorMessage s)).Nodup := by
      simp [errorEntry, objKeys]
    refine ⟨_, ?_, rfl, ?_, ?_, ?_⟩
    · rw [hr, hst, addToHistory_of_some _ _ _ prior hp hw]
      rfl
    · rw [objGet_storedRecord _ _ _ hnd (by simp [errorEntry, objKeys])]
      simp [errorEntry, objGet]
    · rw [objGet_storedRecord _ _ _ hnd (by simp [errorEntry, objKeys])]
      simp [errorEntry, objGet]
    · rw [objGet_storedRecord _ _ _ hnd (by simp [errorEntry, objKeys])]
      simp [errorEntry, objGet]
  · intro hw
    rw [hr, hst]
    unfold addToHistory
    cases hp : getHistory s.storage with
    | none => rfl
    | some prior => simp [saveHistory, hw]


/-- Witness of C8 (amended): a search for `ACGT` on an uploaded sequence whose
request fails in transport. -/
theorem runSearch_failure_witness :
    searchGuard "ACGT" uploadedSession = none ∧
    (∀ data, (Reply.failed "Failed to fetch" : Reply SearchData) ≠ .ok data) ∧
    (runSearch ⟨⟨1000, "t", true⟩, fun _ => 0, ⟨1001, "t", true⟩⟩ "ACGT" (.failed "Failed to fetch")
      uploadedSession).vizData.isSearching = false :=
  ⟨by decide, fun _ h => Reply.noConfusion h,
   (runSearch_failure ⟨⟨1000, "t", true⟩, fun _ => 0, ⟨1001, "t", true⟩⟩ "ACGT" (.failed "Failed to fetch")
      uploadedSession (by decide) (fun _ h => Reply.noConfusion h)).2.1⟩

/-- Counterexample to C8 as stated (exactly one history entry was added): when
`localStorage.setItem` throws, `saveHistory` catches it; the failed search ends
with `isSearching` false and an empty history, as before it. -/
theorem failed_search_write_failure :
    searchGuard "ACGT" uploadedSession = none ∧
    getHistory uploadedSession.storage = some [] ∧
    (runSearch ⟨⟨1000, "t", false⟩, fun _ => 0, ⟨1001, "t", true⟩⟩ "ACGT" (.failed "Failed to fetch")
      uploadedSession).vizData.isSearching = false ∧
    getHistory (runSearch ⟨⟨1000, "t", false⟩, fun _ => 0, ⟨1001, "t", true⟩⟩ "ACGT" (.failed "Failed to fetch")
      uploadedSession).storage = some [] := by
  decide

theorem uploadedSequence_of_guard (val : String) (s : State) (hg : searchGuard val s = none) :
    ∃ seq, s.uploadedSequence = some seq := by
  have h := ((searchGuard_eq_none_iff val s).mp hg).2
  cases hs : s.uploadedSequence with
  | none => simp [sequenceId, hs, JsVal.truthy] at h
  | some seq => exact ⟨seq, rfl⟩

theorem renderResults_vizData (rand : ℕ → ℚ) (data : SearchData) (s : State) :
    (renderResults rand data s).vizData.isSearching = s.vizData.isSearching ∧
    (renderResults rand data s).vizData.«matches» = data.results.getD [] ∧
    (renderResults rand data s).vizData.algorithm = some (algoRaw data) ∧
    (renderResults rand data s).vizData.searchTime = totalMs data ∧
    (renderResults rand data s).vizData.sequenceLength = s.vizData.sequenceLength ∧
    (renderResults rand data s).vizData.gcContent = s.vizData.gcContent := by
  simp only [renderResults, updateVisualizationWithResults]
  split <;> simp

theorem searchCatch_storage_call (env : SearchEnv) (val msg : String) (s : State) :
    (searchCatch env val msg s).storage
      = (addToHistoryCall env.hist (errorEntry val msg s) s.storage).1 := by
  rw [searchCatch_storage, addToHistoryCall_fst]

theorem addToHistoryCall_of_none (env : HistEnv) (entry : Obj) (st : Stored)
    (hp : getHistory st = none) : (addToHistoryCall env entry st).1 = st := by
  rw [addToHistoryCall_fst]
  unfold addToHistory
  rw [hp]

/-- C9 (amended). When the remote search succeeds with response `data`, after
`runSearch` completes `isSearching` is false, `matches` is `data.results` (the
empty list if absent), `algorithm` is the algorithm named by the response and
`searchTime` is `data.end_to_end_ms` when present, else `job.search_time_ms`,
else `data.search_time_ms`; and, when the stored history reads as a list of
history records (no key twice, a `pattern` that is a text when it is there)
and the storage write succeeds, exactly one record has been added, at the
head of the stored log (the oldest record leaving a log that was full), with
status `success` and `matches` equal to `job.total_matches` if present, else
the number of results.  When the write fails the store is left as it was,
provided the stored history is such a list or the write of the `catch` block
fails as well. -/
theorem runSearch_success (env : SearchEnv) (val : String) (data : SearchData)
    (s : State) (hg : searchGuard val s = none) :
    (runSearch env val (.ok data) s).vizData.isSearching = false ∧
    (runSearch env val (.ok data) s).vizData.«matches» = data.results.getD [] ∧
    (runSearch env val (.ok data) s).vizData.algorithm = some (algoRaw data) ∧
    (runSearch env val (.ok data) s).vizData.searchTime = totalMs data ∧
    ((∀ t, data.end_to_end_ms = some t → totalMs data = some t) ∧
     (∀ job t, data.end_to_end_ms = none → data.job = some job → job.search_time_ms = some t →
        totalMs data = some t) ∧
     (data.end_to_end_ms = none → (data.job.bind fun job => job.search_time_ms) = none →
        totalMs data = data.search_time_ms)) ∧
    ((∀ job n, data.job = some job → job.total_matches = some n → matchCount data = n) ∧
     ((data.job.bind fun job => job.total_matches) = none →
        matchCount data = ((data.results.getD []).length : ℚ))) ∧
    (∀ prior, getHistory s.storage = some prior → env.hist.writeOk = true →
      (∀ item ∈ prior, HistoryRecord item) →
      ∃ head, (runSearch env val (.ok data) s).storage
          = .log (head :: (if 50 ≤ prior.length then prior.dropLast else prior).map jsonObj) ∧
        head = storedRecord (env.hist, successEntry val data s) ∧
        objGet head "status" = .str "success" ∧
        objGet head "matches" = .num (matchCount data) ∧
        objGet head "pattern" = .str val) ∧
    (env.hist.writeOk = false →
      (env.histCatch.writeOk = false ∨
        ∀ prior, getHistory s.storage = some prior → ∀ item ∈ prior, HistoryRecord item) →
      (runSearch env val (.ok data) s).storage = s.storage) := by
  obtain ⟨seq, hseq⟩ := uploadedSequence_of_guard val s hg
  obtain ⟨f1, f3, f4⟩ := runSearchStart_frame val s
  have hr : runSearch env val (.ok data) s
      = runSearchFinish env val (.ok data) (runSearchStart val s) := by
    simp only [runSearch, hg]
  rw [runSearchFinish_ok_some env val data (runSearchStart val s) seq (f4.trans hseq)] at hr
  generalize hs1 : ({ runSearchStart val s with
      vizData := { (runSearchStart val s).vizData with isSearching := false } } : State) = s1 at hr
  have hs1u : s1.uploadedSequence = s.uploadedSequence := by rw [← hs1]; exact f4
  have hs1s : s1.storage = s.storage := by rw [← hs1]; exact f3
  have hs1v : s1.vizData.isSearching = false := by rw [← hs1]
  obtain ⟨r1, r2, r3, r4⟩ := renderResults_fields env.rand data s1
  obtain ⟨v1, v2, v3, v4, -, -⟩ := renderResults_vizData env.rand data s1
  have hentry : successEntry val data (renderResults env.rand data s1)
      = successEntry val data s := successEntry_congr val data s _ (r2.trans hs1u)
  rw [hentry, r4, hs1s] at hr
  have hviz : (runSearch env val (.ok data) s).vizData
      = { (renderResults env.rand data s1).vizData with isSearching := false } := by
    rw [hr]
    split
    · simp only [showToast]
      rw [← v1.trans hs1v]
    · rename_i st msg _
      exact (searchCatch_fields _ val msg _).2.2.2
  have hnd : (objKeys (successEntry val data s)).Nodup := by
    simp [successEntry, objKeys]
  refine ⟨?_, ?_, ?_, ?_, ⟨?_, ?_, ?_⟩, ⟨?_, ?_⟩, ?_, ?_⟩
  · rw [hviz]
  · rw [hviz]; exact v2
  · rw [hviz]; exact v3
  · rw [hviz]; exact v4
  · intro t ht
    simp [totalMs, ht]
  · intro job t h1 h2 h3
    simp [totalMs, h1, h2, h3]
  · intro h1 h2
    simp only [totalMs, h1]
    rw [h2]
  · intro job n h1 h2
    simp [matchCount, h1, h2]
  · intro h
    simp only [matchCount]
    rw [h]
  · intro prior hp hw hrec
    have hadd := addToHistory_of_some env.hist (successEntry val data s) s.storage prior hp hw
    have hcall := addToHistoryCall_of_records env.hist (successEntry val data s) s.storage _
      prior hp hrec (HistoryRecord_successEntry val data s) hadd
    refine ⟨_, ?_, rfl, ?_, ?_, ?_⟩
    · rw [hr, hcall]
      rfl
    · rw [objGet_storedRecord _ _ _ hnd (by simp [successEntry, objKeys])]
      simp [successEntry, objGet]
    · rw [objGet_storedRecord _ _ _ hnd (by simp [successEntry, objKeys])]
      simp [successEntry, objGet]
    · rw [objGet_storedRecord _ _ _ hnd (by simp [successEntry, objKeys])]
      simp [successEntry, objGet]
  · intro hw hor
    have h1 := addToHistoryCall_of_write_failure env.hist (successEntry val data s) s.storage hw
    rw [hr]
    rcases hc : addToHistoryCall env.hist (successEntry val data s) s.storage with ⟨st, _ | msg⟩
    · rw [hc] at h1
      exact h1
    · rw [hc] at h1
      have hst : st = s.storage := h1
      subst hst
      simp only
      rw [searchCatch_storage_call]
      rcases hor with hw2 | hrec
      · exact addToHistoryCall_of_write_failure _ _ _ hw2
      · cases hp : getHistory s.storage with
        | none => exact addToHistoryCall_of_none _ _ _ hp
        | some prior =>
          have hadd := addToHistory_of_write_failure env.hist (successEntry val data s)
            s.storage prior hp hw
          have hcall := addToHistoryCall_of_records env.hist (successEntry val data s)
            s.storage _ prior hp (hrec prior hp) (HistoryRecord_successEntry val data s) hadd
          rw [hcall] at hc
          cases hc


/-- Witness of C9 (amended): a reply carrying both an end-to-end time (12.5)
and a server time (1.5); the end-to-end time is the one kept. -/
theorem runSearch_success_witness :
    searchGuard "ACGT" uploadedSession = none ∧
    totalMs sampleSearchData = some 12.5 ∧
    (runSearch ⟨⟨1000, "t", true⟩, fun _ => 0, ⟨1001, "t", true⟩⟩ "ACGT" (.ok sampleSearchData)
      uploadedSession).vizData.searchTime = totalMs sampleSearchData :=
  ⟨by decide, rfl,
   (runSearch_success ⟨⟨1000, "t", true⟩, fun _ => 0, ⟨1001, "t", true⟩⟩ "ACGT" sampleSearchData
      uploadedSession (by decide)).2.2.2.1⟩

/-- Counterexample to C9 as stated (exactly one history entry was added, with
status `success`).  When `localStorage.setItem` throws, `saveHistory` catches
it: after the successful search the history is empty, as before it.  When the
store holds a record whose `pattern` is the number 5, the success record is
written, the `renderHistory` that ends `addToHistory` raises on that record,
and the `catch` block writes an error record on top: two records have been
added, the head has status `error`, and the error of the second
`renderHistory` leaves the handler uncaught. -/
theorem successful_search_not_one_entry :
    searchGuard "ACGT" uploadedSession = none ∧
    getHistory uploadedSession.storage = some [] ∧
    getHistory (runSearch ⟨⟨1000, "t", false⟩, fun _ => 0, ⟨1001, "t", false⟩⟩ "ACGT"
      (.ok sampleSearchData) uploadedSession).storage = some [] ∧
    searchGuard "ACGT" foreignSession = none ∧
    getHistory foreignSession.storage = some foreignLog ∧
    getHistory (runSearch ⟨⟨1000, "t", true⟩, fun _ => 0, ⟨1001, "t", true⟩⟩ "ACGT"
      (.ok sampleSearchData) foreignSession).storage
      = some (storedRecord (⟨1001, "t", true⟩,
                errorEntry "ACGT" "TypeError: item.pattern.toUpperCase is not a function"
                  foreignSession)
          :: storedRecord (⟨1000, "t", true⟩, successEntry "ACGT" sampleSearchData foreignSession)
          :: foreignLog) ∧
    objGet (storedRecord (⟨1001, "t", true⟩,
        errorEntry "ACGT" "TypeError: item.pattern.toUpperCase is not a function"
          foreignSession)) "status" = .str "error" ∧
    (runSearch ⟨⟨1000, "t", true⟩, fun _ => 0, ⟨1001, "t", true⟩⟩ "ACGT"
      (.ok sampleSearchData) foreignSession).uncaught
      = ["TypeError: item.pattern.toUpperCase is not a function"] ∧
    (runSearch ⟨⟨1000, "t", true⟩, fun _ => 0, ⟨1001, "t", true⟩⟩ "ACGT"
      (.ok sampleSearchData) foreignSession).toasts = uploadedSession.toasts := by
  refine ⟨by decide, by decide, by decide, by decide, rfl, rfl, by decide, rfl, rfl⟩

/-! ## The density histogram -/

theorem countMatch_length (L : ℚ) (d : List ℕ) (m : Match) :
    (countMatch L d m).length = d.length := by
  unfold countMatch
  simp only
  split <;> simp

theorem countMatch_getD (L : ℚ) (d : List ℕ) (m : Match) (i : ℕ) (hi : i < d.length)
    (hd : d.length = 100) :
    (countMatch L d m).getD i 0
      = d.getD i 0 + if ⌊toDouble (toDouble (m.position / L) * 100)⌋ = (i : ℤ) then 1 else 0 := by
  unfold countMatch bucketOf
  simp only
  by_cases hb : 0 ≤ ⌊toDouble (toDouble (m.position / L) * 100)⌋ ∧ ⌊toDouble (toDouble (m.position / L) * 100)⌋ < 100
  · rw [if_pos hb]
    simp only [List.getD_eq_getElem?_getD, List.getElem?_modify, List.getElem?_eq_getElem hi,
      Option.map_eq_map, Option.map_some', Option.getD_some]
    by_cases h : ⌊toDouble (toDouble (m.position / L) * 100)⌋ = (i : ℤ)
    · have : ⌊toDouble (toDouble (m.position / L) * 100)⌋.toNat = i := by omega
      simp [h, this]
    · have : ¬ ⌊toDouble (toDouble (m.position / L) * 100)⌋.toNat = i := by omega
      simp [h, this]
  · rw [if_neg hb]
    have : ¬ ⌊toDouble (toDouble (m.position / L) * 100)⌋ = (i : ℤ) := by
      intro h
      apply hb
      omega
    simp [this]

theorem foldl_countMatch (L : ℚ) (ms : List Match) (d : List ℕ) (hd : d.length = 100) :
    (ms.foldl (countMatch L) d).length = 100 ∧
    ∀ i, i < 100 → (ms.foldl (countMatch L) d).getD i 0 = d.getD i 0 + bucketCount L ms i := by
  induction ms generalizing d with
  | nil => exact ⟨hd, fun i _ => by simp [bucketCount]⟩
  | cons m rest ih =>
    have hlen : (countMatch L d m).length = 100 := by rw [countMatch_length, hd]
    obtain ⟨h1, h2⟩ := ih (countMatch L d m) hlen
    refine ⟨h1, fun i hi => ?_⟩
    rw [List.foldl_cons, h2 i hi, countMatch_getD L d m i (by omega) hd]
    simp only [bucketCount, List.countP_cons, decide_eq_true_eq]
    omega

theorem matchDensity_eq (L : ℚ) (ms : List Match) :
    matchDensity L ms = (List.range 100).map (bucketCount L ms) := by
  obtain ⟨h1, h2⟩ := foldl_countMatch L ms (List.replicate 100 0) (List.length_replicate _ _)
  unfold matchDensity
  apply List.ext_getElem
  · rw [h1, List.length_map, List.length_range]
  · intro i hi1 hi2
    have hi : i < 100 := by rw [h1] at hi1; exact hi1
    have h := h2 i hi
    rw [List.getD_eq_getElem?_getD, List.getD_eq_getElem?_getD, List.getElem?_eq_getElem hi1,
      List.getElem?_replicate, if_pos hi, Option.getD_some, Option.getD_some, Nat.zero_add] at h
    rw [h, List.getElem_map, List.getElem_range]

theorem maxDensity_eq (d : List ℕ) : maxDensity d = max 1 (d.foldr max 0) := by
  induction d with
  | nil => simp [maxDensity]
  | cons a rest ih =>
    simp only [maxDensity, List.foldr_cons] at ih ⊢
    rw [ih]
    omega

theorem le_foldr_max (l : List ℕ) (x : ℕ) (hx : x ∈ l) : x ≤ l.foldr max 0 := by
  induction l with
  | nil => simp at hx
  | cons a rest ih =>
    simp only [List.foldr_cons]
    rcases List.mem_cons.mp hx with h | h
    · subst h; exact le_max_left _ _
    · exact le_trans (ih h) (le_max_right _ _)

theorem densityPoints_eq (L : ℚ) (ms : List Match) : densityPoints L ms = specPoints L ms := by
  unfold densityPoints specPoints
  simp only
  apply List.map_congr_left
  intro i hi
  have hi' : i < 100 := List.mem_range.mp hi
  have hget : (matchDensity L ms).getD i 0 = bucketCount L ms i := by
    rw [matchDensity_eq]
    simp [hi']
  rw [hget, maxDensity_eq, matchDensity_eq]
  rfl

theorem bucketCount_le_peak (L : ℚ) (ms : List Match) (i : ℕ) (hi : i < 100) :
    bucketCount L ms i ≤ max 1 (peakCount L ms) :=
  le_trans (le_foldr_max _ _ (List.mem_map.mpr ⟨i, List.mem_range.mpr hi, rfl⟩))
    (le_max_right _ _)

/-- C10 (amended). For every `sequenceLength > 0` and every non-empty match
list, `updateVisualizationWithResults` sets `vizData.dataPoints` to exactly 100
points, point `i` having `x = i/100`, `y = 0.2` and
`targetY = 0.2 + (c_i / max(1, max_j c_j)) * 0.6` where `c_i` counts the matches
with `floor(position / sequenceLength * 100) = i`, the quotient and the
product being taken in double arithmetic, each rounded to the nearest double;
the array the code fills is that list of counts, so a match whose bucket lies
outside `0..99` is counted in no bucket; the divisor is at least 1; and every
`targetY` lies in `[0.2, 0.8]`. -/
theorem updateVisualization_density (rand : ℕ → ℚ) (s : State)
    (hlen : s.vizData.sequenceLength > 0) (hms : s.vizData.«matches» ≠ []) :
    (updateVisualizationWithResults rand s).vizData.dataPoints
      = specPoints s.vizData.sequenceLength s.vizData.«matches» ∧
    (updateVisualizationWithResults rand s).vizData.dataPoints.length = 100 ∧
    matchDensity s.vizData.sequenceLength s.vizData.«matches»
      = (List.range 100).map (bucketCount s.vizData.sequenceLength s.vizData.«matches») ∧
    (∀ m ∈ s.vizData.«matches»,
      ¬ (0 ≤ bucketOf s.vizData.sequenceLength m ∧ bucketOf s.vizData.sequenceLength m < 100) →
      ∀ d, countMatch s.vizData.sequenceLength d m = d) ∧
    maxDensity (matchDensity s.vizData.sequenceLength s.vizData.«matches»)
      = max 1 (peakCount s.vizData.sequenceLength s.vizData.«matches») ∧
    1 ≤ maxDensity (matchDensity s.vizData.sequenceLength s.vizData.«matches») ∧
    (∀ p ∈ (updateVisualizationWithResults rand s).vizData.dataPoints,
      p.y = 0.2 ∧ 0.2 ≤ p.targetY ∧ p.targetY ≤ 0.8) := by
  have hpts : (updateVisualizationWithResults rand s).vizData.dataPoints
      = specPoints s.vizData.sequenceLength s.vizData.«matches» := by
    have hpos : s.vizData.«matches».length > 0 := List.length_pos.mpr hms
    simp only [updateVisualizationWithResults, hpos, hlen, and_self, if_true]
    exact densityPoints_eq _ _
  have hmax : maxDensity (matchDensity s.vizData.sequenceLength s.vizData.«matches»)
      = max 1 (peakCount s.vizData.sequenceLength s.vizData.«matches») := by
    rw [maxDensity_eq, matchDensity_eq]
    rfl
  refine ⟨hpts, ?_, matchDensity_eq _ _, ?_, hmax, ?_, ?_⟩
  · rw [hpts]
    simp [specPoints]
  · intro m _ hb d
    simp only [countMatch, if_neg hb]
  · rw [hmax]
    exact le_max_left _ _
  · intro p hp
    rw [hpts] at hp
    simp only [specPoints, List.mem_map, List.mem_range] at hp
    obtain ⟨i, hi, rfl⟩ := hp
    have hle := bucketCount_le_peak s.vizData.sequenceLength s.vizData.«matches» i hi
    have hpos : (0 : ℚ) < ((max 1 (peakCount s.vizData.sequenceLength s.vizData.«matches») : ℕ) : ℚ) := by
      have : 1 ≤ max 1 (peakCount s.vizData.sequenceLength s.vizData.«matches») := le_max_left _ _
      exact_mod_cast this
    have h0 : (0 : ℚ) ≤ (bucketCount s.vizData.sequenceLength s.vizData.«matches» i : ℚ)
        / ((max 1 (peakCount s.vizData.sequenceLength s.vizData.«matches») : ℕ) : ℚ) :=
      div_nonneg (Nat.cast_nonneg _) hpos.le
    have h1 : (bucketCount s.vizData.sequenceLength s.vizData.«matches» i : ℚ)
        / ((max 1 (peakCount s.vizData.sequenceLength s.vizData.«matches») : ℕ) : ℚ) ≤ 1 := by
      rw [div_le_one hpos]
      exact_mod_cast hle
    generalize (bucketCount s.vizData.sequenceLength s.vizData.«matches» i : ℚ)
        / ((max 1 (peakCount s.vizData.sequenceLength s.vizData.«matches») : ℕ) : ℚ) = r at h0 h1
    refine ⟨rfl, ?_, ?_⟩
    · show (0.2 : ℚ) ≤ 0.2 + r * 0.6
      norm_num
      linarith
    · show (0.2 : ℚ) + r * 0.6 ≤ 0.8
      norm_num
      linarith


theorem foldr_max_le (l : List ℕ) (b : ℕ) (h : ∀ x ∈ l, x ≤ b) : l.foldr max 0 ≤ b := by
  induction l with
  | nil => simp
  | cons a rest ih =>
    simp only [List.foldr_cons]
    exact max_le (h a (List.mem_cons_self _ _)) (ih fun x hx => h x (List.mem_cons_of_mem _ hx))

/-! ### Rounding to a double -/

theorem roundHalfEven_cases (q : ℚ) :
    (roundHalfEven q = ⌊q⌋ ∧ q - ⌊q⌋ ≤ 1 / 2) ∨
    (roundHalfEven q = ⌊q⌋ + 1 ∧ 1 / 2 ≤ q - ⌊q⌋) := by
  unfold roundHalfEven
  simp only
  by_cases h1 : q - (⌊q⌋ : ℚ) < 1 / 2
  · rw [if_pos h1]
    exact Or.inl ⟨rfl, h1.le⟩
  · rw [if_neg h1]
    by_cases h2 : 1 / 2 < q - (⌊q⌋ : ℚ)
    · rw [if_pos h2]
      exact Or.inr ⟨rfl, h2.le⟩
    · rw [if_neg h2]
      have he : q - (⌊q⌋ : ℚ) = 1 / 2 := le_antisymm (not_lt.mp h2) (not_lt.mp h1)
      by_cases h3 : ⌊q⌋ % 2 = 0
      · rw [if_pos h3]
        exact Or.inl ⟨rfl, he.le⟩
      · rw [if_neg h3]
        exact Or.inr ⟨rfl, he.ge⟩

/-- No integer is nearer to `q` than `roundHalfEven q`. -/
theorem roundHalfEven_nearest (q : ℚ) (k : ℤ) :
    |(roundHalfEven q : ℚ) - q| ≤ |(k : ℚ) - q| := by
  have hf := Int.floor_le q
  have hc := Int.lt_floor_add_one q
  have hk : (k : ℚ) ≤ ⌊q⌋ ∨ ((⌊q⌋ : ℚ) + 1 ≤ k) := by
    rcases le_or_lt k ⌊q⌋ with h | h
    · exact Or.inl (by exact_mod_cast h)
    · exact Or.inr (by exact_mod_cast h)
  rcases roundHalfEven_cases q with ⟨e, hr⟩ | ⟨e, hr⟩
  · rw [e]
    rw [abs_le]
    rcases hk with h | h
    · rw [abs_of_nonpos (by linarith)]
      constructor <;> linarith
    · rw [abs_of_nonneg (by linarith)]
      constructor <;> linarith
  · rw [e]
    push_cast
    rw [abs_le]
    rcases hk with h | h
    · rw [abs_of_nonpos (by linarith)]
      constructor <;> linarith
    · rw [abs_of_nonneg (by linarith)]
      constructor <;> linarith

/-- A tie goes to the even integer. -/
theorem roundHalfEven_tie (n : ℤ) :
    roundHalfEven ((n : ℚ) + 1 / 2) = if n % 2 = 0 then n else n + 1 := by
  have hfl : ⌊(n : ℚ) + 1 / 2⌋ = n := by
    rw [Int.floor_eq_iff]
    constructor <;> linarith
  unfold roundHalfEven
  simp only [hfl]
  have h1 : ¬ ((n : ℚ) + 1 / 2 - n < 1 / 2) := by
    intro h; linarith
  have h2 : ¬ ((1 : ℚ) / 2 < (n : ℚ) + 1 / 2 - n) := by
    intro h; linarith
  rw [if_neg h1, if_neg h2]

/-- Short of overflow, `toDouble q` is a multiple of the spacing
`2 ^ (binade q - 52)` of the doubles next to `q`, and no multiple of that
spacing is nearer to `q`. -/
theorem toDouble_nearest (q : ℚ)
    (h : |(roundHalfEven (q / 2 ^ (binade q - 52)) : ℚ) * 2 ^ (binade q - 52)| < 2 ^ (1024 : ℤ)) :
    toDouble q = (roundHalfEven (q / 2 ^ (binade q - 52)) : ℚ) * 2 ^ (binade q - 52) ∧
    ∀ k : ℤ, |toDouble q - q| ≤ |(k : ℚ) * 2 ^ (binade q - 52) - q| := by
  have hd : toDouble q = (roundHalfEven (q / 2 ^ (binade q - 52)) : ℚ) * 2 ^ (binade q - 52) := by
    unfold toDouble
    simp only
    rw [if_neg (not_le.mpr h)]
  refine ⟨hd, fun k => ?_⟩
  rw [hd]
  have hu : (0 : ℚ) < 2 ^ (binade q - 52) := zpow_pos (by norm_num) _
  generalize (2 : ℚ) ^ (binade q - 52) = u at hu ⊢
  have hn := roundHalfEven_nearest (q / u) k
  have e1 : ∀ x : ℚ, x * u - q = (x - q / u) * u := by
    intro x
    field_simp
  rw [e1, e1, abs_mul, abs_mul]
  exact mul_le_mul_of_nonneg_right hn (abs_nonneg u)

/-- In the normal range `binade q` is the exponent of `q`. -/
theorem binade_spec (q : ℚ) (h : (2 : ℚ) ^ (-1022 : ℤ) ≤ |q|) :
    -1022 ≤ binade q ∧ (2 : ℚ) ^ binade q ≤ |q| ∧ |q| < (2 : ℚ) ^ (binade q + 1) := by
  have hpos : 0 < |q| := lt_of_lt_of_le (zpow_pos (by norm_num) _) h
  have hle : (-1022 : ℤ) ≤ Int.log 2 |q| :=
    (Int.zpow_le_iff_le_log (b := 2) (by norm_num) hpos).mp (by exact_mod_cast h)
  have hb : binade q = Int.log 2 |q| := max_eq_left hle
  rw [hb]
  refine ⟨hle, ?_, ?_⟩
  · exact_mod_cast Int.zpow_log_le_self (b := 2) (by norm_num) hpos
  · exact_mod_cast Int.lt_zpow_succ_log_self (b := 2) (by norm_num) |q|

theorem binade_eq (q : ℚ) (e : ℤ) (he : -1022 ≤ e) (h1 : (2 : ℚ) ^ e ≤ |q|)
    (h2 : |q| < (2 : ℚ) ^ (e + 1)) : binade q = e := by
  have hpos : 0 < |q| := lt_of_lt_of_le (zpow_pos (by norm_num) e) h1
  have hlog : Int.log 2 |q| = e := by
    apply le_antisymm
    · have := (Int.lt_zpow_iff_log_lt (b := 2) (by norm_num) hpos (x := e + 1)).mp
        (by exact_mod_cast h2)
      omega
    · exact (Int.zpow_le_iff_le_log (b := 2) (by norm_num) hpos).mp (by exact_mod_cast h1)
  unfold binade
  rw [hlog]
  exact max_eq_left he

theorem toDouble_eq (q : ℚ) (e n : ℤ) (he : -1022 ≤ e) (h1 : (2 : ℚ) ^ e ≤ |q|)
    (h2 : |q| < (2 : ℚ) ^ (e + 1)) (hn : roundHalfEven (q / 2 ^ (e - 52)) = n)
    (hlt : |(n : ℚ) * 2 ^ (e - 52)| < 2 ^ (1024 : ℤ)) :
    toDouble q = (n : ℚ) * 2 ^ (e - 52) := by
  unfold toDouble
  simp only [binade_eq q e he h1 h2, hn]
  rw [if_neg (not_le.mpr hlt)]

/-- The bucket of position 10 in a sequence of 1000: the double next to
`10 / 1000` is a little above `1 / 100`, and its product with 100 rounds to 1. -/
theorem bucket_ten_of_thousand :
    ⌊toDouble (toDouble ((10 : ℚ) / 1000) * 100)⌋ = 1 := by
  have d1 : toDouble ((10 : ℚ) / 1000) = 5764607523034235 / 576460752303423488 := by
    rw [toDouble_eq ((10 : ℚ) / 1000) (-7) 5764607523034235 (by norm_num)
      (by norm_num [abs_of_pos]) (by norm_num [abs_of_pos])
      (by simp only [roundHalfEven]; norm_num) (by norm_num [abs_of_pos])]
    norm_num
  have d2 : toDouble ((5764607523034235 : ℚ) / 576460752303423488 * 100) = 1 := by
    rw [toDouble_eq _ 0 4503599627370496 (by norm_num)
      (by norm_num [abs_of_pos]) (by norm_num [abs_of_pos])
      (by simp only [roundHalfEven]; norm_num) (by norm_num [abs_of_pos])]
    norm_num
  rw [d1, d2]
  norm_num

/-- The bucket of position 990 in a sequence of 1000: the double next to
`990 / 1000` is a little below `99 / 100`, and its product with 100 rounds to
99. -/
theorem bucket_nine_ninety_of_thousand :
    ⌊toDouble (toDouble ((990 : ℚ) / 1000) * 100)⌋ = 99 := by
  have d1 : toDouble ((990 : ℚ) / 1000) = 4458563631096791 / 4503599627370496 := by
    rw [toDouble_eq ((990 : ℚ) / 1000) (-1) 8917127262193582 (by norm_num)
      (by norm_num [abs_of_pos]) (by norm_num [abs_of_pos])
      (by simp only [roundHalfEven]; norm_num) (by norm_num [abs_of_pos])]
    norm_num
  have d2 : toDouble ((4458563631096791 : ℚ) / 4503599627370496 * 100) = 99 := by
    rw [toDouble_eq _ 6 6966505673588736 (by norm_num)
      (by norm_num [abs_of_pos]) (by norm_num [abs_of_pos])
      (by simp only [roundHalfEven]; norm_num) (by norm_num [abs_of_pos])]
    norm_num
  rw [d1, d2]
  norm_num

/-- The bucket of position 29 in a sequence of 100: the double next to
`29 / 100` is a little below it, its product with 100 is the double just
below 29, and the floor is 28. -/
theorem bucket_twenty_nine_of_hundred :
    ⌊toDouble (toDouble ((29 : ℚ) / 100) * 100)⌋ = 28 := by
  have d1 : toDouble ((29 : ℚ) / 100) = 5224175567749775 / 18014398509481984 := by
    rw [toDouble_eq ((29 : ℚ) / 100) (-2) 5224175567749775 (by norm_num)
      (by norm_num [abs_of_pos]) (by norm_num [abs_of_pos])
      (by simp only [roundHalfEven]; norm_num) (by norm_num [abs_of_pos])]
    norm_num
  have d2 : toDouble ((5224175567749775 : ℚ) / 18014398509481984 * 100)
      = 8162774324609023 / 281474976710656 := by
    rw [toDouble_eq _ 4 8162774324609023 (by norm_num)
      (by norm_num [abs_of_pos]) (by norm_num [abs_of_pos])
      (by simp only [roundHalfEven]; norm_num) (by norm_num [abs_of_pos])]
    norm_num
  rw [d1, d2]
  norm_num

theorem bucketCount_sample (i : ℕ) :
    bucketCount 1000 sampleMatches i = (if i = 1 then 2 else 0) + (if i = 99 then 1 else 0) := by
  have h1 := bucket_ten_of_thousand
  have h2 := bucket_nine_ninety_of_thousand
  simp only [bucketCount, sampleMatches, List.countP_cons, List.countP_nil, h1, h2]
  by_cases a : i = 1
  · subst a; simp
  · by_cases b : i = 99
    · subst b; simp
    · have a' : ¬ (1 : ℤ) = (i : ℤ) := by omega
      have b' : ¬ (99 : ℤ) = (i : ℤ) := by omega
      simp [a, b, a', b']

theorem peakCount_sample : peakCount 1000 sampleMatches = 2 := by
  apply le_antisymm
  · apply foldr_max_le
    intro x hx
    obtain ⟨i, -, rfl⟩ := List.mem_map.mp hx
    rw [bucketCount_sample]
    split <;> split <;> omega
  · have h : bucketCount 1000 sampleMatches 1 ∈ (List.range 100).map (bucketCount 1000 sampleMatches) :=
      List.mem_map.mpr ⟨1, List.mem_range.mpr (by norm_num), rfl⟩
    have := le_foldr_max _ _ h
    rw [bucketCount_sample] at this
    exact this

/-- Witness of C10: sequence length 1000 and matches at 10, 10 and 990 give
`c_1 = 2`, `c_99 = 1`, every other `c_i = 0`, and the maximum 2. -/
theorem updateVisualization_density_witness :
    sampleMatchSession.vizData.sequenceLength > 0 ∧
    sampleMatchSession.vizData.«matches» ≠ [] ∧
    (updateVisualizationWithResults (fun _ => 0) sampleMatchSession).vizData.dataPoints
      = specPoints 1000 sampleMatches ∧
    bucketCount 1000 sampleMatches 1 = 2 ∧ bucketCount 1000 sampleMatches 99 = 1 ∧
    (∀ i, i ≠ 1 → i ≠ 99 → bucketCount 1000 sampleMatches i = 0) ∧
    peakCount 1000 sampleMatches = 2 ∧
    maxDensity (matchDensity 1000 sampleMatches) = 2 := by
  have hlen : sampleMatchSession.vizData.sequenceLength > 0 := by
    show (1000 : ℚ) > 0
    norm_num
  have hms : sampleMatchSession.vizData.«matches» ≠ [] := by
    show sampleMatches ≠ []
    decide
  have h := updateVisualization_density (fun _ => 0) sampleMatchSession hlen hms
  refine ⟨hlen, hms, h.1, ?_, ?_, ?_, peakCount_sample, ?_⟩
  · rw [bucketCount_sample]; rfl
  · rw [bucketCount_sample]; rfl
  · intro i h1 h2
    rw [bucketCount_sample]
    simp [h1, h2]
  · have := h.2.2.2.2.1
    rw [show sampleMatchSession.vizData.sequenceLength = 1000 from rfl,
      show sampleMatchSession.vizData.«matches» = sampleMatches from rfl, peakCount_sample] at this
    exact this

theorem bucketCount_edge (i : ℕ) :
    bucketCount 100 [⟨29, none, none⟩] i = if i = 28 then 1 else 0 := by
  have h := bucket_twenty_nine_of_hundred
  simp only [bucketCount, List.countP_cons, List.countP_nil, h]
  by_cases a : i = 28
  · subst a; simp
  · have a' : ¬ (28 : ℤ) = (i : ℤ) := by omega
    simp [a, a']

theorem peakCount_edge : peakCount 100 [⟨29, none, none⟩] = 1 := by
  apply le_antisymm
  · apply foldr_max_le
    intro x hx
    obtain ⟨i, -, rfl⟩ := List.mem_map.mp hx
    rw [bucketCount_edge]
    split <;> omega
  · have h : bucketCount 100 [⟨29, none, none⟩] 28
        ∈ (List.range 100).map (bucketCount 100 [⟨29, none, none⟩]) :=
      List.mem_map.mpr ⟨28, List.mem_range.mpr (by norm_num), rfl⟩
    have := le_foldr_max _ _ h
    rw [bucketCount_edge] at this
    exact this

/-- Counterexample to C10 as stated (`c_i` counts the matches with
`floor(position / sequenceLength * 100) = i`): with `sequenceLength` 100 and
one match at position 29 the floor of `29 / 100 * 100` is 29, yet the code,
which takes the quotient and the product in doubles, finds the bucket 28:
point 28 gets `targetY = 0.8` and point 29 stays at `0.2`. -/
theorem density_bucket_rounds_down :
    edgeBucketSession.vizData.sequenceLength > 0 ∧
    edgeBucketSession.vizData.«matches» ≠ [] ∧
    ⌊(29 : ℚ) / 100 * 100⌋ = 29 ∧
    bucketOf 100 ⟨29, none, none⟩ = 28 ∧
    (updateVisualizationWithResults (fun _ => 0) edgeBucketSession).vizData.dataPoints[28]?
      = some ⟨28 / 100, 0.2, 0.8⟩ ∧
    (updateVisualizationWithResults (fun _ => 0) edgeBucketSession).vizData.dataPoints[29]?
      = some ⟨29 / 100, 0.2, 0.2⟩ := by
  have hlen : edgeBucketSession.vizData.sequenceLength > 0 := by
    show (100 : ℚ) > 0
    norm_num
  have hms : edgeBucketSession.vizData.«matches» ≠ [] := by
    show [(⟨29, none, none⟩ : Match)] ≠ []
    decide
  have hpts : (updateVisualizationWithResults (fun _ => 0) edgeBucketSession).vizData.dataPoints
      = specPoints 100 [⟨29, none, none⟩] := by
    have hpos : edgeBucketSession.vizData.«matches».length > 0 := List.length_pos.mpr hms
    simp only [updateVisualizationWithResults, hpos, hlen, and_self, if_true]
    exact densityPoints_eq _ _
  refine ⟨hlen, hms, by norm_num, bucket_twenty_nine_of_hundred, ?_, ?_⟩
  · rw [hpts]
    simp only [specPoints, List.getElem?_map, peakCount_edge, bucketCount_edge]
    rw [List.getElem?_range (by norm_num)]
    simp only [Option.map_some', Option.some.injEq]
    norm_num
  · rw [hpts]
    simp only [specPoints, List.getElem?_map, peakCount_edge, bucketCount_edge]
    rw [List.getElem?_range (by norm_num)]
    simp only [Option.map_some', Option.some.injEq]
    norm_num

/-! ## Applying search results to the visualization -/

theorem densityPoints_length (L : ℚ) (ms : List Match) : (densityPoints L ms).length = 100 := by
  simp [densityPoints]

theorem updateVisualization_dataPoints_of_pos (rand : ℕ → ℚ) (s : State)
    (hms : s.vizData.«matches» ≠ []) (hlen : s.vizData.sequenceLength > 0) :
    (updateVisualizationWithResults rand s).vizData.dataPoints
      = densityPoints s.vizData.sequenceLength s.vizData.«matches» := by
  have hpos : s.vizData.«matches».length > 0 := List.length_pos.mpr hms
  simp only [updateVisualizationWithResults, hpos, hlen, and_self, if_true]

theorem updateVisualization_dataPoints_of_not (rand : ℕ → ℚ) (s : State)
    (h : s.vizData.«matches» = [] ∨ s.vizData.sequenceLength ≤ 0) :
    (updateVisualizationWithResults rand s).vizData.dataPoints = s.vizData.dataPoints := by
  have hn : ¬ (s.vizData.«matches».length > 0 ∧ s.vizData.sequenceLength > 0) := by
    rintro ⟨h1, h2⟩
    rcases h with h | h
    · rw [h] at h1; simp at h1
    · exact absurd h2 (not_lt.mpr h)
  simp only [updateVisualizationWithResults, hn, if_false]

theorem updateVisualization_particles (rand : ℕ → ℚ) (s : State) :
    (updateVisualizationWithResults rand s).vizData.particles
      = s.vizData.particles ++ burstParticles rand s.vizWidth s.vizHeight := by
  simp only [updateVisualizationWithResults]
  split <;> rfl

theorem renderResults_dataPoints_of_pos (rand : ℕ → ℚ) (data : SearchData) (s : State)
    (hms : data.results.getD [] ≠ []) (hlen : s.vizData.sequenceLength > 0) :
    (renderResults rand data s).vizData.dataPoints
      = densityPoints s.vizData.sequenceLength (data.results.getD []) := by
  unfold renderResults
  exact updateVisualization_dataPoints_of_pos rand _ hms hlen

theorem renderResults_dataPoints_of_not (rand : ℕ → ℚ) (data : SearchData) (s : State)
    (h : data.results.getD [] = [] ∨ s.vizData.sequenceLength ≤ 0) :
    (renderResults rand data s).vizData.dataPoints = s.vizData.dataPoints := by
  unfold renderResults
  exact updateVisualization_dataPoints_of_not rand _ h

/-- C11 (amended). For every successful search response with at least one
result and every prior state with `sequenceLength > 0`, `renderResults`
recomputes the density data points from the new result list: afterwards
`vizData.dataPoints` is the hundred points computed from the new matches and
`sequenceLength`, whatever the data points were before.  When the result list
is empty (or `sequenceLength` is not positive) the guard of
`updateVisualizationWithResults` leaves `vizData.dataPoints` as it was. -/
theorem renderResults_recomputes_density (rand : ℕ → ℚ) (data : SearchData) (s : State) :
    (data.results.getD [] ≠ [] → s.vizData.sequenceLength > 0 →
      (renderResults rand data s).vizData.dataPoints
        = densityPoints s.vizData.sequenceLength (data.results.getD []) ∧
      (renderResults rand data s).vizData.dataPoints
        = specPoints s.vizData.sequenceLength (data.results.getD []) ∧
      ∀ (rand' : ℕ → ℚ) (t : State), t.vizData.sequenceLength = s.vizData.sequenceLength →
        (renderResults rand' data t).vizData.dataPoints
          = (renderResults rand data s).vizData.dataPoints) ∧
    ((data.results.getD [] = [] ∨ s.vizData.sequenceLength ≤ 0) →
      (renderResults rand data s).vizData.dataPoints = s.vizData.dataPoints) := by
  refine ⟨fun hms hlen => ⟨renderResults_dataPoints_of_pos rand data s hms hlen, ?_, ?_⟩,
    renderResults_dataPoints_of_not rand data s⟩
  · rw [renderResults_dataPoints_of_pos rand data s hms hlen, densityPoints_eq]
  · intro rand' t ht
    rw [renderResults_dataPoints_of_pos rand data s hms hlen,
      renderResults_dataPoints_of_pos rand' data t hms (ht ▸ hlen), ht]

/-- Counterexample to C11 as stated (no data point of an earlier search
remains): after a search that found three matches, a search that finds none
sets `vizData.matches` to the empty list and leaves the hundred data points of
the first search in `vizData.dataPoints`. -/
theorem renderResults_keeps_stale_points :
    searchedSession.vizData.dataPoints = densityPoints 1000 sampleMatches ∧
    searchedSession.vizData.dataPoints.length = 100 ∧
    (renderResults (fun _ => 0) emptySearchData searchedSession).vizData.«matches» = [] ∧
    (renderResults (fun _ => 0) emptySearchData searchedSession).vizData.dataPoints
      = searchedSession.vizData.dataPoints := by
  have h1 : searchedSession.vizData.dataPoints = densityPoints 1000 sampleMatches :=
    renderResults_dataPoints_of_pos (fun _ => 0) sampleSearchData uploadedSession
      (by decide) (by show (0 : ℚ) < 1000; norm_num)
  refine ⟨h1, ?_, ?_, ?_⟩
  · rw [h1, densityPoints_length]
  · exact (renderResults_vizData (fun _ => 0) emptySearchData searchedSession).2.1
  · exact renderResults_dataPoints_of_not (fun _ => 0) emptySearchData searchedSession
      (Or.inl rfl)

theorem mem_burstParticles (rand : ℕ → ℚ) (W H : ℚ) (p : Particle)
    (hp : p ∈ burstParticles rand W H) :
    p.life = some 1 ∧ p.x = W / 2 ∧ p.y = H / 2 := by
  simp only [burstParticles, List.mem_map, List.mem_range] at hp
  obtain ⟨i, -, rfl⟩ := hp
  exact ⟨rfl, rfl, rfl⟩

theorem burstParticles_length (rand : ℕ → ℚ) (W H : ℚ) :
    (burstParticles rand W H).length = 20 := by
  simp [burstParticles]

/-- C12. For every state and every successful search response, whatever the
number of matches, `updateVisualizationWithResults` (also as `renderResults`
calls it) makes `vizData.particles` 20 longer, the particles that were there
staying unchanged and in order at the front, and each added particle having
`life = 1` and the position `(vizWidth/2, vizHeight/2)`. -/
theorem updateVisualization_adds_burst (rand : ℕ → ℚ) (data : SearchData) (s : State) :
    (updateVisualizationWithResults rand s).vizData.particles.length
      = s.vizData.particles.length + 20 ∧
    (updateVisualizationWithResults rand s).vizData.particles.take s.vizData.particles.length
      = s.vizData.particles ∧
    (∀ p ∈ (updateVisualizationWithResults rand s).vizData.particles.drop
        s.vizData.particles.length,
      p.life = some 1 ∧ p.x = s.vizWidth / 2 ∧ p.y = s.vizHeight / 2) ∧
    (renderResults rand data s).vizData.particles.length = s.vizData.particles.length + 20 ∧
    (renderResults rand data s).vizData.particles.take s.vizData.particles.length
      = s.vizData.particles ∧
    (∀ p ∈ (renderResults rand data s).vizData.particles.drop s.vizData.particles.length,
      p.life = some 1 ∧ p.x = s.vizWidth / 2 ∧ p.y = s.vizHeight / 2) := by
  have hu := updateVisualization_particles rand s
  have hr : (renderResults rand data s).vizData.particles
      = s.vizData.particles ++ burstParticles rand s.vizWidth s.vizHeight := by
    unfold renderResults
    exact updateVisualization_particles rand _
  refine ⟨?_, ?_, ?_, ?_, ?_, ?_⟩
  · rw [hu, List.length_append, burstParticles_length]
  · rw [hu, List.take_left']
    rfl
  · intro p hp
    rw [hu, List.drop_left'] at hp
    · exact mem_burstParticles rand _ _ p hp
    · rfl
  · rw [hr, List.length_append, burstParticles_length]
  · rw [hr, List.take_left']
    rfl
  · intro p hp
    rw [hr, List.drop_left'] at hp
    · exact mem_burstParticles rand _ _ p hp
    · rfl

/-! ## Resizing -/

/-- C14. For every state, `resizeCanvas` with a container width below 50 or a
container height below 50 changes nothing: `vizWidth`, `vizHeight`, the
backing dimensions of the canvas and `vizData.particles` are as before. -/
theorem resizeCanvas_ignores_small (newWidth newHeight devicePixelRatio : ℚ)
    (rand : ℕ → ℚ) (s : State) (h : newWidth < 50 ∨ newHeight < 50) :
    resizeCanvas (some (newWidth, newHeight)) devicePixelRatio rand s = s ∧
    (resizeCanvas (some (newWidth, newHeight)) devicePixelRatio rand s).vizWidth = s.vizWidth ∧
    (resizeCanvas (some (newWidth, newHeight)) devicePixelRatio rand s).vizHeight
      = s.vizHeight ∧
    (resizeCanvas (some (newWidth, newHeight)) devicePixelRatio rand s).vizCanvas
      = s.vizCanvas ∧
    (resizeCanvas (some (newWidth, newHeight)) devicePixelRatio rand s).vizData.particles
      = s.vizData.particles := by
  have hs : resizeCanvas (some (newWidth, newHeight)) devicePixelRatio rand s = s := by
    unfold resizeCanvas
    cases s.vizCanvas with
    | none => rfl
    | some c => simp only [if_pos h]
  refine ⟨hs, ?_, ?_, ?_, ?_⟩ <;> rw [hs]

/-- Witness of C14: a container 49 wide against a surface of 400 by 300. -/
theorem resizeCanvas_ignores_small_witness :
    ((49 : ℚ) < 50 ∨ (600 : ℚ) < 50) ∧
    resizeCanvas (some (49, 600)) 2 (fun _ => 0)
        (initVisualizer 2 (fun _ => 0) (State.init .absent))
      = initVisualizer 2 (fun _ => 0) (State.init .absent) :=
  ⟨Or.inl (by norm_num),
   (resizeCanvas_ignores_small 49 600 2 (fun _ => 0)
      (initVisualizer 2 (fun _ => 0) (State.init .absent)) (Or.inl (by norm_num))).1⟩

/-- A container of 800 by 600 is taken over: the surface, the backing store
and the particle field are set anew. -/
theorem resizeCanvas_takes_large :
    (resizeCanvas (some (800, 600)) 2 (fun _ => 0)
        (initVisualizer 2 (fun _ => 0) (State.init .absent))).vizWidth = 800 ∧
    (resizeCanvas (some (800, 600)) 2 (fun _ => 0)
        (initVisualizer 2 (fun _ => 0) (State.init .absent))).vizData.particles.length = 60 := by
  have h1 : ¬ ((800 : ℚ) < 50 ∨ (600 : ℚ) < 50) := by norm_num
  have h2 : ¬ ((800 : ℚ) = 400 ∧ (600 : ℚ) = 300) := by norm_num
  simp [resizeCanvas, initVisualizer, initParticles, h1, h2]

/-! ## The frequency graph without matches -/

/-- C15. When `vizData.matches` is empty, `drawFrequencyGraph` returns at its
first test: it plots no point and leaves the whole state, `vizData.dataPoints`
included, exactly as it was, for every content of `vizData.dataPoints`. -/
theorem drawFrequencyGraph_without_matches (s : State) (h : s.vizData.«matches» = []) :
    drawFrequencyGraph s = (s, []) ∧
    (drawFrequencyGraph s).2 = [] ∧
    (drawFrequencyGraph s).1.vizData.dataPoints = s.vizData.dataPoints := by
  have hs : drawFrequencyGraph s = (s, []) := by
    simp [drawFrequencyGraph, h]
  refine ⟨hs, ?_, ?_⟩ <;> rw [hs]

/-- Witness of C15: data points of an earlier search with the matches now
empty. -/
theorem drawFrequencyGraph_without_matches_witness :
    (renderResults (fun _ => 0) emptySearchData searchedSession).vizData.«matches» = [] ∧
    drawFrequencyGraph (renderResults (fun _ => 0) emptySearchData searchedSession)
      = (renderResults (fun _ => 0) emptySearchData searchedSession, []) :=
  ⟨(renderResults_vizData (fun _ => 0) emptySearchData searchedSession).2.1,
   (drawFrequencyGraph_without_matches _
      (renderResults_vizData (fun _ => 0) emptySearchData searchedSession).2.1).1⟩


/-! ## Relative age labels -/

theorem floor_div_lt_iff (d : ℤ) (k n : ℤ) (hk : 0 < k) :
    ⌊(d : ℚ) / (k : ℚ)⌋ < n ↔ d < n * k := by
  have hk' : (0 : ℚ) < (k : ℚ) := by exact_mod_cast hk
  rw [Int.floor_lt, div_lt_iff₀ hk']
  exact_mod_cast Iff.rfl

theorem le_floor_div_iff (d : ℤ) (k n : ℤ) (hk : 0 < k) :
    n ≤ ⌊(d : ℚ) / (k : ℚ)⌋ ↔ n * k ≤ d := by
  have hk' : (0 : ℚ) < (k : ℚ) := by exact_mod_cast hk
  rw [Int.le_floor, le_div_iff₀ hk']
  exact_mod_cast Iff.rfl

/-- C16. `formatTimeAgo` maps the age `d = now - date` in milliseconds to one
label, for every `d`: `Ahora mismo` if `floor(d/60000) < 1`; else `Hace N min`
with `N = floor(d/60000)` if `N < 60`; else `Hace N hora` with
`N = floor(d/3600000)` if `N < 24`, followed by `s` iff `N > 1`; else
`Hace N dia` with `N = floor(d/86400000)` if `N < 7`, followed by `s` iff
`N > 1`; otherwise the date in the locale.  In each relative label `N ≥ 1`,
and the four tests are `d < 60000`, `d < 3600000`, `d < 86400000` and
`d < 604800000`. -/
theorem formatTimeAgo_labels (now date : ℤ) (localeDate : String) :
    (⌊((now - date : ℤ) : ℚ) / 60000⌋ < 1 →
      formatTimeAgo now date localeDate = "Ahora mismo") ∧
    (¬ ⌊((now - date : ℤ) : ℚ) / 60000⌋ < 1 → ⌊((now - date : ℤ) : ℚ) / 60000⌋ < 60 →
      formatTimeAgo now date localeDate
        = "Hace " ++ toString ⌊((now - date : ℤ) : ℚ) / 60000⌋ ++ " min" ∧
      1 ≤ ⌊((now - date : ℤ) : ℚ) / 60000⌋) ∧
    (¬ ⌊((now - date : ℤ) : ℚ) / 60000⌋ < 60 → ⌊((now - date : ℤ) : ℚ) / 3600000⌋ < 24 →
      formatTimeAgo now date localeDate
        = "Hace " ++ toString ⌊((now - date : ℤ) : ℚ) / 3600000⌋ ++ " hora"
            ++ (if ⌊((now - date : ℤ) : ℚ) / 3600000⌋ > 1 then "s" else "") ∧
      1 ≤ ⌊((now - date : ℤ) : ℚ) / 3600000⌋) ∧
    (¬ ⌊((now - date : ℤ) : ℚ) / 60000⌋ < 60 → ¬ ⌊((now - date : ℤ) : ℚ) / 3600000⌋ < 24 →
      ⌊((now - date : ℤ) : ℚ) / 86400000⌋ < 7 →
      formatTimeAgo now date localeDate
        = "Hace " ++ toString ⌊((now - date : ℤ) : ℚ) / 86400000⌋ ++ " dia"
            ++ (if ⌊((now - date : ℤ) : ℚ) / 86400000⌋ > 1 then "s" else "") ∧
      1 ≤ ⌊((now - date : ℤ) : ℚ) / 86400000⌋) ∧
    (¬ ⌊((now - date : ℤ) : ℚ) / 60000⌋ < 60 → ¬ ⌊((now - date : ℤ) : ℚ) / 3600000⌋ < 24 →
      ¬ ⌊((now - date : ℤ) : ℚ) / 86400000⌋ < 7 →
      formatTimeAgo now date localeDate = localeDate) ∧
    ((⌊((now - date : ℤ) : ℚ) / 60000⌋ < 1 ↔ now - date < 60000) ∧
     (⌊((now - date : ℤ) : ℚ) / 60000⌋ < 60 ↔ now - date < 3600000) ∧
     (⌊((now - date : ℤ) : ℚ) / 3600000⌋ < 24 ↔ now - date < 86400000) ∧
     (⌊((now - date : ℤ) : ℚ) / 86400000⌋ < 7 ↔ now - date < 604800000)) := by
  have e1 : ⌊((now - date : ℤ) : ℚ) / 60000⌋ < 1 ↔ now - date < 60000 := by
    have h := floor_div_lt_iff (now - date) 60000 1 (by norm_num)
    norm_num at h
    exact_mod_cast h
  have e2 : ⌊((now - date : ℤ) : ℚ) / 60000⌋ < 60 ↔ now - date < 3600000 := by
    have h := floor_div_lt_iff (now - date) 60000 60 (by norm_num)
    norm_num at h
    exact_mod_cast h
  have e3 : ⌊((now - date : ℤ) : ℚ) / 3600000⌋ < 24 ↔ now - date < 86400000 := by
    have h := floor_div_lt_iff (now - date) 3600000 24 (by norm_num)
    norm_num at h
    exact_mod_cast h
  have e4 : ⌊((now - date : ℤ) : ℚ) / 86400000⌋ < 7 ↔ now - date < 604800000 := by
    have h := floor_div_lt_iff (now - date) 86400000 7 (by norm_num)
    norm_num at h
    exact_mod_cast h
  have g2 : 1 ≤ ⌊((now - date : ℤ) : ℚ) / 3600000⌋ ↔ 3600000 ≤ now - date := by
    have h := le_floor_div_iff (now - date) 3600000 1 (by norm_num)
    norm_num at h
    exact_mod_cast h
  have g3 : 1 ≤ ⌊((now - date : ℤ) : ℚ) / 86400000⌋ ↔ 86400000 ≤ now - date := by
    have h := le_floor_div_iff (now - date) 86400000 1 (by norm_num)
    norm_num at h
    exact_mod_cast h
  refine ⟨?_, ?_, ?_, ?_, ?_, ⟨e1, e2, e3, e4⟩⟩
  · intro h
    simp only [formatTimeAgo, h, if_true]
  · intro h1 h2
    refine ⟨?_, not_lt.mp h1⟩
    simp only [formatTimeAgo, h1, h2, if_true, if_false]
  · intro h2 h3
    have h1 : ¬ ⌊((now - date : ℤ) : ℚ) / 60000⌋ < 1 := fun h => h2 (lt_trans h (by norm_num))
    refine ⟨?_, ?_⟩
    · simp only [formatTimeAgo, h1, h2, h3, if_true, if_false]
    · rw [g2]
      have := not_lt.mp (mt e2.mpr h2)
      omega
  · intro h2 h3 h4
    have h1 : ¬ ⌊((now - date : ℤ) : ℚ) / 60000⌋ < 1 := fun h => h2 (lt_trans h (by norm_num))
    refine ⟨?_, ?_⟩
    · simp only [formatTimeAgo, h1, h2, h3, h4, if_true, if_false]
    · rw [g3]
      have := not_lt.mp (mt e3.mpr h3)
      omega
  · intro h2 h3 h4
    have h1 : ¬ ⌊((now - date : ℤ) : ℚ) / 60000⌋ < 1 := fun h => h2 (lt_trans h (by norm_num))
    simp only [formatTimeAgo, h1, h2, h3, h4, if_false]

/-- Evaluation of the labels at ages of 59 seconds, 5 minutes, 1 hour,
3 hours, 1 day, 6 days and 7 days. -/
theorem formatTimeAgo_samples :
    formatTimeAgo 59000 0 "1/1/1970" = "Ahora mismo" ∧
    formatTimeAgo 300000 0 "1/1/1970" = "Hace 5 min" ∧
    formatTimeAgo 3600000 0 "1/1/1970" = "Hace 1 hora" ∧
    formatTimeAgo 10800000 0 "1/1/1970" = "Hace 3 horas" ∧
    formatTimeAgo 86400000 0 "1/1/1970" = "Hace 1 dia" ∧
    formatTimeAgo 518400000 0 "1/1/1970" = "Hace 6 dias" ∧
    formatTimeAgo 604800000 0 "1/1/1970" = "1/1/1970" := by
  refine ⟨?_, ?_, ?_, ?_, ?_, ?_, ?_⟩ <;>
    (simp only [formatTimeAgo]; norm_num <;> decide)


/-! ## Reading the store -/

theorem addToHistory_ok_of_list (env : HistEnv) (entry : Obj) (st : Stored) (prior : List Obj)
    (hp : getHistory st = some prior) :
    ∃ st', addToHistory env entry st = .ok st' := by
  unfold addToHistory
  rw [hp]
  exact ⟨_, rfl⟩

theorem addToHistoryRaises_eq (env : HistEnv) (entry : Obj) (st : Stored) :
    addToHistoryRaises env entry st = (addToHistoryCall env entry st).2.isSome := by
  unfold addToHistoryRaises addToHistoryCall
  cases addToHistory env entry st with
  | error msg => rfl
  | ok st' =>
    simp only
    cases renderHistory st' <;> rfl

/-- C17 (amended). `getHistory` never raises: it returns the empty list when
nothing is stored, when the storage read fails, or when the stored text does
not parse, and otherwise returns the parsed value, which is the stored log
whenever the stored text is a JSON array; consequently `addToHistory`, its
final `renderHistory` included, does not raise for any content of the store
that is absent, unreadable, unparsable or a JSON array of history records. -/
theorem getHistory_degrades (env : HistEnv) (entry : Obj) (st : Stored) :
    getHistory .absent = some [] ∧
    getHistory .unreadable = some [] ∧
    getHistory .unparsable = some [] ∧
    (∀ items, getHistory (.log items) = some items) ∧
    (st ≠ .nonArray → ∃ history, getHistory st = some history) ∧
    (st ≠ .nonArray → ∃ st', addToHistory env entry st = .ok st') ∧
    (st ≠ .nonArray → (∀ item ∈ (getHistory st).getD [], HistoryRecord item) →
      HistoryRecord entry → addToHistoryRaises env entry st = false) := by
  have hlist : st ≠ .nonArray → ∃ history, getHistory st = some history := by
    intro h
    cases st with
    | nonArray => exact absurd rfl h
    | absent => exact ⟨_, rfl⟩
    | unreadable => exact ⟨_, rfl⟩
    | unparsable => exact ⟨_, rfl⟩
    | log items => exact ⟨_, rfl⟩
  refine ⟨rfl, rfl, rfl, fun _ => rfl, hlist, ?_, ?_⟩
  · intro h
    obtain ⟨history, hh⟩ := hlist h
    exact addToHistory_ok_of_list env entry st history hh
  · intro h hst hentry
    obtain ⟨history, hh⟩ := hlist h
    rw [hh] at hst
    have hsaved := all_patternRenders_saved env entry history hst hentry
    unfold addToHistoryRaises addToHistory
    rw [hh]
    simp only [saveHistory]
    cases hw : env.writeOk with
    | true =>
      simp only [if_true, renderHistory, getHistory]
      rw [hsaved]
      rfl
    | false =>
      have hold : history.all patternRenders = true := by
        rw [List.all_eq_true]
        exact fun x hx => (hst x hx).2
      simp only [renderHistory, hh, Bool.false_eq_true, if_false]
      rw [hold]
      rfl

/-- Counterexample to C17 as stated (always a list, never a raise, for every
content of the store): a stored text that parses to a value that is not an
array, such as `null` or `{}`, is what `getHistory` returns, and `unshift` on
it raises in `addToHistory`. -/
theorem addToHistory_raises_on_non_array :
    getHistory .nonArray = none ∧
    addToHistory ⟨1000, "t", true⟩ [("type", .str "search")] .nonArray
      = .error "TypeError: history.unshift is not a function" ∧
    addToHistoryRaises ⟨1000, "t", true⟩ [("type", .str "search")] .nonArray = true := by
  exact ⟨rfl, rfl, rfl⟩

/-- The records `runSearch` writes are history records, and an add onto a log
of such records does not raise. -/
theorem addToHistory_renders_search_records :
    HistoryRecord (errorEntry "ACGT" "Failed to fetch" uploadedSession) ∧
    HistoryRecord (successEntry "ACGT" sampleSearchData uploadedSession) ∧
    addToHistoryRaises ⟨1000, "t", true⟩ (errorEntry "ACGT" "Failed to fetch" uploadedSession)
      (.log [successEntry "ACGT" sampleSearchData uploadedSession]) = false := by
  refine ⟨⟨by decide, by decide⟩, ⟨by decide, by decide⟩, by decide⟩

/-! ## Upload: completion -/

/-- C18. When the remote upload fails (the transport fails or the service
answers with a non-success status), `handleUpload` leaves `uploadedSequence`,
`isFileUploaded`, every field of `vizData` and the active view unchanged, and
the store as it was: the request and the error notice are all it adds. -/
theorem handleUpload_failure_keeps_state (fileName : String) (reply : Reply UploadData)
    (s : State) (hfail : ∀ data, reply ≠ .ok data) :
    (handleUpload fileName reply s).uploadedSequence = s.uploadedSequence ∧
    (handleUpload fileName reply s).isFileUploaded = s.isFileUploaded ∧
    (handleUpload fileName reply s).vizData = s.vizData ∧
    (handleUpload fileName reply s).activeView = s.activeView ∧
    (handleUpload fileName reply s).storage = s.storage ∧
    (handleUpload fileName reply s).toasts
      = s.toasts ++ [⟨"Error al cargar: " ++ reply.errorMessage, "error"⟩] := by
  rw [handleUpload_failure fileName reply s hfail]
  exact ⟨rfl, rfl, rfl, rfl, rfl, rfl⟩

/-- Witness of C18: an upload answered with a non-success status and a detail,
in a session that already holds a sequence and search results. -/
theorem handleUpload_failure_keeps_state_witness :
    (∀ data, (Reply.rejected (some "Invalid FASTA") "{}" : Reply UploadData) ≠ .ok data) ∧
    (handleUpload "bad.txt" (.rejected (some "Invalid FASTA") "{}") searchedSession).vizData
      = searchedSession.vizData ∧
    (handleUpload "bad.txt" (.rejected (some "Invalid FASTA") "{}") searchedSession).toasts
      = searchedSession.toasts ++ [⟨"Error al cargar: Invalid FASTA", "error"⟩] :=
  ⟨fun _ h => Reply.noConfusion h,
   (handleUpload_failure_keeps_state "bad.txt" (.rejected (some "Invalid FASTA") "{}")
      searchedSession (fun _ h => Reply.noConfusion h)).2.2.1,
   (handleUpload_failure_keeps_state "bad.txt" (.rejected (some "Invalid FASTA") "{}")
      searchedSession (fun _ h => Reply.noConfusion h)).2.2.2.2.2⟩

/-- C19. When the remote upload succeeds with response `data`, after
`handleUpload` completes `uploadedSequence` is `data`, `isFileUploaded` is
true, `vizData.sequenceLength` is `data.length` (0 if absent),
`vizData.gcContent` is `data.gc_content` when it is a number and 0 otherwise,
`vizData.dataPoints` is empty, `vizData.pulseRings` holds exactly 3 rings,
and the active view is the dashboard. -/
theorem handleUpload_success (fileName : String) (data : UploadData) (s : State) :
    (handleUpload fileName (.ok data) s).uploadedSequence = some data ∧
    (handleUpload fileName (.ok data) s).isFileUploaded = true ∧
    (handleUpload fileName (.ok data) s).vizData.sequenceLength = data.length.getD 0 ∧
    (∀ n, data.length = some n → (handleUpload fileName (.ok data) s).vizData.sequenceLength = n) ∧
    (data.length = none → (handleUpload fileName (.ok data) s).vizData.sequenceLength = 0) ∧
    (∀ g, data.gc_content = some g → (handleUpload fileName (.ok data) s).vizData.gcContent = g) ∧
    (data.gc_content = none → (handleUpload fileName (.ok data) s).vizData.gcContent = 0) ∧
    (handleUpload fileName (.ok data) s).vizData.dataPoints = [] ∧
    (handleUpload fileName (.ok data) s).vizData.pulseRings.length = 3 ∧
    (handleUpload fileName (.ok data) s).activeView = .dashboard := by
  have hv : (handleUpload fileName (.ok data) s).vizData
      = { s.vizData with
          sequenceLength := data.length.getD 0, gcContent := data.gc_content.getD 0,
          dataPoints := [],
          pulseRings := (List.range 3).map fun (i : ℕ) =>
            { radius := 50 + (i : ℚ) * 40, maxRadius := 150, opacity := 0.5,
              speed := 0.5 + (i : ℚ) * 0.2 } } := by
    simp [handleUpload, switchView, originalSwitchView, showToast, initSequenceVisualization]
  obtain ⟨h1, h2, h3⟩ := handleUpload_ok_fields fileName data s
  refine ⟨h2, h1, ?_, ?_, ?_, ?_, ?_, ?_, ?_, h3⟩
  · rw [hv]
  · intro n hn; rw [hv, hn]; rfl
  · intro hn; rw [hv, hn]; rfl
  · intro g hg; rw [hv, hg]; rfl
  · intro hg; rw [hv, hg]; rfl
  · rw [hv]
  · rw [hv]; simp


/-! ## Particle frames -/

theorem moveParticle_life (W H : ℚ) (p : Particle) : (moveParticle W H p).life = p.life := rfl

theorem stepParticle_eq_none (W H : ℚ) (p : Particle) (h : stepParticle W H p = none) :
    ∃ life, p.life = some life ∧ life - 0.015 ≤ 0 := by
  unfold stepParticle at h
  simp only [moveParticle_life] at h
  cases hl : p.life with
  | none => simp [hl] at h
  | some life =>
    simp only [hl] at h
    by_cases hc : life - 0.015 ≤ 0
    · exact ⟨life, rfl, hc⟩
    · simp [hc] at h

theorem stepParticle_eq_some (W H : ℚ) (p p' : Particle) (h : stepParticle W H p = some p') :
    (p.life = none ∧ p'.life = none) ∨
    (∃ life, p.life = some life ∧ ¬ life - 0.015 ≤ 0 ∧ p'.life = some (life - 0.015)) := by
  unfold stepParticle at h
  simp only [moveParticle_life] at h
  cases hl : p.life with
  | none =>
    simp only [hl, Option.some.injEq] at h
    exact Or.inl ⟨rfl, by rw [← h, moveParticle_life, hl]⟩
  | some life =>
    simp only [hl] at h
    by_cases hc : life - 0.015 ≤ 0
    · simp [hc] at h
    · simp only [hc, if_false, Option.some.injEq] at h
      exact Or.inr ⟨life, rfl, hc, by rw [← h]⟩

theorem countP_set_of_eq {α : Type} (q : α → Bool) (l : List α) (i : ℕ) (a b : α)
    (h : l[i]? = some a) (hq : q b = q a) : (l.set i b).countP q = l.countP q := by
  induction l generalizing i with
  | nil => simp at h
  | cons x xs ih =>
    cases i with
    | zero =>
      simp only [List.getElem?_cons_zero, Option.some.injEq] at h
      subst h
      simp [List.countP_cons, hq]
    | succ j =>
      simp only [List.getElem?_cons_succ] at h
      simp [List.countP_cons, ih j h]

theorem countP_eraseIdx_of_false {α : Type} (q : α → Bool) (l : List α) (i : ℕ) (a : α)
    (h : l[i]? = some a) (hq : q a = false) : (l.eraseIdx i).countP q = l.countP q := by
  induction l generalizing i with
  | nil => simp at h
  | cons x xs ih =>
    cases i with
    | zero =>
      simp only [List.getElem?_cons_zero, Option.some.injEq] at h
      subst h
      simp [List.countP_cons, hq]
    | succ j =>
      simp only [List.getElem?_cons_succ] at h
      simp [List.countP_cons, ih j h]

theorem LifeInRange_drawParticlesFrom (W H : ℚ) (n i : ℕ) (ps : List Particle)
    (h : LifeInRange ps) : LifeInRange (drawParticlesFrom W H n i ps) := by
  induction n generalizing i ps with
  | zero => exact h
  | succ n ih =>
    unfold drawParticlesFrom
    cases hp : ps[i]? with
    | none => exact ih (i + 1) ps h
    | some p =>
      simp only
      cases hs : stepParticle W H p with
      | none =>
        exact ih (i + 1) _ fun q hq => h q (List.mem_of_mem_eraseIdx hq)
      | some p' =>
        refine ih (i + 1) _ fun q hq life hlife => ?_
        rcases List.mem_or_eq_of_mem_set hq with hq | hq
        · exact h q hq life hlife
        · subst hq
          have hpmem : p ∈ ps := List.getElem?_mem hp
          rcases stepParticle_eq_some W H p q hs with ⟨-, h2⟩ | ⟨l, h1, h2, h3⟩
          · rw [h2] at hlife; cases hlife
          · rw [h3] at hlife
            cases hlife
            have := h p hpmem l h1
            constructor
            · linarith [not_le.mp h2]
            · norm_num
              linarith [this.2]

theorem ambientCount_drawParticlesFrom (W H : ℚ) (n i : ℕ) (ps : List Particle) :
    ambientCount (drawParticlesFrom W H n i ps) = ambientCount ps := by
  induction n generalizing i ps with
  | zero => rfl
  | succ n ih =>
    unfold drawParticlesFrom
    cases hp : ps[i]? with
    | none => exact ih (i + 1) ps
    | some p =>
      simp only
      cases hs : stepParticle W H p with
      | none =>
        obtain ⟨l, hl, -⟩ := stepParticle_eq_none W H p hs
        rw [ih (i + 1) _]
        exact countP_eraseIdx_of_false _ ps i p hp (by simp [hl])
      | some p' =>
        rw [ih (i + 1) _]
        apply countP_set_of_eq _ ps i p p' hp
        rcases stepParticle_eq_some W H p p' hs with ⟨h1, h2⟩ | ⟨l, h1, -, h3⟩
        · simp [h1, h2]
        · simp [h1, h3]

theorem LifeInRange_append (ps qs : List Particle) (h1 : LifeInRange ps) (h2 : LifeInRange qs) :
    LifeInRange (ps ++ qs) := by
  intro p hp
  rcases List.mem_append.mp hp with hp | hp
  · exact h1 p hp
  · exact h2 p hp

theorem LifeInRange_initParticles (rand : ℕ → ℚ) (s : State) :
    LifeInRange (initParticles rand s).vizData.particles := by
  intro p hp life hlife
  simp only [initParticles, List.mem_map, List.mem_range] at hp
  obtain ⟨i, -, rfl⟩ := hp
  simp [ambientParticle] at hlife

theorem LifeInRange_vizStep (s : State) (e : VizEvent) (h : LifeInRange s.vizData.particles) :
    LifeInRange (vizStep s e).vizData.particles := by
  cases e with
  | initVisualizer dpr rand => exact LifeInRange_initParticles rand _
  | resizeCanvas wrapper dpr rand =>
    simp only [vizStep, resizeCanvas]
    split
    · exact h
    · split
      · exact h
      · split
        · exact h
        · split
          · exact h
          · exact LifeInRange_initParticles rand _
  | initParticles rand => exact LifeInRange_initParticles rand s
  | updateVisualizationWithResults rand =>
    simp only [vizStep]
    rw [updateVisualization_particles]
    refine LifeInRange_append _ _ h fun p hp life hlife => ?_
    rw [(mem_burstParticles rand _ _ p hp).1] at hlife
    cases hlife
    norm_num
  | drawParticles => exact LifeInRange_drawParticlesFrom _ _ _ _ _ h

theorem LifeInRange_vizRun (events : List VizEvent) (s : State)
    (h : LifeInRange s.vizData.particles) :
    LifeInRange (vizRun s events).vizData.particles := by
  induction events generalizing s with
  | nil => exact h
  | cons e rest ih => exact ih (vizStep s e) (LifeInRange_vizStep s e h)

/-- C20. In every state reached from the start of the script by
`initVisualizer`, `resizeCanvas`, `initParticles`,
`updateVisualizationWithResults` and `drawParticles` frames, every particle of
`vizData.particles` that carries `life` has `0 < life ≤ 1`, in particular once
a further `drawParticles` frame has completed; and a frame leaves the number
of particles without `life` unchanged, in every state. -/
theorem drawParticles_life_in_range (storage : Stored) (events : List VizEvent) :
    LifeInRange (vizRun (State.init storage) events).vizData.particles ∧
    (∀ p ∈ (drawParticles (vizRun (State.init storage) events)).vizData.particles,
      ∀ life, p.life = some life → 0 < life ∧ life ≤ 1) ∧
    (∀ s : State, ambientCount (drawParticles s).vizData.particles
      = ambientCount s.vizData.particles) := by
  have h0 : LifeInRange (State.init storage).vizData.particles := by
    intro p hp
    simp [State.init] at hp
  have h := LifeInRange_vizRun events _ h0
  exact ⟨h, LifeInRange_drawParticlesFrom _ _ _ _ _ h,
    fun s => ambientCount_drawParticlesFrom _ _ _ _ _⟩


/-! ## The life of a burst -/

theorem map_eraseIdx_eq {α β : Type} (f : α → β) (l : List α) (i : ℕ) :
    (l.eraseIdx i).map f = (l.map f).eraseIdx i := by
  induction l generalizing i with
  | nil => rfl
  | cons x xs ih =>
    cases i with
    | zero => rfl
    | succ j => simp [ih j]

theorem stepParticle_ticks (W H : ℚ) (p : Particle) (t : Option ℤ)
    (h : p.life = lifeOfTicks t) :
    (stepParticle W H p).map (fun q => q.life) = (tickStep t).map lifeOfTicks := by
  unfold stepParticle
  simp only [moveParticle_life]
  cases t with
  | none =>
    have h' : p.life = none := h
    simp only [h', tickStep, Option.map_some', moveParticle_life]
    rfl
  | some k =>
    have h' : p.life = some ((k : ℚ) / 200) := h
    simp only [h', tickStep]
    have hiff : ((k : ℚ) / 200 - 0.015 ≤ 0) ↔ (k - 3 ≤ 0) := by
      constructor
      · intro hc
        have h3 : (k : ℚ) ≤ 3 := by
          norm_num at hc
          linarith
        have : k ≤ 3 := by exact_mod_cast h3
        omega
      · intro hc
        have : (k : ℚ) ≤ 3 := by exact_mod_cast (by omega : k ≤ 3)
        norm_num
        linarith
    by_cases hc : k - 3 ≤ 0
    · rw [if_pos hc, if_pos (hiff.mpr hc)]
      rfl
    · have hc' : ¬ ((k : ℚ) / 200 - 0.015 ≤ 0) := fun h' => hc (hiff.mp h')
      rw [if_neg hc, if_neg hc']
      simp only [Option.map_some', lifeOfTicks, Option.some.injEq]
      push_cast
      norm_num
      ring

theorem drawParticlesFrom_ticks (W H : ℚ) (n i : ℕ) (ps : List Particle)
    (ts : List (Option ℤ)) (h : ps.map (fun q => q.life) = ts.map lifeOfTicks) :
    (drawParticlesFrom W H n i ps).map (fun q => q.life)
      = (tickLoop n i ts).map lifeOfTicks := by
  induction n generalizing i ps ts with
  | zero => exact h
  | succ n ih =>
    unfold drawParticlesFrom tickLoop
    have hi : (ps[i]?).map (fun q => q.life) = (ts[i]?).map lifeOfTicks := by
      rw [← List.getElem?_map, ← List.getElem?_map, h]
    cases hp : ps[i]? with
    | none =>
      rw [hp] at hi
      cases ht : ts[i]? with
      | some t => rw [ht] at hi; cases hi
      | none => exact ih (i + 1) ps ts h
    | some p =>
      rw [hp] at hi
      cases ht : ts[i]? with
      | none => rw [ht] at hi; cases hi
      | some t =>
        rw [ht] at hi
        simp only [Option.map_some', Option.some.injEq] at hi
        have hstep := stepParticle_ticks W H p t hi
        simp only
        cases hs : stepParticle W H p with
        | none =>
          rw [hs] at hstep
          cases hk : tickStep t with
          | some t' => rw [hk] at hstep; cases hstep
          | none =>
            apply ih
            rw [map_eraseIdx_eq, map_eraseIdx_eq, h]
        | some p' =>
          rw [hs] at hstep
          cases hk : tickStep t with
          | none => rw [hk] at hstep; cases hstep
          | some t' =>
            rw [hk] at hstep
            simp only [Option.map_some', Option.some.injEq] at hstep
            apply ih
            rw [List.map_set, List.map_set, h, hstep]

theorem drawParticles_iterate_ticks (n : ℕ) (s : State) (ts : List (Option ℤ))
    (h : s.vizData.particles.map (fun q => q.life) = ts.map lifeOfTicks) :
    (drawParticles^[n] s).vizData.particles.map (fun q => q.life)
      = (tickFrame^[n] ts).map lifeOfTicks := by
  induction n generalizing s ts with
  | zero => exact h
  | succ n ih =>
    rw [Function.iterate_succ_apply, Function.iterate_succ_apply]
    apply ih
    have hlen : s.vizData.particles.length = ts.length := by
      have := congrArg List.length h
      simpa using this
    simp only [drawParticles, tickFrame, hlen]
    exact drawParticlesFrom_ticks _ _ _ _ _ _ h

theorem burstCount_eq (ps : List Particle) (ts : List (Option ℤ))
    (h : ps.map (fun q => q.life) = ts.map lifeOfTicks) :
    burstCount ps = ts.countP fun t => t.isSome := by
  have h1 : burstCount ps = (ps.map fun q => q.life).countP fun l => l.isSome := by
    rw [List.countP_map]
    rfl
  rw [h1, h, List.countP_map]
  congr 1
  funext t
  cases t <;> rfl

theorem ambientCount_eq (ps : List Particle) (ts : List (Option ℤ))
    (h : ps.map (fun q => q.life) = ts.map lifeOfTicks) :
    ambientCount ps = ts.countP fun t => t.isNone := by
  have h1 : ambientCount ps = (ps.map fun q => q.life).countP fun l => l.isNone := by
    rw [List.countP_map]
    rfl
  rw [h1, h, List.countP_map]
  congr 1
  funext t
  cases t <;> rfl

theorem burstSession_ticks :
    burstSession.vizData.particles.map (fun q => q.life) = burstTicks.map lifeOfTicks := by
  have hp : burstSession.vizData.particles
      = (List.range 60).map (ambientParticle (fun _ => 1 / 2) 400 300)
        ++ burstParticles (fun _ => 1 / 2) 400 300 :=
    updateVisualization_particles _ _
  have h1 : ((List.range 60).map (ambientParticle (fun _ => 1 / 2) 400 300)).map
      (fun q => q.life) = List.replicate 60 none := by
    rw [List.map_map]
    exact (List.map_const' (List.range 60) (none : Option ℚ)).trans (by rw [List.length_range])
  have h2 : (burstParticles (fun _ => 1 / 2) 400 300).map (fun q => q.life)
      = List.replicate 20 (some 1) := by
    rw [burstParticles, List.map_map]
    exact (List.map_const' (List.range 20) (some (1 : ℚ))).trans (by rw [List.length_range])
  have h3 : lifeOfTicks (some 200) = some 1 := by
    simp only [lifeOfTicks, Option.some.injEq]
    norm_num
  rw [hp, List.map_append, h1, h2, burstTicks, List.map_append, List.map_replicate,
    List.map_replicate, h3]
  rfl

theorem tickLoop_succ (n i : ℕ) (ts : List (Option ℤ)) :
    tickLoop (n + 1) i ts
      = match ts[i]? with
        | none => tickLoop n (i + 1) ts
        | some t =>
          match tickStep t with
          | none => tickLoop n (i + 1) (ts.eraseIdx i)
          | some t' => tickLoop n (i + 1) (ts.set i t') := rfl

theorem tickLoop_of_length_le (n i : ℕ) (ts : List (Option ℤ)) (h : ts.length ≤ i) :
    tickLoop n i ts = ts := by
  induction n generalizing i with
  | zero => rfl
  | succ n ih =>
    rw [tickLoop_succ]
    rw [List.getElem?_eq_none h]
    exact ih (i + 1) (by omega)

theorem getElem?_append_cons_length {α : Type} (pre : List α) (x : α) (rest : List α) :
    (pre ++ x :: rest)[pre.length]? = some x := by
  induction pre with
  | nil => simp
  | cons a as ih => simpa using ih

theorem set_append_cons_length {α : Type} (pre : List α) (x y : α) (rest : List α) :
    (pre ++ x :: rest).set pre.length y = pre ++ y :: rest := by
  induction pre with
  | nil => rfl
  | cons a as ih => simp [ih]

theorem eraseIdx_append_cons_length {α : Type} (pre : List α) (x : α) (rest : List α) :
    (pre ++ x :: rest).eraseIdx pre.length = pre ++ rest := by
  induction pre with
  | nil => rfl
  | cons a as ih => simp [ih]

theorem tickLoop_alive (live : List (Option ℤ)) (n : ℕ) (pre rest : List (Option ℤ))
    (h : ∀ t ∈ live, ∀ k, t = some k → 3 < k) :
    tickLoop (live.length + n) pre.length (pre ++ live ++ rest)
      = tickLoop n (pre.length + live.length)
          (pre ++ live.map (fun t => t.map fun k => k - 3) ++ rest) := by
  induction live generalizing pre with
  | nil => simp
  | cons t live ih =>
    have hstep : tickStep t = some (t.map fun k => k - 3) := by
      cases t with
      | none => rfl
      | some k =>
        have := h (some k) (List.mem_cons_self _ _) k rfl
        have hk : ¬ k - 3 ≤ 0 := by omega
        simp [tickStep, hk]
    have hlen : (t :: live).length + n = (live.length + n) + 1 := by
      simp only [List.length_cons]; omega
    rw [hlen]
    rw [tickLoop_succ]
    have hget : (pre ++ t :: live ++ rest)[pre.length]? = some t := by
      rw [List.append_assoc]
      exact getElem?_append_cons_length pre t (live ++ rest)
    rw [hget]
    simp only [hstep]
    have hset : (pre ++ t :: live ++ rest).set pre.length (t.map fun k => k - 3)
        = (pre ++ [t.map fun k => k - 3]) ++ live ++ rest := by
      rw [List.append_assoc, List.cons_append, set_append_cons_length]
      simp
    rw [hset]
    have := ih (pre ++ [t.map fun k => k - 3]) (fun t' ht' => h t' (List.mem_cons_of_mem _ ht'))
    simp only [List.length_append, List.length_singleton] at this
    rw [this]
    have e1 : pre.length + 1 + live.length = pre.length + (t :: live).length := by
      simp only [List.length_cons]; omega
    have e2 : pre ++ [t.map fun k => k - 3] ++ live.map (fun t => t.map fun k => k - 3) ++ rest
        = pre ++ (t :: live).map (fun t => t.map fun k => k - 3) ++ rest := by
      simp
    rw [e1, e2]

theorem tickLoop_dying (m : ℕ) :
    ∀ (dying pre : List (Option ℤ)) (n : ℕ), dying.length ≤ m →
      (∀ t ∈ dying, ∃ k, t = some k ∧ k ≤ 3) → dying.length ≤ n →
      tickLoop n pre.length (pre ++ dying) = pre ++ oddPositions dying := by
  induction m with
  | zero =>
    intro dying pre n hm _ _
    have : dying = [] := List.length_eq_zero.mp (by omega)
    subst this
    simp only [List.append_nil, oddPositions]
    exact tickLoop_of_length_le n _ _ (le_refl _)
  | succ m ih =>
    intro dying pre n hm hd hn
    match dying, hm, hd, hn with
    | [], _, _, _ =>
      simp only [List.append_nil, oddPositions]
      exact tickLoop_of_length_le n _ _ (le_refl _)
    | [a], _, hd, hn =>
      obtain ⟨k, rfl, hk⟩ := hd a (List.mem_cons_self _ _)
      obtain ⟨n', rfl⟩ : ∃ n', n = n' + 1 := ⟨n - 1, by simp at hn; omega⟩
      rw [tickLoop_succ]
      rw [getElem?_append_cons_length]
      have hstep : tickStep (some k) = none := by
        have : k - 3 ≤ 0 := by omega
        simp [tickStep, this]
      simp only [hstep]
      rw [eraseIdx_append_cons_length]
      simp only [List.append_nil, oddPositions]
      exact tickLoop_of_length_le n' _ _ (by omega)
    | a :: b :: rest, hm, hd, hn =>
      obtain ⟨k, rfl, hk⟩ := hd a (List.mem_cons_self _ _)
      obtain ⟨n', rfl⟩ : ∃ n', n = n' + 1 := ⟨n - 1, by simp at hn; omega⟩
      rw [tickLoop_succ]
      rw [getElem?_append_cons_length]
      have hstep : tickStep (some k) = none := by
        have : k - 3 ≤ 0 := by omega
        simp [tickStep, this]
      simp only [hstep]
      rw [eraseIdx_append_cons_length]
      have := ih rest (pre ++ [b]) n' (by simp at hm; omega)
        (fun t ht => hd t (List.mem_cons_of_mem _ (List.mem_cons_of_mem _ ht)))
        (by simp at hn; omega)
      simp only [List.length_append, List.length_singleton, List.append_assoc,
        List.singleton_append] at this
      rw [this]
      rfl

theorem oddPositions_replicate (m : ℕ) (x : Option ℤ) :
    oddPositions (List.replicate (2 * m) x) = List.replicate m x ∧
    oddPositions (List.replicate (2 * m + 1) x) = List.replicate m x := by
  induction m with
  | zero => exact ⟨rfl, rfl⟩
  | succ m ih =>
    constructor
    · have : 2 * (m + 1) = (2 * m) + 1 + 1 := by ring
      rw [this, List.replicate_succ, List.replicate_succ, oddPositions, ih.1, List.replicate_succ]
    · have : 2 * (m + 1) + 1 = (2 * m + 1) + 1 + 1 := by ring
      rw [this, List.replicate_succ, List.replicate_succ, oddPositions, ih.2, List.replicate_succ]

theorem tickFrame_alive (a b : ℕ) (k : ℤ) (hk : 3 < k) :
    tickFrame (List.replicate a none ++ List.replicate b (some k))
      = List.replicate a none ++ List.replicate b (some (k - 3)) := by
  have h := tickLoop_alive (List.replicate a none ++ List.replicate b (some k)) 0 [] []
    (by
      intro t ht k' hk'
      rcases List.mem_append.mp ht with ht | ht
      · rw [(List.mem_replicate.mp ht).2] at hk'; cases hk'
      · rw [(List.mem_replicate.mp ht).2] at hk'; cases hk'; exact hk)
  simp only [List.nil_append, List.append_nil, List.length_nil, Nat.add_zero, Nat.zero_add,
    List.map_append, List.map_replicate, Option.map_none', Option.map_some'] at h
  unfold tickFrame
  rw [h]
  rfl

theorem tickFrame_dying (a b : ℕ) (k : ℤ) (hk : k ≤ 3) :
    tickFrame (List.replicate a none ++ List.replicate b (some k))
      = List.replicate a none ++ oddPositions (List.replicate b (some k)) := by
  have h := tickLoop_alive (List.replicate a none) b [] (List.replicate b (some k))
    (by
      intro t ht k' hk'
      rw [(List.mem_replicate.mp ht).2] at hk'; cases hk')
  simp only [List.nil_append, List.length_nil, Nat.zero_add, List.map_replicate,
    Option.map_none', List.length_replicate] at h
  unfold tickFrame
  rw [List.length_append, List.length_replicate, List.length_replicate, h]
  have h2 := tickLoop_dying b (List.replicate b (some k)) (List.replicate a none) b
    (by simp) (fun t ht => ⟨k, (List.mem_replicate.mp ht).2, hk⟩) (by simp)
  rw [List.length_replicate] at h2
  exact h2

theorem tickFrame_iterate_alive (j : ℕ) (hj : j ≤ 66) :
    tickFrame^[j] burstTicks
      = List.replicate 60 none ++ List.replicate 20 (some (200 - 3 * (j : ℤ))) := by
  induction j with
  | zero => rfl
  | succ j ih =>
    have e : (200 - 3 * (j : ℤ) - 3) = 200 - 3 * ((j + 1 : ℕ) : ℤ) := by
      push_cast
      ring
    rw [Function.iterate_succ_apply', ih (by omega), tickFrame_alive 60 20 _ (by omega), e]

theorem burstTicks_frames :
    tickFrame^[66] burstTicks = List.replicate 60 none ++ List.replicate 20 (some 2) ∧
    tickFrame^[67] burstTicks = List.replicate 60 none ++ List.replicate 10 (some 2) ∧
    tickFrame^[68] burstTicks = List.replicate 60 none ++ List.replicate 5 (some 2) ∧
    tickFrame^[69] burstTicks = List.replicate 60 none ++ List.replicate 2 (some 2) ∧
    tickFrame^[70] burstTicks = List.replicate 60 none ++ List.replicate 1 (some 2) ∧
    tickFrame^[71] burstTicks = List.replicate 60 none := by
  have h66 : tickFrame^[66] burstTicks
      = List.replicate 60 none ++ List.replicate 20 (some 2) := by
    have h := tickFrame_iterate_alive 66 (le_refl _)
    have e : (200 - 3 * ((66 : ℕ) : ℤ)) = 2 := by norm_num
    rw [e] at h
    exact h
  have h67 : tickFrame^[67] burstTicks
      = List.replicate 60 none ++ List.replicate 10 (some 2) := by
    rw [Function.iterate_succ_apply', h66, tickFrame_dying 60 20 2 (by norm_num)]
    exact congrArg _ (oddPositions_replicate 10 (some 2)).1
  have h68 : tickFrame^[68] burstTicks
      = List.replicate 60 none ++ List.replicate 5 (some 2) := by
    rw [Function.iterate_succ_apply', h67, tickFrame_dying 60 10 2 (by norm_num)]
    exact congrArg _ (oddPositions_replicate 5 (some 2)).1
  have h69 : tickFrame^[69] burstTicks
      = List.replicate 60 none ++ List.replicate 2 (some 2) := by
    rw [Function.iterate_succ_apply', h68, tickFrame_dying 60 5 2 (by norm_num)]
    exact congrArg _ (oddPositions_replicate 2 (some 2)).2
  have h70 : tickFrame^[70] burstTicks
      = List.replicate 60 none ++ List.replicate 1 (some 2) := by
    rw [Function.iterate_succ_apply', h69, tickFrame_dying 60 2 2 (by norm_num)]
    exact congrArg _ (oddPositions_replicate 1 (some 2)).1
  have h71 : tickFrame^[71] burstTicks = List.replicate 60 none := by
    rw [Function.iterate_succ_apply', h70, tickFrame_dying 60 1 2 (by norm_num),
      (oddPositions_replicate 0 (some 2)).2, List.replicate_zero, List.append_nil]
  exact ⟨h66, h67, h68, h69, h70, h71⟩

/-- C13, evaluated on the code.  With 60 ambient particles followed by the 20
particles of one burst, all 20 are present after 66 frames; on frame 67 each
particle spliced out makes `forEach` pass over the next one, so 10 of the 20
are still present after the 67th frame, with `life` 1/100; 5, 2 and 1 are left
after frames 68, 69 and 70, and the burst is gone only after frame 71.  The
60 ambient particles stay throughout. -/
theorem burst_outlives_frame_sixty_seven :
    burstCount burstSession.vizData.particles = 20 ∧
    burstCount (drawParticles^[66] burstSession).vizData.particles = 20 ∧
    burstCount (drawParticles^[67] burstSession).vizData.particles = 10 ∧
    (drawParticles^[67] burstSession).vizData.particles.map (fun q => q.life)
      = List.replicate 60 none ++ List.replicate 10 (some (1 / 100)) ∧
    ambientCount (drawParticles^[67] burstSession).vizData.particles = 60 ∧
    burstCount (drawParticles^[68] burstSession).vizData.particles = 5 ∧
    burstCount (drawParticles^[69] burstSession).vizData.particles = 2 ∧
    burstCount (drawParticles^[70] burstSession).vizData.particles = 1 ∧
    burstCount (drawParticles^[71] burstSession).vizData.particles = 0 := by
  obtain ⟨h66, h67, h68, h69, h70, h71⟩ := burstTicks_frames
  have key := fun n => drawParticles_iterate_ticks n burstSession burstTicks burstSession_ticks
  have c := fun n => burstCount_eq _ _ (key n)
  have e : lifeOfTicks (some 2) = some (1 / 100) := by
    simp only [lifeOfTicks, Option.some.injEq]
    norm_num
  refine ⟨?_, ?_, ?_, ?_, ?_, ?_, ?_, ?_, ?_⟩
  · rw [burstCount_eq _ _ burstSession_ticks]; decide
  · rw [c 66, h66]; decide
  · rw [c 67, h67]; decide
  · rw [key 67, h67, List.map_append, List.map_replicate, List.map_replicate, e]
    rfl
  · rw [ambientCount_eq _ _ (key 67), h67]; decide
  · rw [c 68, h68]; decide
  · rw [c 69, h69]; decide
  · rw [c 70, h70]; decide
  · rw [c 71, h71]; decide

/-! ## Easing of the frequency graph -/

theorem drawFrequencyGraph_dataPoints (s : State) (hm : s.vizData.«matches» ≠ [])
    (hd : s.vizData.dataPoints ≠ []) :
    (drawFrequencyGraph s).1.vizData.dataPoints
      = s.vizData.dataPoints.map fun p => { p with y := p.y + (p.targetY - p.y) * 0.08 } := by
  have h1 : ¬ s.vizData.«matches».length = 0 := fun h => hm (List.length_eq_zero.mp h)
  have h2 : ¬ s.vizData.dataPoints.length = 0 := fun h => hd (List.length_eq_zero.mp h)
  simp only [drawFrequencyGraph, h1, h2, if_false]

theorem drawFrequencyGraph_matches (s : State) :
    (drawFrequencyGraph s).1.vizData.«matches» = s.vizData.«matches» := by
  unfold drawFrequencyGraph
  split
  · rfl
  · split <;> rfl

theorem drawFrequencyGraph_iterate (n : ℕ) (s : State) (hm : s.vizData.«matches» ≠ [])
    (hd : s.vizData.dataPoints ≠ []) :
    ((fun t => (drawFrequencyGraph t).1)^[n] s).vizData.dataPoints
      = s.vizData.dataPoints.map fun p =>
          { p with y := p.targetY - (p.targetY - p.y) * (0.92 : ℚ) ^ n } := by
  induction n generalizing s with
  | zero =>
    simp only [Function.iterate_zero, id_eq, pow_zero, mul_one, sub_sub_cancel]
    exact (List.map_id' _).symm
  | succ n ih =>
    rw [Function.iterate_succ_apply]
    have hm' : (drawFrequencyGraph s).1.vizData.«matches» ≠ [] := by
      rw [drawFrequencyGraph_matches]; exact hm
    have hd' : (drawFrequencyGraph s).1.vizData.dataPoints ≠ [] := by
      rw [drawFrequencyGraph_dataPoints s hm hd]
      simpa using hd
    rw [ih _ hm' hd', drawFrequencyGraph_dataPoints s hm hd, List.map_map]
    apply List.map_congr_left
    intro p _
    simp only [Function.comp]
    congr 1
    rw [pow_succ]
    norm_num
    ring

/-- C21. With `matches` and `dataPoints` non-empty, one `drawFrequencyGraph`
frame replaces the `y` of each data point by `y + (targetY - y) * 0.08` and
leaves `x` and `targetY` unchanged; so the gap `targetY - y` is multiplied by
0.92 in each frame, `y` moves towards `targetY` and never past it, and after
`n` frames `y = targetY - (targetY - y0) * 0.92 ^ n`. -/
theorem drawFrequencyGraph_eases (s : State) (n : ℕ) (hm : s.vizData.«matches» ≠ [])
    (hd : s.vizData.dataPoints ≠ []) :
    (drawFrequencyGraph s).1.vizData.dataPoints
      = s.vizData.dataPoints.map (fun p =>
          ({ x := p.x, y := p.y + (p.targetY - p.y) * 0.08, targetY := p.targetY } : DataPoint)) ∧
    (∀ p : DataPoint,
      p.targetY - (p.y + (p.targetY - p.y) * 0.08) = (p.targetY - p.y) * 0.92 ∧
      (p.y ≤ p.targetY →
        p.y ≤ p.y + (p.targetY - p.y) * 0.08 ∧ p.y + (p.targetY - p.y) * 0.08 ≤ p.targetY) ∧
      (p.targetY ≤ p.y →
        p.targetY ≤ p.y + (p.targetY - p.y) * 0.08 ∧ p.y + (p.targetY - p.y) * 0.08 ≤ p.y)) ∧
    ((fun t => (drawFrequencyGraph t).1)^[n] s).vizData.dataPoints
      = s.vizData.dataPoints.map (fun p =>
          ({ x := p.x, y := p.targetY - (p.targetY - p.y) * (0.92 : ℚ) ^ n,
             targetY := p.targetY } : DataPoint)) ∧
    ((fun t => (drawFrequencyGraph t).1)^[n] s).vizData.dataPoints.length
      = s.vizData.dataPoints.length := by
  have hn := drawFrequencyGraph_iterate n s hm hd
  refine ⟨drawFrequencyGraph_dataPoints s hm hd, ?_, hn, ?_⟩
  · intro p
    refine ⟨by norm_num; ring, fun h => ⟨?_, ?_⟩, fun h => ⟨?_, ?_⟩⟩
    · have : 0 ≤ (p.targetY - p.y) * 0.08 := mul_nonneg (by linarith) (by norm_num)
      linarith
    · have : (p.targetY - p.y) * 0.08 ≤ (p.targetY - p.y) * 1 :=
        mul_le_mul_of_nonneg_left (by norm_num) (by linarith)
      linarith
    · have : (p.y - p.targetY) * 0.08 ≤ (p.y - p.targetY) * 1 :=
        mul_le_mul_of_nonneg_left (by norm_num) (by linarith)
      linarith
    · have : 0 ≤ (p.y - p.targetY) * 0.08 := mul_nonneg (by linarith) (by norm_num)
      linarith
  · rw [hn, List.length_map]

/-- Witness of C21: the session after the sample search, whose 100 data
points start at `y = 0.2`. -/
theorem drawFrequencyGraph_eases_witness :
    searchedSession.vizData.«matches» ≠ [] ∧ searchedSession.vizData.dataPoints ≠ [] ∧
    ((fun t => (drawFrequencyGraph t).1)^[10] searchedSession).vizData.dataPoints.length
      = searchedSession.vizData.dataPoints.length := by
  have hm : searchedSession.vizData.«matches» ≠ [] := by
    have e : searchedSession.vizData.«matches» = sampleSearchData.results.getD [] :=
      (renderResults_vizData (fun _ => 0) sampleSearchData uploadedSession).2.1
    rw [e]
    decide
  have hd : searchedSession.vizData.dataPoints ≠ [] := by
    intro h
    have e : searchedSession.vizData.dataPoints
        = densityPoints uploadedSession.vizData.sequenceLength
            (sampleSearchData.results.getD []) :=
      renderResults_dataPoints_of_pos (fun _ => 0) sampleSearchData uploadedSession
        (by decide) (by show (0 : ℚ) < 1000; norm_num)
    have hl := congrArg List.length h
    rw [e, densityPoints_length] at hl
    simp at hl
  exact ⟨hm, hd, (drawFrequencyGraph_eases searchedSession 10 hm hd).2.2.2⟩


/-! ## Pulse rings -/

theorem initSequenceVisualization_pulseRings (s : State) :
    (initSequenceVisualization s).vizData.pulseRings
      = [{ radius := 50, maxRadius := 150, opacity := 0.5, speed := 0.5 },
         { radius := 90, maxRadius := 150, opacity := 0.5, speed := 0.7 },
         { radius := 130, maxRadius := 150, opacity := 0.5, speed := 0.9 }] := by
  simp only [initSequenceVisualization, List.range, List.range.loop, List.map_cons,
    List.map_nil]
  norm_num

theorem advanceRing_eq (ring : PulseRing) :
    advanceRing ring
      = if ring.radius + ring.speed > ring.maxRadius then { ring with radius := 30 }
        else { ring with radius := ring.radius + ring.speed } := by
  unfold advanceRing
  by_cases h : ring.radius + ring.speed > ring.maxRadius
  · simp only [h, if_true]
  · simp only [h, if_false]

theorem RingInRange_advanceRing (ring : PulseRing) (h : RingInRange ring) :
    RingInRange (advanceRing ring) ∧ (advanceRing ring).maxRadius = ring.maxRadius ∧
    (advanceRing ring).speed = ring.speed := by
  obtain ⟨h1, h2, h3⟩ := h
  rw [advanceRing_eq]
  split
  · exact ⟨⟨le_refl _, le_trans h1 h2, h3⟩, rfl, rfl⟩
  · rename_i hgt
    exact ⟨⟨by show (30 : ℚ) ≤ ring.radius + ring.speed; linarith, not_lt.mp hgt, h3⟩, rfl, rfl⟩

theorem drawPulseRings_iterate (n : ℕ) (s : State) :
    ((fun t => (drawPulseRings t).1)^[n] s).vizData.pulseRings
      = s.vizData.pulseRings.map (advanceRing^[n]) := by
  induction n generalizing s with
  | zero => simp
  | succ n ih =>
    rw [Function.iterate_succ_apply, ih]
    simp only [drawPulseRings, List.map_map]
    rfl

theorem RingInRange_iterate (n : ℕ) (ring : PulseRing) (h : RingInRange ring) :
    RingInRange (advanceRing^[n] ring) ∧ (advanceRing^[n] ring).maxRadius = ring.maxRadius ∧
    (advanceRing^[n] ring).speed = ring.speed := by
  induction n with
  | zero => exact ⟨h, rfl, rfl⟩
  | succ n ih =>
    rw [Function.iterate_succ_apply']
    obtain ⟨i1, i2, i3⟩ := ih
    obtain ⟨j1, j2, j3⟩ := RingInRange_advanceRing _ i1
    exact ⟨j1, j2.trans i2, j3.trans i3⟩

theorem ringAlpha_range (ring : PulseRing) (h : RingInRange ring) :
    0 ≤ ringAlpha ring ∧ ringAlpha ring ≤ 0.4 := by
  obtain ⟨h1, h2, -⟩ := h
  have hmax : (0 : ℚ) < ring.maxRadius := by linarith
  have hp0 : 0 ≤ ring.radius / ring.maxRadius := div_nonneg (by linarith) hmax.le
  have hp1 : ring.radius / ring.maxRadius ≤ 1 := (div_le_one hmax).mpr h2
  unfold ringAlpha
  constructor
  · exact mul_nonneg (by norm_num) (by linarith)
  · have : (0.4 : ℚ) * (1 - ring.radius / ring.maxRadius) ≤ 0.4 * 1 :=
      mul_le_mul_of_nonneg_left (by linarith) (by norm_num)
    linarith

/-- C22. The rings `initSequenceVisualization` creates have the radii 50, 90
and 130, `maxRadius` 150 and the speeds 0.5, 0.7 and 0.9.  Each
`drawPulseRings` frame adds the speed of a ring to its radius or, when that
sum is past `maxRadius`, resets the radius to 30.  After every number of
frames each of these rings has `30 ≤ radius ≤ maxRadius = 150` and its speed
unchanged, and the opacity it is drawn with, `0.4 * (1 - radius / maxRadius)`,
lies in `[0, 0.4]`; that opacity is `0.4 - (0.4 / maxRadius) * radius`, which
falls as the radius grows. -/
theorem pulse_rings_in_range (s : State) (n : ℕ) :
    (initSequenceVisualization s).vizData.pulseRings
      = [{ radius := 50, maxRadius := 150, opacity := 0.5, speed := 0.5 },
         { radius := 90, maxRadius := 150, opacity := 0.5, speed := 0.7 },
         { radius := 130, maxRadius := 150, opacity := 0.5, speed := 0.9 }] ∧
    (∀ t : State, (drawPulseRings t).1.vizData.pulseRings
      = t.vizData.pulseRings.map fun ring =>
          if ring.radius + ring.speed > ring.maxRadius then { ring with radius := 30 }
          else { ring with radius := ring.radius + ring.speed }) ∧
    ((fun t => (drawPulseRings t).1)^[n] (initSequenceVisualization s)).vizData.pulseRings.length
      = 3 ∧
    (∀ ring ∈ ((fun t => (drawPulseRings t).1)^[n]
        (initSequenceVisualization s)).vizData.pulseRings,
      30 ≤ ring.radius ∧ ring.radius ≤ ring.maxRadius ∧ ring.maxRadius = 150 ∧
      (ring.speed = 0.5 ∨ ring.speed = 0.7 ∨ ring.speed = 0.9) ∧
      0 ≤ ringAlpha ring ∧ ringAlpha ring ≤ 0.4) ∧
    (∀ drawn ∈ (drawPulseRings ((fun t => (drawPulseRings t).1)^[n]
        (initSequenceVisualization s))).2,
      30 ≤ drawn.1 ∧ drawn.1 ≤ 150 ∧ drawn.2 = 0.4 * (1 - drawn.1 / 150) ∧
      0 ≤ drawn.2 ∧ drawn.2 ≤ 0.4) ∧
    (∀ ring : PulseRing, ringAlpha ring = 0.4 - (0.4 / ring.maxRadius) * ring.radius) ∧
    (∀ maxRadius r₁ r₂ : ℚ, 0 < maxRadius → r₁ < r₂ →
      0.4 * (1 - r₂ / maxRadius) < 0.4 * (1 - r₁ / maxRadius)) := by
  have hinit := initSequenceVisualization_pulseRings s
  have hstart : ∀ ring ∈ (initSequenceVisualization s).vizData.pulseRings,
      RingInRange ring ∧ ring.maxRadius = 150 ∧
      (ring.speed = 0.5 ∨ ring.speed = 0.7 ∨ ring.speed = 0.9) := by
    intro ring hr
    rw [hinit] at hr
    simp only [List.mem_cons, List.mem_singleton, List.not_mem_nil, or_false] at hr
    rcases hr with rfl | rfl | rfl
    · exact ⟨⟨by norm_num, by norm_num, by norm_num⟩, rfl, Or.inl rfl⟩
    · exact ⟨⟨by norm_num, by norm_num, by norm_num⟩, rfl, Or.inr (Or.inl rfl)⟩
    · exact ⟨⟨by norm_num, by norm_num, by norm_num⟩, rfl, Or.inr (Or.inr rfl)⟩
  have hafter : ∀ m, ∀ ring ∈ ((fun t => (drawPulseRings t).1)^[m]
      (initSequenceVisualization s)).vizData.pulseRings,
      RingInRange ring ∧ ring.maxRadius = 150 ∧
      (ring.speed = 0.5 ∨ ring.speed = 0.7 ∨ ring.speed = 0.9) := by
    intro m ring hr
    rw [drawPulseRings_iterate] at hr
    obtain ⟨r0, hr0, rfl⟩ := List.mem_map.mp hr
    obtain ⟨a1, a2, a3⟩ := hstart r0 hr0
    obtain ⟨b1, b2, b3⟩ := RingInRange_iterate m r0 a1
    exact ⟨b1, b2.trans a2, by rw [b3]; exact a3⟩
  refine ⟨hinit, ?_, ?_, ?_, ?_, ?_, ?_⟩
  · intro t
    simp only [drawPulseRings]
    apply List.map_congr_left
    intro ring _
    exact advanceRing_eq ring
  · rw [drawPulseRings_iterate, List.length_map, hinit]
    rfl
  · intro ring hr
    obtain ⟨a1, a2, a3⟩ := hafter n ring hr
    obtain ⟨c1, c2⟩ := ringAlpha_range ring a1
    exact ⟨a1.1, a1.2.1, a2, a3, c1, c2⟩
  · intro drawn hd
    have hsucc : (drawPulseRings ((fun t => (drawPulseRings t).1)^[n]
        (initSequenceVisualization s))).1
        = (fun t => (drawPulseRings t).1)^[n + 1] (initSequenceVisualization s) := by
      rw [Function.iterate_succ_apply']
    have hd' : drawn ∈ ((drawPulseRings ((fun t => (drawPulseRings t).1)^[n]
        (initSequenceVisualization s))).1.vizData.pulseRings.map
          fun ring => (ring.radius, ringAlpha ring)) := hd
    rw [hsucc] at hd'
    obtain ⟨ring, hr, rfl⟩ := List.mem_map.mp hd'
    obtain ⟨a1, a2, -⟩ := hafter (n + 1) ring hr
    obtain ⟨c1, c2⟩ := ringAlpha_range ring a1
    refine ⟨a1.1, by rw [← a2]; exact a1.2.1, ?_, c1, c2⟩
    show ringAlpha ring = 0.4 * (1 - ring.radius / 150)
    rw [ringAlpha, a2]
  · intro ring
    unfold ringAlpha
    ring
  · intro maxRadius r₁ r₂ hmax hlt
    have : r₁ / maxRadius < r₂ / maxRadius := div_lt_div_of_pos_right hlt hmax
    have h4 : (0 : ℚ) < 0.4 := by norm_num
    nlinarith


/-! ## Reflection off the edges -/

theorem Reflecting_step (w x v : ℚ) (h : Reflecting w x v) :
    Reflecting w (x + v) (if x + v < 0 ∨ x + v > w then v * -1 else v) := by
  rcases h with ⟨h0, h1⟩ | ⟨-, h0, h1⟩
  · by_cases hout : x + v < 0 ∨ x + v > w
    · rw [if_pos hout]
      refine Or.inr ⟨hout, ?_, ?_⟩ <;> linarith
    · rw [if_neg hout]
      simp only [not_or, not_lt, gt_iff_lt] at hout
      exact Or.inl hout
  · exact Or.inl ⟨h0, h1⟩

theorem Reflecting_margin (w x v : ℚ) (h : Reflecting w x v) :
    -|v| ≤ x ∧ x ≤ w + |v| := by
  have h1 := neg_abs_le v
  have h2 := le_abs_self v
  have h3 := abs_nonneg v
  rcases h with ⟨h0, hw⟩ | ⟨hout, h0, hw⟩
  · constructor <;> linarith
  · rcases hout with hneg | hpos
    · constructor <;> linarith
    · constructor <;> linarith

theorem abs_flip (c : Prop) [Decidable c] (v : ℚ) : |if c then v * -1 else v| = |v| := by
  split
  · rw [mul_neg_one, abs_neg]
  · rfl

theorem Bouncing_of_onSurface (W H : ℚ) (p : Particle)
    (h : 0 ≤ p.x ∧ p.x ≤ W ∧ 0 ≤ p.y ∧ p.y ≤ H) : Bouncing W H p :=
  ⟨Or.inl ⟨h.1, h.2.1⟩, Or.inl ⟨h.2.2.1, h.2.2.2⟩⟩

theorem WithinMargin_of_Bouncing (W H : ℚ) (p : Particle) (h : Bouncing W H p) :
    WithinMargin W H p := by
  obtain ⟨a1, a2⟩ := Reflecting_margin W p.x p.vx h.1
  obtain ⟨b1, b2⟩ := Reflecting_margin H p.y p.vy h.2
  exact ⟨a1, a2, b1, b2⟩

theorem Bouncing_moveParticle (W H : ℚ) (p : Particle) (h : Bouncing W H p) :
    Bouncing W H (moveParticle W H p) :=
  ⟨Reflecting_step W p.x p.vx h.1, Reflecting_step H p.y p.vy h.2⟩

theorem moveParticle_abs (W H : ℚ) (p : Particle) :
    |(moveParticle W H p).vx| = |p.vx| ∧ |(moveParticle W H p).vy| = |p.vy| :=
  ⟨abs_flip _ _, abs_flip _ _⟩

theorem stepParticle_motion (W H : ℚ) (p q : Particle) (h : stepParticle W H p = some q) :
    q.x = (moveParticle W H p).x ∧ q.y = (moveParticle W H p).y ∧
    q.vx = (moveParticle W H p).vx ∧ q.vy = (moveParticle W H p).vy := by
  unfold stepParticle at h
  simp only at h
  split at h
  · cases h
    exact ⟨rfl, rfl, rfl, rfl⟩
  · split at h
    · cases h
    · cases h
      exact ⟨rfl, rfl, rfl, rfl⟩

theorem Bouncing_stepParticle (W H : ℚ) (p q : Particle) (hp : Bouncing W H p)
    (h : stepParticle W H p = some q) : Bouncing W H q := by
  obtain ⟨e1, e2, e3, e4⟩ := stepParticle_motion W H p q h
  have := Bouncing_moveParticle W H p hp
  unfold Bouncing at this ⊢
  rw [e1, e2, e3, e4]
  exact this

theorem Bouncing_drawParticlesFrom (W H : ℚ) (n i : ℕ) (ps : List Particle)
    (h : ∀ p ∈ ps, Bouncing W H p) : ∀ p ∈ drawParticlesFrom W H n i ps, Bouncing W H p := by
  induction n generalizing i ps with
  | zero => exact h
  | succ n ih =>
    unfold drawParticlesFrom
    cases hp : ps[i]? with
    | none => exact ih (i + 1) ps h
    | some p =>
      simp only
      cases hs : stepParticle W H p with
      | none => exact ih (i + 1) _ fun q hq => h q (List.mem_of_mem_eraseIdx hq)
      | some p' =>
        refine ih (i + 1) _ fun q hq => ?_
        rcases List.mem_or_eq_of_mem_set hq with hq | hq
        · exact h q hq
        · subst hq
          exact Bouncing_stepParticle W H p q (h p (List.getElem?_mem hp)) hs

theorem drawParticles_iterate_surface (n : ℕ) (s : State) :
    (drawParticles^[n] s).vizWidth = s.vizWidth ∧
    (drawParticles^[n] s).vizHeight = s.vizHeight := by
  induction n generalizing s with
  | zero => exact ⟨rfl, rfl⟩
  | succ n ih =>
    rw [Function.iterate_succ_apply]
    exact ih (drawParticles s)

theorem Bouncing_drawParticles_iterate (n : ℕ) (s : State)
    (h : ∀ p ∈ s.vizData.particles, Bouncing s.vizWidth s.vizHeight p) :
    ∀ p ∈ (drawParticles^[n] s).vizData.particles, Bouncing s.vizWidth s.vizHeight p := by
  induction n generalizing s with
  | zero => exact h
  | succ n ih =>
    rw [Function.iterate_succ_apply]
    exact ih (drawParticles s) (Bouncing_drawParticlesFrom _ _ _ _ _ h)

theorem moveParticle_iterate (W H : ℚ) (m : ℕ) (p : Particle) (h : Bouncing W H p) :
    Bouncing W H ((moveParticle W H)^[m] p) ∧
    |((moveParticle W H)^[m] p).vx| = |p.vx| ∧ |((moveParticle W H)^[m] p).vy| = |p.vy| := by
  induction m with
  | zero => exact ⟨h, rfl, rfl⟩
  | succ m ih =>
    rw [Function.iterate_succ_apply']
    obtain ⟨i1, i2, i3⟩ := ih
    obtain ⟨a1, a2⟩ := moveParticle_abs W H ((moveParticle W H)^[m] p)
    exact ⟨Bouncing_moveParticle W H _ i1, a1.trans i2, a2.trans i3⟩

theorem drawParticlesFrom_succ (W H : ℚ) (n i : ℕ) (ps : List Particle) :
    drawParticlesFrom W H (n + 1) i ps
      = match ps[i]? with
        | none => drawParticlesFrom W H n (i + 1) ps
        | some p =>
          match stepParticle W H p with
          | none => drawParticlesFrom W H n (i + 1) (ps.eraseIdx i)
          | some p' => drawParticlesFrom W H n (i + 1) (ps.set i p') := rfl

theorem stepParticle_ambient (W H : ℚ) (p : Particle) (h : p.life = none) :
    stepParticle W H p = some (moveParticle W H p) := by
  unfold stepParticle
  simp only [moveParticle_life, h]

theorem drawParticlesFrom_ambient (W H : ℚ) (live : List Particle) (n : ℕ)
    (pre rest : List Particle) (h : ∀ p ∈ live, p.life = none) :
    drawParticlesFrom W H (live.length + n) pre.length (pre ++ live ++ rest)
      = drawParticlesFrom W H n (pre.length + live.length)
          (pre ++ live.map (moveParticle W H) ++ rest) := by
  induction live generalizing pre with
  | nil => simp
  | cons p live ih =>
    have hlen : (p :: live).length + n = (live.length + n) + 1 := by
      simp only [List.length_cons]; omega
    rw [hlen, drawParticlesFrom_succ]
    have hget : (pre ++ p :: live ++ rest)[pre.length]? = some p := by
      rw [List.append_assoc]
      exact getElem?_append_cons_length pre p (live ++ rest)
    rw [hget]
    simp only [stepParticle_ambient W H p (h p (List.mem_cons_self _ _))]
    have hset : (pre ++ p :: live ++ rest).set pre.length (moveParticle W H p)
        = (pre ++ [moveParticle W H p]) ++ live ++ rest := by
      rw [List.append_assoc, List.cons_append, set_append_cons_length]
      simp
    rw [hset]
    have := ih (pre ++ [moveParticle W H p]) (fun q hq => h q (List.mem_cons_of_mem _ hq))
    simp only [List.length_append, List.length_singleton] at this
    rw [this]
    have e1 : pre.length + 1 + live.length = pre.length + (p :: live).length := by
      simp only [List.length_cons]; omega
    have e2 : pre ++ [moveParticle W H p] ++ live.map (moveParticle W H) ++ rest
        = pre ++ (p :: live).map (moveParticle W H) ++ rest := by
      simp
    rw [e1, e2]

theorem drawParticles_ambient (s : State) (h : ∀ p ∈ s.vizData.particles, p.life = none) :
    (drawParticles s).vizData.particles
      = s.vizData.particles.map (moveParticle s.vizWidth s.vizHeight) := by
  have := drawParticlesFrom_ambient s.vizWidth s.vizHeight s.vizData.particles 0 [] [] h
  simp only [List.nil_append, List.append_nil, List.length_nil, Nat.add_zero, Nat.zero_add] at this
  simp only [drawParticles]
  rw [this]
  rfl

theorem drawParticles_iterate_ambient (n : ℕ) (s : State)
    (h : ∀ p ∈ s.vizData.particles, p.life = none) :
    (drawParticles^[n] s).vizData.particles
      = s.vizData.particles.map ((moveParticle s.vizWidth s.vizHeight)^[n]) := by
  induction n generalizing s with
  | zero => simp
  | succ n ih =>
    rw [Function.iterate_succ_apply]
    have h' : ∀ p ∈ (drawParticles s).vizData.particles, p.life = none := by
      rw [drawParticles_ambient s h]
      intro p hp
      obtain ⟨q, hq, rfl⟩ := List.mem_map.mp hp
      rw [moveParticle_life]
      exact h q hq
    rw [ih (drawParticles s) h', drawParticles_ambient s h, List.map_map]
    rfl

/-- C23. When every particle lies on the surface (`0 ≤ x ≤ vizWidth`,
`0 ≤ y ≤ vizHeight`; the bounds on the velocity are not needed), the callback
of `drawParticles` gives a velocity component the opposite sign exactly when
the moved coordinate is off the surface and leaves it alone otherwise, so
`|vx|` and `|vy|` are preserved; after any number of frames the surface is the
same and every particle of `vizData.particles` lies within
`[-|vx|, vizWidth + |vx|] x [-|vy|, vizHeight + |vy|]`; each particle keeps
`|vx|`, `|vy|` and that range along all its moves, and a field of ambient
particles is moved as a whole, once per frame. -/
theorem particles_reflect_off_edges (s : State) (n : ℕ)
    (h : ∀ p ∈ s.vizData.particles,
      0 ≤ p.x ∧ p.x ≤ s.vizWidth ∧ 0 ≤ p.y ∧ p.y ≤ s.vizHeight) :
    (∀ p : Particle,
      (moveParticle s.vizWidth s.vizHeight p).vx
        = (if p.x + p.vx < 0 ∨ p.x + p.vx > s.vizWidth then -p.vx else p.vx) ∧
      (moveParticle s.vizWidth s.vizHeight p).vy
        = (if p.y + p.vy < 0 ∨ p.y + p.vy > s.vizHeight then -p.vy else p.vy) ∧
      |(moveParticle s.vizWidth s.vizHeight p).vx| = |p.vx| ∧
      |(moveParticle s.vizWidth s.vizHeight p).vy| = |p.vy|) ∧
    (∀ p q : Particle, stepParticle s.vizWidth s.vizHeight p = some q →
      q.x = p.x + p.vx ∧ q.y = p.y + p.vy ∧ |q.vx| = |p.vx| ∧ |q.vy| = |p.vy|) ∧
    ((drawParticles^[n] s).vizWidth = s.vizWidth ∧
      (drawParticles^[n] s).vizHeight = s.vizHeight) ∧
    (∀ q ∈ (drawParticles^[n] s).vizData.particles,
      -|q.vx| ≤ q.x ∧ q.x ≤ s.vizWidth + |q.vx| ∧
      -|q.vy| ≤ q.y ∧ q.y ≤ s.vizHeight + |q.vy|) ∧
    (∀ p ∈ s.vizData.particles, ∀ m : ℕ,
      |((moveParticle s.vizWidth s.vizHeight)^[m] p).vx| = |p.vx| ∧
      |((moveParticle s.vizWidth s.vizHeight)^[m] p).vy| = |p.vy| ∧
      -|p.vx| ≤ ((moveParticle s.vizWidth s.vizHeight)^[m] p).x ∧
      ((moveParticle s.vizWidth s.vizHeight)^[m] p).x ≤ s.vizWidth + |p.vx| ∧
      -|p.vy| ≤ ((moveParticle s.vizWidth s.vizHeight)^[m] p).y ∧
      ((moveParticle s.vizWidth s.vizHeight)^[m] p).y ≤ s.vizHeight + |p.vy|) ∧
    ((∀ p ∈ s.vizData.particles, p.life = none) →
      (drawParticles^[n] s).vizData.particles
        = s.vizData.particles.map ((moveParticle s.vizWidth s.vizHeight)^[n])) := by
  have hb : ∀ p ∈ s.vizData.particles, Bouncing s.vizWidth s.vizHeight p :=
    fun p hp => Bouncing_of_onSurface _ _ p (h p hp)
  refine ⟨?_, ?_, drawParticles_iterate_surface n s, ?_, ?_, drawParticles_iterate_ambient n s⟩
  · intro p
    obtain ⟨a1, a2⟩ := moveParticle_abs s.vizWidth s.vizHeight p
    refine ⟨?_, ?_, a1, a2⟩
    · show (if p.x + p.vx < 0 ∨ p.x + p.vx > s.vizWidth then p.vx * -1 else p.vx) = _
      rw [mul_neg_one]
    · show (if p.y + p.vy < 0 ∨ p.y + p.vy > s.vizHeight then p.vy * -1 else p.vy) = _
      rw [mul_neg_one]
  · intro p q hq
    obtain ⟨e1, e2, e3, e4⟩ := stepParticle_motion _ _ p q hq
    obtain ⟨a1, a2⟩ := moveParticle_abs s.vizWidth s.vizHeight p
    exact ⟨e1, e2, by rw [e3]; exact a1, by rw [e4]; exact a2⟩
  · intro q hq
    exact WithinMargin_of_Bouncing _ _ q (Bouncing_drawParticles_iterate n s hb q hq)
  · intro p hp m
    obtain ⟨i1, i2, i3⟩ := moveParticle_iterate s.vizWidth s.vizHeight m p (hb p hp)
    obtain ⟨w1, w2, w3, w4⟩ := WithinMargin_of_Bouncing _ _ _ i1
    rw [i2] at w1 w2
    rw [i3] at w3 w4
    exact ⟨i2, i3, w1, w2, w3, w4⟩


theorem initVisualizer_onSurface (d : ℚ) (rand : ℕ → ℚ) (s : State)
    (hr : ∀ k, 0 ≤ rand k ∧ rand k ≤ 1) :
    (initVisualizer d rand s).vizWidth = 400 ∧ (initVisualizer d rand s).vizHeight = 300 ∧
    ∀ p ∈ (initVisualizer d rand s).vizData.particles,
      0 ≤ p.x ∧ p.x ≤ 400 ∧ 0 ≤ p.y ∧ p.y ≤ 300 := by
  refine ⟨rfl, rfl, ?_⟩
  intro p hp
  have hp' : p ∈ (List.range 60).map (ambientParticle rand 400 300) := hp
  obtain ⟨i, -, rfl⟩ := List.mem_map.mp hp'
  have h0 := hr (7 * i)
  have h1 := hr (7 * i + 1)
  simp only [ambientParticle]
  refine ⟨?_, ?_, ?_, ?_⟩ <;> nlinarith [h0.1, h0.2, h1.1, h1.2]

/-- One particle next to the right and the top edge: the first move takes it
to `(401, -2)`, one step off the surface on both axes, with both velocity
components turned; the second move takes it back to `(399, 1)` and turns
nothing. -/
theorem edgeParticle_bounces :
    moveParticle 400 300 edgeParticle
      = { edgeParticle with x := 401, y := -2, vx := -2, vy := 3, pulse := 0.05 } ∧
    moveParticle 400 300 (moveParticle 400 300 edgeParticle)
      = { edgeParticle with x := 399, y := 1, vx := -2, vy := 3, pulse := 0.1 } := by
  constructor
  · simp only [moveParticle, edgeParticle]
    norm_num
  · simp only [moveParticle, edgeParticle]
    norm_num

/-- The 60 ambient particles of a fresh surface of 400 by 300, every reading
of `Math.random` being 3/4, lie on the surface, and after 1000 frames every
one of them is within its margin. -/
theorem particles_reflect_off_edges_witness :
    (∀ p ∈ (initVisualizer 1 (fun _ => 3 / 4) (State.init .absent)).vizData.particles,
      0 ≤ p.x ∧ p.x ≤ 400 ∧ 0 ≤ p.y ∧ p.y ≤ 300) ∧
    (∀ q ∈ (drawParticles^[1000]
        (initVisualizer 1 (fun _ => 3 / 4) (State.init .absent))).vizData.particles,
      -|q.vx| ≤ q.x ∧ q.x ≤ 400 + |q.vx| ∧ -|q.vy| ≤ q.y ∧ q.y ≤ 300 + |q.vy|) :=
  have hs := (initVisualizer_onSurface 1 (fun _ => 3 / 4) (State.init .absent)
    (fun _ => ⟨by norm_num, by norm_num⟩)).2.2
  ⟨hs, (particles_reflect_off_edges
    (initVisualizer 1 (fun _ => 3 / 4) (State.init .absent)) 1000 hs).2.2.2.1⟩

end DNAAnalyzer
